import Mathlib

/-!
# GhalibVR simplecontroller driver: telemetry decode, server loop, lifecycle

A shallow embedding of `controller_device_driver.cpp` / `controller_device_driver.h`
(class `MyControllerDeviceDriver`) and theorems about it.

Conventions of the embedding

* A received buffer is a list of byte values (`Nat`, the `char`s of `recvbuf`).
* A `double` or `float` object holds a `CFloat`: a finite rational, a
  negative zero, an infinity or a NaN. The value a conversion stores is the number written in
  the input rounded to the destination's binary format (`toDouble`,
  `toFloat`), with overflow to an infinity and underflow to a zero. The
  floating constants of the source (`-0.15f`, ...) are written with their
  decimal value.
* The conversions of `sscanf_s` are those of ISO C `sscanf` (7.21.6.2 with
  7.22.1.3 and 7.22.1.4) as the GNU C library carries them out, the library
  of the non-Windows build that the header provides for. It departs from
  ISO C in three places, all marked at the definitions: an exponent marker
  without digits is taken and ignored, `0x.` is read as 0, and `nan` is not
  followed by a parenthesised sequence. A `%d` field outside the range of
  `int`, which ISO C leaves undefined, is converted by `strtol`, which
  saturates at the bounds of a 64-bit `long`, and the result is stored as
  `int`.
* Socket handles are integers, `INVALID_SOCKET` is `-1` as in the header.
* The two threads and the host are sequentialised: every blocking call
  (`accept`, `recv`) is a program point of the server thread, and its return
  value is an input of the step function.
-/

namespace GhalibVR

/-! ## Bytes and character classes -/

/-- A `char` buffer, one `Nat` per byte. -/
abbrev Bytes := List Nat

/-- The bytes of an ASCII string literal. -/
def bytesOf (s : String) : Bytes := s.toList.map Char.toNat

/-- C `isspace` in the "C" locale: space, `\t`, `\n`, `\v`, `\f`, `\r`. -/
def isSpace (c : Nat) : Bool := c == 32 || (9 ≤ c && c ≤ 13)

/-- C `isdigit`. -/
def isDigit (c : Nat) : Bool := 48 ≤ c && c ≤ 57

/-- ASCII `tolower`. -/
def toLower (c : Nat) : Nat := if 65 ≤ c ∧ c ≤ 90 then c + 32 else c

/-- C `isxdigit`. -/
def isXDigit (c : Nat) : Bool := isDigit c || (97 ≤ toLower c && toLower c ≤ 102)

/-- The characters of an n-char-sequence (`nan(...)`): digits, letters, underscore. -/
def isNChar (c : Nat) : Bool := isDigit c || c == 95 || (97 ≤ toLower c && toLower c ≤ 122)

/-- The C string held in a `char` array: the bytes before the first NUL. -/
def cstr (buf : Bytes) : Bytes := buf.takeWhile (fun c => c != 0)

/-- Skipping of leading white space done by every `%lf`, `%f`, `%d` directive. -/
def skipSpace (s : Bytes) : Bytes := s.dropWhile isSpace

/-- Value of a run of decimal digit characters, most significant first. -/
def natOfDigits (ds : Bytes) : Nat := ds.foldl (fun acc c => 10 * acc + (c - 48)) 0

/-- Optional sign: returns whether it was `-`, and the rest. -/
def scanSign : Bytes → Bool × Bytes
  | 45 :: r => (true, r)
  | 43 :: r => (false, r)
  | s => (false, s)

/-- The rational `± m * 10 ^ e`: the exact value of a decimal input item,
which the store then rounds (`toDouble`, `toFloat`). -/
def decValue (neg : Bool) (m : Nat) (e : Int) : ℚ :=
  let v : ℚ := if 0 ≤ e then ((m * 10 ^ e.toNat : Nat) : ℚ) else mkRat m (10 ^ (-e).toNat)
  if neg then -v else v

/-- Value of a hexadecimal digit character. -/
def hexDigitValue (c : Nat) : Nat := if isDigit c then c - 48 else toLower c - 87

/-- Value of a run of hexadecimal digit characters, most significant first. -/
def natOfHexDigits (ds : Bytes) : Nat := ds.foldl (fun acc c => 16 * acc + hexDigitValue c) 0

/-- The rational `± m * 2 ^ e`. -/
def binValue (neg : Bool) (m : Nat) (e : Int) : ℚ :=
  let v : ℚ := if 0 ≤ e then ((m * 2 ^ e.toNat : Nat) : ℚ) else mkRat m (2 ^ (-e).toNat)
  if neg then -v else v

/-! ## Floating-point objects -/

/-- The value of a `double` or `float` object, or of a floating-point input
item: a finite number (`fin 0` is the positive zero), the negative zero, an
infinity with its sign, or a NaN with its sign. -/
inductive CFloat
  | fin (q : ℚ)
  | negZero
  | inf (neg : Bool)
  | nan (neg : Bool)
  deriving DecidableEq

/-- The value written by a sign and a number: the number, or the negative
zero when the number is zero and the sign is a minus. -/
def CFloat.written (neg : Bool) (q : ℚ) : CFloat :=
  if q = 0 ∧ neg = true then CFloat.negZero else CFloat.fin q

/-- Numerals denote finite values. -/
instance (n : Nat) : OfNat CFloat n := ⟨CFloat.fin n⟩

/-- Negation, for writing the constants of the source such as `-0.15f`. -/
instance : Neg CFloat :=
  ⟨fun a =>
    match a with
    | CFloat.fin q => if q = 0 then CFloat.negZero else CFloat.fin (-q)
    | CFloat.negZero => CFloat.fin 0
    | CFloat.inf b => CFloat.inf (!b)
    | CFloat.nan b => CFloat.nan (!b)⟩

/-- Exact sum of finite values (used by the example instance of `vrmath.h`);
NaN for any other operands. -/
instance : Add CFloat :=
  ⟨fun a b =>
    match a, b with
    | CFloat.fin p, CFloat.fin q => CFloat.fin (p + q)
    | _, _ => CFloat.nan false⟩

/-- Exact quotient of finite values, for writing constants such as
`15 / 100`; NaN for any other operands and for a zero divisor. -/
instance : Div CFloat :=
  ⟨fun a b =>
    match a, b with
    | CFloat.fin p, CFloat.fin q => if q = 0 then CFloat.nan false else CFloat.fin (p / q)
    | _, _ => CFloat.nan false⟩

/-- The rational `2 ^ k`. -/
def pow2 (k : Int) : ℚ := if 0 ≤ k then ((2 ^ k.toNat : Nat) : ℚ) else mkRat 1 (2 ^ (-k).toNat)

/-- The integer `e` with `2 ^ e ≤ n / d < 2 ^ (e + 1)`, for positive `n` and `d`. -/
def floorLog2 (n d : Nat) : Int :=
  let e0 : Int := (Nat.log2 n : Int) - (Nat.log2 d : Int)
  if (if 0 ≤ e0 then d * 2 ^ e0.toNat ≤ n else d ≤ n * 2 ^ (-e0).toNat) then e0 else e0 - 1

/-- Rounding of a rational to the binary format with `p` significant bits and
largest exponent `emax` (IEEE 754 round to nearest, ties to even, with
subnormal numbers): the significand is rounded at the quantum `2 ^ k` of the
binade of `q`; a result of magnitude `2 ^ (emax + 1)` or more is an infinity,
and a non-zero number that rounds to zero gives the zero of its sign. -/
def roundBinary (p : Nat) (emax : Int) (q : ℚ) : CFloat :=
  if q = 0 then CFloat.fin 0
  else
    let n := q.num.natAbs
    let d := q.den
    let e := floorLog2 n d
    let k := max e (1 - emax) - ((p : Int) - 1)
    let N := n * 2 ^ (-k).toNat
    let D := d * 2 ^ k.toNat
    let f := N / D
    let r := if 2 * (N % D) < D then f else if D < 2 * (N % D) then f + 1 else f + f % 2
    if emax < e ∨ (e = emax ∧ 2 ^ p ≤ r) then CFloat.inf (decide (q < 0))
    else if r = 0 then CFloat.written (decide (q < 0)) 0
    else CFloat.fin ((if q < 0 then -1 else 1) * ((r : ℚ) * pow2 k))

/-- The `double` (binary64) nearest to a value. -/
def toDouble : CFloat → CFloat
  | CFloat.fin q => roundBinary 53 1023 q
  | v => v

/-- The `float` (binary32) nearest to a value. -/
def toFloat : CFloat → CFloat
  | CFloat.fin q => roundBinary 24 127 q
  | v => v

/-! ## The conversions of `sscanf_s` -/

/-- The `long` that `strtol` returns for the integer the digits write: the
integer itself when it is in the range of a 64-bit `long`, `LONG_MAX` or
`LONG_MIN` otherwise. -/
def strtolValue (n : Int) : Int := max (-9223372036854775808) (min n 9223372036854775807)

/-- The `%d` conversion: skip white space, optional sign, a non-empty run of
decimal digits, converted as by `strtol`.  `none` is a matching (or input)
failure. -/
def scanInt (s : Bytes) : Option (Int × Bytes) :=
  let p := scanSign (skipSpace s)
  let ds := p.2.takeWhile isDigit
  if ds = [] then none
  else
    some (strtolValue (if p.1 then -(natOfDigits ds : Int) else (natOfDigits ds : Int)),
      p.2.dropWhile isDigit)

/-- Optional fraction `.ddd` of a floating-point input item: the digits and the rest. -/
def scanFraction : Bytes → Bytes × Bytes
  | 46 :: t => (t.takeWhile isDigit, t.dropWhile isDigit)
  | s => ([], s)

/-- Optional exponent part `e[+-]ddd` of a decimal input item: the exponent
(0 when absent) and the rest. The marker and the sign are taken even when no
digit follows them, and the exponent is then 0: this is what the GNU C
library does, where ISO C has a matching failure (7.21.6.2p9-10). -/
def scanExponent : Bytes → Int × Bytes
  | c :: t =>
    if c = 101 ∨ c = 69 then
      let p := scanSign t
      let ds := p.2.takeWhile isDigit
      ((if p.1 then -(natOfDigits ds : Int) else (natOfDigits ds : Int)), p.2.dropWhile isDigit)
    else (0, c :: t)
  | [] => (0, [])

/-- The decimal form of a floating-point input item, after the sign: digits
with an optional `.`, at least one digit, optional exponent. -/
def scanDecimal (neg : Bool) (s : Bytes) : Option (CFloat × Bytes) :=
  let ip := s.takeWhile isDigit
  let fr := scanFraction (s.dropWhile isDigit)
  if ip = [] ∧ fr.1 = [] then none
  else
    let ex := scanExponent fr.2
    some (CFloat.written neg (decValue neg (natOfDigits (ip ++ fr.1)) (ex.1 - fr.1.length)), ex.2)

/-- Optional binary exponent part `p[+-]ddd` of a hexadecimal input item,
taken like the decimal exponent part. -/
def scanBinExponent : Bytes → Int × Bytes
  | c :: t =>
    if c = 112 ∨ c = 80 then
      let p := scanSign t
      let ds := p.2.takeWhile isDigit
      ((if p.1 then -(natOfDigits ds : Int) else (natOfDigits ds : Int)), p.2.dropWhile isDigit)
    else (0, c :: t)
  | [] => (0, [])

/-- Whether the text begins with the prefix `0x` or `0X` of a hexadecimal number. -/
def hexPrefix : Bytes → Bool
  | 48 :: x :: _ => x == 120 || x == 88
  | _ => false

/-- The value and rest of a hexadecimal item with integer digits `ip` and
fraction digits `fd`, followed by `r`. -/
def hexResult (neg : Bool) (ip fd r : Bytes) : CFloat × Bytes :=
  let ex := scanBinExponent r
  (CFloat.written neg (binValue neg (natOfHexDigits (ip ++ fd)) (ex.1 - 4 * (fd.length : Int))),
    ex.2)

/-- The hexadecimal form of a floating-point input item, after the sign and
the prefix `0x`: hexadecimal digits with an optional `.`, optional binary
exponent. With no digit and no point the item is a matching failure; with a
point and no digit the GNU C library reads the number 0 (the `0` of the
prefix) and takes the point. -/
def scanHex (neg : Bool) (s : Bytes) : Option (CFloat × Bytes) :=
  let ip := s.takeWhile isXDigit
  match s.dropWhile isXDigit with
  | 46 :: t =>
    if ip = [] ∧ t.takeWhile isXDigit = [] then some (CFloat.written neg 0, t)
    else some (hexResult neg ip (t.takeWhile isXDigit) (t.dropWhile isXDigit))
  | r => if ip = [] then none else some (hexResult neg ip [] r)

/-- How many leading characters of the text match, ignoring case, the
leading characters of a lower-case word. -/
def matchWord : Bytes → Bytes → Nat
  | w :: ws, c :: cs => if toLower c = w then matchWord ws cs + 1 else 0
  | _, _ => 0

/-- The letters of `infinity`. -/
def infinityWord : Bytes := [105, 110, 102, 105, 110, 105, 116, 121]

/-- The letters of `nan`. -/
def nanWord : Bytes := [110, 97, 110]

/-- The forms `inf` and `infinity` (any case) of a floating-point input item,
after the sign: the item is the longest prefix of `infinity` found, and it
matches when it is `inf` or the whole word. -/
def scanInf (neg : Bool) (s : Bytes) : Option (CFloat × Bytes) :=
  if matchWord infinityWord s = 8 then some (CFloat.inf neg, s.drop 8)
  else if matchWord infinityWord s = 3 then some (CFloat.inf neg, s.drop 3)
  else none

/-- The form `nan` (any case) of a floating-point input item, after the sign.
The GNU C library takes the three letters only; a parenthesised
n-char-sequence after them, which ISO C makes part of the item, is left in
the input. -/
def scanNan (neg : Bool) (s : Bytes) : Option (CFloat × Bytes) :=
  if matchWord nanWord s = 3 then some (CFloat.nan neg, s.drop 3) else none

/-- Whether the text begins with the letter `c` in either case. -/
def startsWithLetter (c : Nat) : Bytes → Bool
  | x :: _ => toLower x == c
  | [] => false

/-- The `%lf` / `%f` conversion: skip white space, optional sign, then `inf`
/ `infinity`, `nan`, a hexadecimal number after `0x`, or a decimal number.
The result is the value written, before it is rounded to the destination;
`none` is a matching (or input) failure. -/
def scanFloat (s : Bytes) : Option (CFloat × Bytes) :=
  let p := scanSign (skipSpace s)
  if startsWithLetter 105 p.2 then scanInf p.1 p.2
  else if startsWithLetter 110 p.2 then scanNan p.1 p.2
  else if hexPrefix p.2 then scanHex p.1 (p.2.drop 2)
  else scanDecimal p.1 p.2

/-! ## The `sscanf_s` call of the server loop -/

/-- A directive of a scanf format string. -/
inductive Directive
  | lf              -- `%lf`, destination `double*`
  | f               -- `%f`, destination `float*`
  | d               -- `%d`, destination `int*`
  | lit (c : Nat)   -- an ordinary character, matched literally
  deriving DecidableEq, Repr

/-- A value assigned by a conversion. -/
inductive Arg
  | dbl (v : CFloat)
  | flt (v : CFloat)
  | int (v : Int)
  deriving DecidableEq

/-- Execution of a directive list on an input string: the values assigned, in
order, up to the first failing directive.  A `%lf` assigns the `double`, a
`%f` the `float` nearest to the number read. -/
def scanDirectives : List Directive → Bytes → List Arg
  | [], _ => []
  | Directive.lit c :: ds, s =>
    match s with
    | b :: r => if b = c then scanDirectives ds r else []
    | [] => []
  | Directive.lf :: ds, s =>
    match scanFloat s with
    | some (v, r) => Arg.dbl (toDouble v) :: scanDirectives ds r
    | none => []
  | Directive.f :: ds, s =>
    match scanFloat s with
    | some (v, r) => Arg.flt (toFloat v) :: scanDirectives ds r
    | none => []
  | Directive.d :: ds, s =>
    match scanInt s with
    | some (v, r) => Arg.int v :: scanDirectives ds r
    | none => []

/-- The format string `"%lf,%lf,%lf,%lf;%d,%d,%f"` (line 189). -/
def imuFormat : List Directive :=
  [Directive.lf, Directive.lit 44, Directive.lf, Directive.lit 44, Directive.lf, Directive.lit 44,
   Directive.lf, Directive.lit 59, Directive.d, Directive.lit 44, Directive.d, Directive.lit 44,
   Directive.f]

/-- Return value of `sscanf_s(recvbuf, "%lf,%lf,%lf,%lf;%d,%d,%f", ...)`: the
number of assignments, or `EOF` (-1) when the string ends before the first
conversion. -/
def sscanf_items (recvbuf : Bytes) : Int :=
  if skipSpace recvbuf = [] then -1 else ((scanDirectives imuFormat recvbuf).length : Int)

/-! ## `IMUData` and the stores made by `sscanf_s` -/

/-- The `vr::HmdQuaternion_t` of openvr: four doubles `w, x, y, z`. -/
structure HmdQuaternion_t where
  w : CFloat
  x : CFloat
  y : CFloat
  z : CFloat
  deriving DecidableEq

/-- Modelled from the spec: the constant `HmdQuaternion_Identity` of `vrmath.h`
(a header that is not among the sources), the identity rotation
`w = 1, x = y = z = 0`. -/
def HmdQuaternion_Identity : HmdQuaternion_t := { w := 1, x := 0, y := 0, z := 0 }

/-- The `struct IMUData` of the header. -/
structure IMUData where
  orientation : HmdQuaternion_t
  trigger_value : CFloat
  a_click : Bool
  trigger_click : Bool
  deriving DecidableEq

/-- The object representation of `received_data_temp` as `sscanf_s` sees it:
the numeric members, and the five bytes starting at the address of `a_click`
(offset 36: `a_click`, offset 37: `trigger_click`, offsets 38 and 39: tail
padding, offset 40: the first byte after the 40-byte struct). -/
structure RawIMU where
  x : CFloat
  y : CFloat
  z : CFloat
  w : CFloat
  trigger_value : CFloat
  tail : List Nat
  deriving DecidableEq

/-- The four bytes, in memory order (little-endian, the byte order of every
platform the driver is built for), of the 32-bit `int` that the integer `n`
converts to: its residue modulo `2 ^ 32`. -/
def int32Bytes (n : Int) : List Nat :=
  let u := (n % 4294967296).toNat
  [u % 256, u / 256 % 256, u / 65536 % 256, u / 16777216 % 256]

/-- Overwrite `mem` from offset `off` on with the bytes `bs`. -/
def pokeBytes (mem : List Nat) (off : Nat) (bs : List Nat) : List Nat :=
  mem.take off ++ bs ++ mem.drop (off + bs.length)

/-- The i-th assignment of the call at lines 189-193: destinations are
`&orientation.x`, `&orientation.y`, `&orientation.z`, `&orientation.w`,
`(int* )&a_click`, `(int* )&trigger_click`, `&trigger_value`. The two `%d`
stores write four bytes each at the address of a one-byte `bool`. -/
def storeArg (raw : RawIMU) (i : Nat) (a : Arg) : RawIMU :=
  match i, a with
  | 0, Arg.dbl v => { raw with x := v }
  | 1, Arg.dbl v => { raw with y := v }
  | 2, Arg.dbl v => { raw with z := v }
  | 3, Arg.dbl v => { raw with w := v }
  | 4, Arg.int n => { raw with tail := pokeBytes raw.tail 0 (int32Bytes n) }
  | 5, Arg.int n => { raw with tail := pokeBytes raw.tail 1 (int32Bytes n) }
  | 6, Arg.flt v => { raw with trigger_value := v }
  | _, _ => raw

/-- All assignments of one call, in order. -/
def storeArgs (raw : RawIMU) (i : Nat) : List Arg → RawIMU
  | [] => raw
  | a :: as => storeArgs (storeArg raw i a) (i + 1) as

/-- The automatic variable `received_data_temp` before the call: its value is
indeterminate; zero bytes stand for it (every member is overwritten when
seven items are assigned). -/
def rawUninit : RawIMU :=
  { x := 0, y := 0, z := 0, w := 0, trigger_value := 0, tail := [0, 0, 0, 0, 0] }

/-- Reading a `bool` member whose byte the `int` store has written: it reads
as true when the byte is non-zero. -/
def boolOfByte (b : Nat) : Bool := b != 0

/-- The `IMUData` value held by the object representation. -/
def IMUData.ofRaw (raw : RawIMU) : IMUData :=
  { orientation := { w := raw.w, x := raw.x, y := raw.y, z := raw.z }
    trigger_value := raw.trigger_value
    a_click := boolOfByte (raw.tail.getD 0 0)
    trigger_click := boolOfByte (raw.tail.getD 1 0) }

/-- The variable `received_data_temp` after the `sscanf_s` call on `recvbuf`. -/
def received_data_temp (recvbuf : Bytes) : IMUData :=
  IMUData.ofRaw (storeArgs rawUninit 0 (scanDirectives imuFormat recvbuf))

/-! ## Driver state -/

/-- A socket handle (`SOCKET`, `int` outside Windows). -/
abbrev SOCKET := Int

/-- The header's `#define INVALID_SOCKET -1`. -/
def INVALID_SOCKET : SOCKET := -1

/-- The openvr constant `vr::k_unTrackedDeviceIndexInvalid` (`0xFFFFFFFF`). -/
def k_unTrackedDeviceIndexInvalid : Nat := 4294967295

/-- The header's `TCP_PORT_LEFT`. -/
def TCP_PORT_LEFT : Nat := 12345

/-- The header's `TCP_PORT_RIGHT`. -/
def TCP_PORT_RIGHT : Nat := 12346

/-- The `RECV_BUFFER_SIZE` of line 14. -/
def RECV_BUFFER_SIZE : Nat := 512

/-- The openvr enumeration `vr::ETrackedControllerRole`. -/
inductive ETrackedControllerRole
  | TrackedControllerRole_Invalid
  | TrackedControllerRole_LeftHand
  | TrackedControllerRole_RightHand
  | TrackedControllerRole_OptOut
  | TrackedControllerRole_Treadmill
  | TrackedControllerRole_Stylus
  deriving DecidableEq, Repr

/-- The openvr enumeration `vr::ETrackingResult`. -/
inductive ETrackingResult
  | TrackingResult_Uninitialized
  | TrackingResult_Calibrating_InProgress
  | TrackingResult_Calibrating_OutOfRange
  | TrackingResult_Running_OK
  | TrackingResult_Running_OutOfRange
  | TrackingResult_Fallback_RotationOnly
  deriving DecidableEq, Repr

/-- The openvr `vr::HmdVector3_t` (`float v[3]`). -/
structure HmdVector3_t where
  v0 : CFloat
  v1 : CFloat
  v2 : CFloat
  deriving DecidableEq

/-- The openvr `vr::HmdMatrix34_t` (`float m[3][4]`), row by row. -/
structure HmdMatrix34_t where
  m : List (List CFloat)
  deriving DecidableEq

/-- The members of openvr's `vr::TrackedDevicePose_t` that `GetPose` reads. -/
structure TrackedDevicePose_t where
  mDeviceToAbsoluteTracking : HmdMatrix34_t
  bPoseIsValid : Bool
  deriving DecidableEq

/-- The members of openvr's `vr::DriverPose_t` that `GetPose` sets to a
non-zero value; every other member keeps the zero of `pose = { 0 }`. -/
structure DriverPose_t where
  qWorldFromDriverRotation : HmdQuaternion_t
  qDriverFromHeadRotation : HmdQuaternion_t
  vecPosition : HmdVector3_t
  qRotation : HmdQuaternion_t
  result : ETrackingResult
  poseIsValid : Bool
  deviceIsConnected : Bool
  deriving DecidableEq

/-- The functions of `vrmath.h` used on the valid-head-pose branch of
`GetPose`. The header is not among the sources and two of them use square
roots, so they are parameters of the embedding. -/
structure VrMath where
  HmdVector3_From34Matrix : HmdMatrix34_t → HmdVector3_t
  HmdQuaternion_FromMatrix : HmdMatrix34_t → HmdQuaternion_t
  rotate : HmdVector3_t → HmdQuaternion_t → HmdVector3_t
  add : HmdVector3_t → HmdVector3_t → HmdVector3_t

/-- The data members of `MyControllerDeviceDriver` that the lifecycle, the
server loop and the pose code read or write (the settings strings and the
input handles are left out). -/
structure Driver where
  my_controller_index_ : Nat
  my_controller_role_ : ETrackedControllerRole
  pose_thread_active_ : Bool
  tcp_server_active_ : Bool
  listen_socket_ : SOCKET
  client_socket_ : SOCKET
  server_port_ : Nat
  latest_imu_data_ : IMUData
  new_imu_data_available_ : Bool
  deriving DecidableEq

/-- Where the thread `my_tcp_server_thread_` is. -/
inductive ServerPc
  | notRunning                -- no thread (never started, or joined)
  | loopTest                  -- about to evaluate `while (tcp_server_active_)`, line 156
  | inAccept (l : SOCKET)     -- blocked in `accept(l, ...)`, line 160
  | inRecv (h : SOCKET)       -- blocked in `recv(h, ...)`, line 182
  | returned                  -- the thread function has returned, thread not yet joined
  deriving DecidableEq, Repr

/-- The components whose handles `MyRunFrame` updates (`enum MyComponent`). -/
inductive MyComponent
  | MyComponent_a_touch
  | MyComponent_a_click
  | MyComponent_trigger_value
  | MyComponent_trigger_click
  | MyComponent_haptic
  deriving DecidableEq, Repr

/-- Calls made on the operating system and on the host, as they are recorded
in the trace. -/
inductive Call
  | socketCreate (h : SOCKET)
  | accept (l : SOCKET)
  | recv (h : SOCKET)
  | shutdown (h : SOCKET)
  | closesocket (h : SOCKET)
  | joinServer
  | joinPose
  | sleep (ms : Nat)
  | WSACleanup
  | logMalformed (items : Int)
  | log
  | TrackedDevicePoseUpdated (index : Nat) (pose : DriverPose_t)
  | UpdateBooleanComponent (c : MyComponent) (v : Bool)
  | UpdateScalarComponent (c : MyComponent) (v : CFloat)
  deriving DecidableEq

/-- The driver object together with what surrounds it: the server thread's
program point, whether the pose thread is joinable, the sockets the
operating system holds open, and the trace of calls. -/
structure World where
  d : Driver
  server : ServerPc
  pose_joinable : Bool
  listening : List SOCKET
  connected : List SOCKET
  trace : List Call
  deriving DecidableEq

/-- Record a call in the trace. -/
def emit (c : Call) (w : World) : World := { w with trace := w.trace ++ [c] }

/-- The call `closesocket(h)` / `close(h)`: the handle is no longer open. -/
def osClose (h : SOCKET) (w : World) : World :=
  { w with
    listening := w.listening.filter (fun x => x != h)
    connected := w.connected.filter (fun x => x != h)
    trace := w.trace ++ [Call.closesocket h] }

/-- The store: the pair guarded by `imu_data_mutex_`. -/
def Driver.store (d : Driver) : IMUData × Bool := (d.latest_imu_data_, d.new_imu_data_available_)

/-- The constructor (lines 16-45). -/
def construct (role : ETrackedControllerRole) : World :=
  { d :=
      { my_controller_index_ := k_unTrackedDeviceIndexInvalid
        my_controller_role_ := role
        pose_thread_active_ := false
        tcp_server_active_ := false
        listen_socket_ := INVALID_SOCKET
        client_socket_ := INVALID_SOCKET
        server_port_ :=
          if role = ETrackedControllerRole.TrackedControllerRole_LeftHand then TCP_PORT_LEFT
          else TCP_PORT_RIGHT
        latest_imu_data_ :=
          { orientation := HmdQuaternion_Identity, trigger_value := 0, a_click := false,
            trigger_click := false }
        new_imu_data_available_ := false }
    server := ServerPc.notRunning
    pose_joinable := false
    listening := []
    connected := []
    trace := [] }

/-! ## The TCP server thread (`MyTCPServerThreadFunction`) -/

/-- Outcome of the start-up calls `socket`, `bind`, `listen` (lines 121-152). -/
inductive StartResult
  | socketFailed
  | bindFailed (h : SOCKET)
  | listenFailed (h : SOCKET)
  | listening (h : SOCKET)
  deriving DecidableEq, Repr

/-- Lines 119-154: create, bind and listen; any failure returns from the
thread function with `listen_socket_` invalid. -/
def serverStart (r : StartResult) (w : World) : World :=
  match r with
  | StartResult.socketFailed =>
    { emit Call.log w with
      d := { w.d with listen_socket_ := INVALID_SOCKET }, server := ServerPc.returned }
  | StartResult.bindFailed h =>
    let w := emit (Call.socketCreate h) w
    let w := osClose h (emit Call.log w)
    { w with d := { w.d with listen_socket_ := INVALID_SOCKET }, server := ServerPc.returned }
  | StartResult.listenFailed h =>
    let w := emit (Call.socketCreate h) w
    let w := osClose h (emit Call.log w)
    { w with d := { w.d with listen_socket_ := INVALID_SOCKET }, server := ServerPc.returned }
  | StartResult.listening h =>
    let w := emit (Call.socketCreate h) w
    { emit Call.log w with
      d := { w.d with listen_socket_ := h }
      listening := h :: w.listening
      server := ServerPc.loopTest }

/-- Lines 233-249, after the loop: close what is still open and return. -/
def serverExit (w : World) : World :=
  let w :=
    if w.d.client_socket_ ≠ INVALID_SOCKET then
      let w := osClose w.d.client_socket_ w
      { w with d := { w.d with client_socket_ := INVALID_SOCKET } }
    else w
  let w :=
    if w.d.listen_socket_ ≠ INVALID_SOCKET then
      let w := osClose w.d.listen_socket_ w
      { w with d := { w.d with listen_socket_ := INVALID_SOCKET } }
    else w
  { emit Call.log w with server := ServerPc.returned }

/-- Line 179 on: with a client handle the thread calls `recv` and blocks;
without one it sleeps 100 ms and goes back to the loop test. -/
def serverLine179 (w : World) : World :=
  if w.d.client_socket_ ≠ INVALID_SOCKET then
    { emit (Call.recv w.d.client_socket_) w with server := ServerPc.inRecv w.d.client_socket_ }
  else
    { emit (Call.sleep 100) w with server := ServerPc.loopTest }

/-- Lines 156-160: the loop test, then either the `accept` call (only when
`client_socket_` is `INVALID_SOCKET`) or line 179. -/
def serverLoopTest (w : World) : World :=
  if w.d.tcp_server_active_ then
    if w.d.client_socket_ = INVALID_SOCKET then
      { emit (Call.accept w.d.listen_socket_) w with server := ServerPc.inAccept w.d.listen_socket_ }
    else serverLine179 w
  else serverExit w

/-- Lines 160-177: `accept` has returned `h`. -/
def afterAccept (h : SOCKET) (w : World) : World :=
  let w := { w with d := { w.d with client_socket_ := h } }
  if h = INVALID_SOCKET then
    let w := if w.d.tcp_server_active_ then emit Call.log w else w
    if w.d.tcp_server_active_ then
      { emit (Call.sleep 100) w with server := ServerPc.loopTest }
    else serverExit w
  else
    serverLine179 (emit Call.log { w with connected := h :: w.connected })

/-- Lines 182-226: `recv` has returned `recv_len`, having written `data`. -/
def afterRecv (recv_len : Int) (data : Bytes) (w : World) : World :=
  if recv_len > 0 then
    let recvbuf := cstr (data ++ [0])
    let items := sscanf_items recvbuf
    if items = 7 then
      { w with
        d := { w.d with latest_imu_data_ := received_data_temp recvbuf,
                        new_imu_data_available_ := true }
        server := ServerPc.loopTest }
    else
      { emit (Call.logMalformed items) w with server := ServerPc.loopTest }
  else if recv_len = 0 then
    let w := osClose w.d.client_socket_ (emit Call.log w)
    { w with d := { w.d with client_socket_ := INVALID_SOCKET }, server := ServerPc.loopTest }
  else
    let w := if w.d.tcp_server_active_ then emit Call.log w else w
    let w := osClose w.d.client_socket_ w
    let w := { w with d := { w.d with client_socket_ := INVALID_SOCKET } }
    if w.d.tcp_server_active_ = false then serverExit w
    else { w with server := ServerPc.loopTest }

/-! ## Pose production and input update -/

/-- The method `GetPose` (lines 264-336); `hmd` is what
`GetRawTrackedDevicePoses` returned for device 0. -/
def GetPose (vm : VrMath) (hmd : TrackedDevicePose_t) (d : Driver) : DriverPose_t :=
  let zeroQ : HmdQuaternion_t := { w := 0, x := 0, y := 0, z := 0 }
  let pose : DriverPose_t :=
    { qWorldFromDriverRotation := { zeroQ with w := 1 }
      qDriverFromHeadRotation := { zeroQ with w := 1 }
      vecPosition := { v0 := 0, v1 := 0, v2 := 0 }
      qRotation := zeroQ
      result := ETrackingResult.TrackingResult_Running_OK
      poseIsValid := true
      deviceIsConnected := true }
  let pose :=
    if d.new_imu_data_available_ then { pose with qRotation := d.latest_imu_data_.orientation }
    else { pose with qRotation := HmdQuaternion_Identity }
  if hmd.bPoseIsValid then
    let hmd_position := vm.HmdVector3_From34Matrix hmd.mDeviceToAbsoluteTracking
    let hmd_orientation := vm.HmdQuaternion_FromMatrix hmd.mDeviceToAbsoluteTracking
    let offset_position : HmdVector3_t :=
      { v0 :=
          if d.my_controller_role_ = ETrackedControllerRole.TrackedControllerRole_LeftHand
          then -(15 / 100) else 15 / 100
        v1 := 1 / 10
        v2 := -(3 / 10) }
    let controller_position := vm.add hmd_position (vm.rotate offset_position hmd_orientation)
    { pose with vecPosition := controller_position }
  else
    { pose with
      vecPosition :=
        { v0 :=
            if d.my_controller_role_ = ETrackedControllerRole.TrackedControllerRole_LeftHand
            then -(15 / 100) else 15 / 100
          v1 := 1
          v2 := -(1 / 2) }
      result := ETrackingResult.TrackingResult_Running_OutOfRange }

/-- One iteration of `MyPoseUpdateThread` (lines 340-345). -/
def poseTick (vm : VrMath) (hmd : TrackedDevicePose_t) (w : World) : World :=
  if w.d.pose_thread_active_ then
    let w :=
      if w.d.my_controller_index_ ≠ k_unTrackedDeviceIndexInvalid then
        emit (Call.TrackedDevicePoseUpdated w.d.my_controller_index_ (GetPose vm hmd w.d)) w
      else w
    emit (Call.sleep 5) w
  else w

/-- The method `MyRunFrame` (lines 400-426). -/
def MyRunFrame (w : World) : World :=
  if w.d.my_controller_index_ = k_unTrackedDeviceIndexInvalid then w
  else if w.d.new_imu_data_available_ then
    emit (Call.UpdateScalarComponent MyComponent.MyComponent_trigger_value
        w.d.latest_imu_data_.trigger_value)
      (emit (Call.UpdateBooleanComponent MyComponent.MyComponent_trigger_click
          w.d.latest_imu_data_.trigger_click)
        (emit (Call.UpdateBooleanComponent MyComponent.MyComponent_a_touch
            w.d.latest_imu_data_.a_click)
          (emit (Call.UpdateBooleanComponent MyComponent.MyComponent_a_click
              w.d.latest_imu_data_.a_click) w)))
  else
    emit (Call.UpdateScalarComponent MyComponent.MyComponent_trigger_value 0)
      (emit (Call.UpdateBooleanComponent MyComponent.MyComponent_trigger_click false)
        (emit (Call.UpdateBooleanComponent MyComponent.MyComponent_a_touch false)
          (emit (Call.UpdateBooleanComponent MyComponent.MyComponent_a_click false) w)))

/-! ## Lifecycle -/

/-- The method `Activate` (lines 80-115). `wsaOk` is whether `WSAStartup`
succeeded; `r` is the outcome of the start-up calls of the server thread,
which are run here, up to the loop test, as part of the activation. -/
def Activate (unObjectId : Nat) (wsaOk : Bool) (r : StartResult) (w : World) : World :=
  let w := { w with d := { w.d with my_controller_index_ := unObjectId } }
  let w := { w with d := { w.d with pose_thread_active_ := true }, pose_joinable := true }
  if wsaOk = false then emit Call.log w
  else
    let w :=
      { w with
        d := { w.d with
               tcp_server_active_ := true
               new_imu_data_available_ := false
               latest_imu_data_ := { w.d.latest_imu_data_ with orientation := HmdQuaternion_Identity } } }
    serverStart r (emit Call.log w)

/-- Lines 355-379 of `Deactivate`: `tcp_server_active_.exchange(false)` and,
when it was true, the two closes that unblock the server thread. Returns the
previous value of the flag with the new state. -/
def Deactivate_stopTcp (w : World) : Bool × World :=
  let w := emit Call.log w
  let was := w.d.tcp_server_active_
  let w := { w with d := { w.d with tcp_server_active_ := false } }
  if was then
    let w :=
      if w.d.listen_socket_ ≠ INVALID_SOCKET then
        let w := osClose w.d.listen_socket_ w
        { w with d := { w.d with listen_socket_ := INVALID_SOCKET } }
      else w
    let w :=
      if w.d.client_socket_ ≠ INVALID_SOCKET then
        let w := osClose w.d.client_socket_ (emit (Call.shutdown w.d.client_socket_) w)
        { w with d := { w.d with client_socket_ := INVALID_SOCKET } }
      else w
    (true, w)
  else (false, w)

/-- The blocking call the server thread is parked in returns its failure
value: `accept` returns `INVALID_SOCKET`, `recv` returns -1. -/
def serverFailPending (w : World) : World :=
  match w.server with
  | ServerPc.inAccept _ => afterAccept INVALID_SOCKET w
  | ServerPc.inRecv _ => afterRecv (-1) [] w
  | _ => w

/-- What the server thread does while `Deactivate` waits in `join`: the
blocking call it is parked in fails (its socket has been closed), and the
thread runs on until its function returns. -/
def serverRunToExit (w : World) : World :=
  let w := serverFailPending w
  match w.server with
  | ServerPc.loopTest => serverLoopTest w
  | _ => w

/-- Lines 381-397 of `Deactivate`: join the server thread when the flag was
true, `WSACleanup`, stop and join the pose thread, invalidate the index. -/
def Deactivate_finish (was : Bool) (w : World) : World :=
  let w :=
    if was ∧ w.server ≠ ServerPc.notRunning then
      { emit Call.joinServer (serverRunToExit w) with server := ServerPc.notRunning }
    else w
  let w := emit Call.WSACleanup w
  let wasPose := w.d.pose_thread_active_
  let w := { w with d := { w.d with pose_thread_active_ := false } }
  let w :=
    if wasPose ∧ w.pose_joinable then { emit Call.joinPose w with pose_joinable := false }
    else w
  { w with d := { w.d with my_controller_index_ := k_unTrackedDeviceIndexInvalid } }

/-- The method `Deactivate` (lines 353-398). -/
def Deactivate (w : World) : World :=
  let p := Deactivate_stopTcp w
  Deactivate_finish p.1 p.2

/-! ## The step function of the whole system -/

/-- What can happen next: a return of the server thread's blocking call, the
server thread being scheduled at its loop test, a pose tick, or a call of the
host on the driver. -/
inductive Input
  | serverSched
  | acceptReturns (h : SOCKET)
  | recvReturns (recv_len : Int) (data : Bytes)
  | poseTick (hmd : TrackedDevicePose_t)
  | runFrame
  | activate (unObjectId : Nat) (wsaOk : Bool) (r : StartResult)
  | deactivate

/-- The handle a start-up outcome brings into existence, if any. -/
def StartResult.handle : StartResult → Option SOCKET
  | StartResult.socketFailed => none
  | StartResult.bindFailed h => some h
  | StartResult.listenFailed h => some h
  | StartResult.listening h => some h

/-- Which inputs the environment can deliver in a state. `accept` returns a
valid handle only on a listening socket that is still open, and the handle
is new; `recv` delivers between 1 and 511 bytes only on a connection that is
still open; `Activate` is called on a driver that has no threads. -/
def enabled (w : World) : Input → Bool
  | Input.serverSched => w.server == ServerPc.loopTest
  | Input.acceptReturns h =>
    match w.server with
    | ServerPc.inAccept l =>
      h == INVALID_SOCKET ||
        (decide (l ∈ w.listening) && decide (h ∉ w.listening) && decide (h ∉ w.connected))
    | _ => false
  | Input.recvReturns recv_len data =>
    match w.server with
    | ServerPc.inRecv h =>
      decide (recv_len ≤ 0) ||
        (decide (h ∈ w.connected) && decide (recv_len = data.length) &&
          decide (data.length + 1 ≤ RECV_BUFFER_SIZE))
    | _ => false
  | Input.poseTick _ => true
  | Input.runFrame => true
  | Input.activate _ _ r =>
    w.server == ServerPc.notRunning && w.pose_joinable == false &&
      (match r.handle with
       | some h => h != INVALID_SOCKET && decide (h ∉ w.listening) && decide (h ∉ w.connected)
       | none => true)
  | Input.deactivate => true

/-- The effect of an input. -/
def step (vm : VrMath) (w : World) : Input → World
  | Input.serverSched => serverLoopTest w
  | Input.acceptReturns h => afterAccept h w
  | Input.recvReturns recv_len data => afterRecv recv_len data w
  | Input.poseTick hmd => poseTick vm hmd w
  | Input.runFrame => MyRunFrame w
  | Input.activate unObjectId wsaOk r => Activate unObjectId wsaOk r w
  | Input.deactivate => Deactivate w

/-- The states the system can be in: those reached from a constructed driver
by enabled inputs. -/
inductive Reachable (vm : VrMath) : World → Prop
  | init (role : ETrackedControllerRole) : Reachable vm (construct role)
  | next (w : World) (i : Input) : Reachable vm w → enabled w i = true → Reachable vm (step vm w i)

/-- Run a list of inputs. -/
def run (vm : VrMath) (w : World) (is : List Input) : World := is.foldl (step vm) w

/-! ## Well-formed wire messages

The shape `qx,qy,qz,qw;aClick,trigClick,trigVal` that the peer sends, as
syntax: digit strings with optional sign, point and exponent. -/

/-- An optional sign as written on the wire. -/
inductive SignTok
  | none
  | plus
  | minus
  deriving DecidableEq, Repr

/-- The bytes of an optional sign. -/
def SignTok.bytes : SignTok → Bytes
  | SignTok.none => []
  | SignTok.plus => [43]
  | SignTok.minus => [45]

/-- Whether the sign is a minus. -/
def SignTok.neg : SignTok → Bool
  | SignTok.minus => true
  | _ => false

/-- The ASCII characters of a list of digit values. -/
def renderDigits (ds : List Nat) : Bytes := ds.map (fun d => d + 48)

/-- The number written by a list of decimal digit values, most significant first. -/
def digitsValue (ds : List Nat) : Nat := Nat.ofDigits 10 ds.reverse

/-- An integer token: optional sign and digits. -/
structure IntTok where
  sign : SignTok
  digits : List Nat
  deriving DecidableEq

/-- Exponent part of a decimal token: `e` or `E`, optional sign, digits. -/
structure ExpTok where
  upper : Bool
  sign : SignTok
  digits : List Nat
  deriving DecidableEq

/-- A decimal number token: optional sign, integer digits, optional point
with fraction digits, optional exponent. -/
structure DecimalTok where
  sign : SignTok
  intDigits : List Nat
  fracDigits : Option (List Nat)
  exponent : Option ExpTok
  deriving DecidableEq

/-- The digits after the point (none when there is no point). -/
def DecimalTok.frac (t : DecimalTok) : List Nat := t.fracDigits.getD []

/-- Well-formed integer token: at least one digit, each below ten. -/
def IntTok.wf (t : IntTok) : Prop := t.digits ≠ [] ∧ ∀ d ∈ t.digits, d < 10

/-- Well-formed exponent part. -/
def ExpTok.wf (t : ExpTok) : Prop := t.digits ≠ [] ∧ ∀ d ∈ t.digits, d < 10

/-- Well-formed decimal token: digits below ten, at least one digit in the
mantissa, a well-formed exponent if there is one. -/
def DecimalTok.wf (t : DecimalTok) : Prop :=
  (∀ d ∈ t.intDigits, d < 10) ∧ (∀ d ∈ t.frac, d < 10) ∧
    (t.intDigits ≠ [] ∨ t.frac ≠ []) ∧ (∀ e ∈ t.exponent, e.wf)

instance (t : IntTok) : Decidable t.wf := by
  unfold IntTok.wf; infer_instance

instance (t : ExpTok) : Decidable t.wf := by
  unfold ExpTok.wf; infer_instance

instance (t : DecimalTok) : Decidable t.wf := by
  unfold DecimalTok.wf; infer_instance

/-- The characters of an integer token. -/
def IntTok.bytes (t : IntTok) : Bytes := t.sign.bytes ++ renderDigits t.digits

/-- The characters of an exponent part. -/
def ExpTok.bytes (t : ExpTok) : Bytes :=
  (if t.upper then 69 else 101) :: (t.sign.bytes ++ renderDigits t.digits)

/-- The point and fraction digits of a decimal token, if it has a point. -/
def fracBytes (t : DecimalTok) : Bytes :=
  match t.fracDigits with
  | Option.none => []
  | Option.some f => 46 :: renderDigits f

/-- The exponent part of a decimal token, if it has one. -/
def expBytes (t : DecimalTok) : Bytes :=
  match t.exponent with
  | Option.none => []
  | Option.some e => e.bytes

/-- The characters of a decimal token. -/
def DecimalTok.bytes (t : DecimalTok) : Bytes :=
  t.sign.bytes ++ (renderDigits t.intDigits ++ (fracBytes t ++ expBytes t))

/-- The integer an integer token denotes. -/
def IntTok.value (t : IntTok) : Int :=
  if t.sign.neg then -(digitsValue t.digits : Int) else (digitsValue t.digits : Int)

/-- The exponent an exponent part denotes. -/
def ExpTok.value (t : ExpTok) : Int :=
  if t.sign.neg then -(digitsValue t.digits : Int) else (digitsValue t.digits : Int)

/-- The exponent of a decimal token (zero when absent). -/
def DecimalTok.exp (t : DecimalTok) : Int :=
  match t.exponent with
  | Option.none => 0
  | Option.some e => e.value

/-- The number a decimal token denotes:
`± (int + frac / 10 ^ (number of fraction digits)) * 10 ^ exponent`. -/
def DecimalTok.value (t : DecimalTok) : ℚ :=
  (if t.sign.neg then -1 else 1) *
    (((digitsValue t.intDigits : ℚ) + (digitsValue t.frac : ℚ) / (10 : ℚ) ^ t.frac.length) *
      (10 : ℚ) ^ t.exp)

/-- The floating-point value a decimal token writes. -/
def DecimalTok.number (t : DecimalTok) : CFloat := CFloat.written t.sign.neg t.value

/-- A wire message `qx,qy,qz,qw;aClick,trigClick,trigVal`. -/
structure WireMessage where
  qx : DecimalTok
  qy : DecimalTok
  qz : DecimalTok
  qw : DecimalTok
  aClick : IntTok
  trigClick : IntTok
  trigVal : DecimalTok
  deriving DecidableEq

/-- All seven fields are well formed. -/
def WireMessage.wf (m : WireMessage) : Prop :=
  m.qx.wf ∧ m.qy.wf ∧ m.qz.wf ∧ m.qw.wf ∧ m.aClick.wf ∧ m.trigClick.wf ∧ m.trigVal.wf

instance (m : WireMessage) : Decidable m.wf := by
  unfold WireMessage.wf; infer_instance

/-- The characters of a wire message, with the fixed separators. -/
def WireMessage.bytes (m : WireMessage) : Bytes :=
  m.qx.bytes ++ 44 :: (m.qy.bytes ++ 44 :: (m.qz.bytes ++ 44 :: (m.qw.bytes ++ 59 ::
    (m.aClick.bytes ++ 44 :: (m.trigClick.bytes ++ 44 :: m.trigVal.bytes)))))

/-- The sample a wire message denotes under the protocol's reading of the two
click fields (non-zero is true): the orientation numbers as `double`s, the
trigger number as a `float`. -/
def WireMessage.sample (m : WireMessage) : IMUData :=
  { orientation :=
      { w := toDouble m.qw.number, x := toDouble m.qx.number,
        y := toDouble m.qy.number, z := toDouble m.qz.number }
    trigger_value := toFloat m.trigVal.number
    a_click := decide (m.aClick.value ≠ 0)
    trigger_click := decide (m.trigClick.value ≠ 0) }

/-- What bounds a decimal number on its right: the end of the string, or a
character that is not a digit, a point, an exponent letter or the `x` of a
hexadecimal prefix. -/
def numberStop (r : Bytes) : Prop :=
  ∀ c ∈ r.head?, isDigit c = false ∧ c ≠ 46 ∧ c ≠ 101 ∧ c ≠ 69 ∧ c ≠ 120 ∧ c ≠ 88

/-! ## Auxiliary definitions for the statements -/

/-- The literal characters of a directive list that come before its k-th conversion. -/
def litsBeforeConv : Nat → List Directive → List Nat
  | 0, _ => []
  | _ + 1, [] => []
  | k + 1, Directive.lit c :: ds => c :: litsBeforeConv (k + 1) ds
  | k + 1, _ :: ds => litsBeforeConv k ds

/-- Whether a character can begin a floating-point input item of the C
library: a sign, a digit, a point, or the first letter of `inf` / `nan`. -/
def canStartNumber (c : Nat) : Bool :=
  isDigit c || c == 43 || c == 45 || c == 46 || c == 105 || c == 73 || c == 110 || c == 78

/-- A driver with one connected client, the server thread blocked in `recv`:
constructed, activated as device 1 with listening socket 3, and a peer
accepted on handle 4. -/
def sampleConnected : World :=
  afterAccept 4 (serverLoopTest (Activate 1 true (StartResult.listening 3)
    (construct ETrackedControllerRole.TrackedControllerRole_LeftHand)))

/-- The token of a one-digit non-negative number without point or exponent. -/
def digitTok (d : Nat) : DecimalTok :=
  { sign := SignTok.none, intDigits := [d], fracDigits := Option.none, exponent := Option.none }

/-- The token of an unsigned decimal number with a point. -/
def pointTok (i f : List Nat) : DecimalTok :=
  { sign := SignTok.none, intDigits := i, fracDigits := Option.some f, exponent := Option.none }

/-- The token of an unsigned integer. -/
def natTok (ds : List Nat) : IntTok := { sign := SignTok.none, digits := ds }

/-- The wire message `0,0,0,1;256,0,0.0`. -/
def msgClick256 : WireMessage :=
  { qx := digitTok 0, qy := digitTok 0, qz := digitTok 0, qw := digitTok 1,
    aClick := natTok [2, 5, 6], trigClick := natTok [0], trigVal := pointTok [0] [0] }

/-- The wire message `0,0,0,1;2,512,0.5`. -/
def msgClick512 : WireMessage :=
  { qx := digitTok 0, qy := digitTok 0, qz := digitTok 0, qw := digitTok 1,
    aClick := natTok [2], trigClick := natTok [5, 1, 2], trigVal := pointTok [0] [5] }

/-- The wire message `0,0,0,1;0,0,0.0` of scenario A. -/
def msgScenarioA : WireMessage :=
  { qx := digitTok 0, qy := digitTok 0, qz := digitTok 0, qw := digitTok 1,
    aClick := natTok [0], trigClick := natTok [0], trigVal := pointTok [0] [0] }

/-- The wire message `0,0,0,1;1,0,0.75` of scenario B. -/
def msgScenarioB : WireMessage :=
  { qx := digitTok 0, qy := digitTok 0, qz := digitTok 0, qw := digitTok 1,
    aClick := natTok [1], trigClick := natTok [0], trigVal := pointTok [0] [7, 5] }

/-- Whether an input is a read that publishes a sample: positive length and
seven items assigned. -/
def publishes : Input → Bool
  | Input.recvReturns recv_len data =>
    decide (recv_len > 0) && decide (sscanf_items (cstr (data ++ [0])) = 7)
  | _ => false

/-- An instance of the `vrmath.h` parameters for evaluating examples: the
translation column of the matrix, no rotation, component-wise sum. -/
def sampleVrMath : VrMath :=
  { HmdVector3_From34Matrix := fun mat =>
      { v0 := (mat.m.getD 0 []).getD 3 0, v1 := (mat.m.getD 1 []).getD 3 0,
        v2 := (mat.m.getD 2 []).getD 3 0 }
    HmdQuaternion_FromMatrix := fun _ => HmdQuaternion_Identity
    rotate := fun v _ => v
    add := fun a b => { v0 := a.v0 + b.v0, v1 := a.v1 + b.v1, v2 := a.v2 + b.v2 } }

/-- A head pose reported invalid. -/
def hmdInvalid : TrackedDevicePose_t :=
  { mDeviceToAbsoluteTracking := { m := [] }, bPoseIsValid := false }

/-- A valid head pose at the origin. -/
def hmdAtOrigin : TrackedDevicePose_t :=
  { mDeviceToAbsoluteTracking := { m := [[1, 0, 0, 0], [0, 1, 0, 0], [0, 0, 1, 0]] },
    bPoseIsValid := true }

/-- The connected sample driver after scenario B's message `0,0,0,1;1,0,0.75`. -/
def samplePublished : World := afterRecv 16 (bytesOf "0,0,0,1;1,0,0.75") sampleConnected

/-- The sample driver parked in `accept`: activated, no client yet. -/
def sampleListening : World :=
  serverLoopTest (Activate 1 true (StartResult.listening 3)
    (construct ETrackedControllerRole.TrackedControllerRole_LeftHand))

/-- The state right after the stop signal of `Deactivate` (lines 355-379),
before the join. -/
def stopSignal (w : World) : World := (Deactivate_stopTcp w).2

/-- What cannot continue the number written by the token `t`: the end of the
string, or a character that is not a digit, not an exponent letter unless `t`
already has an exponent, not a point unless `t` already has a point or an
exponent, and not the `x` of a hexadecimal prefix when `t` is a bare `0`. -/
def cannotExtend (t : DecimalTok) (rest : Bytes) : Prop :=
  ∀ c ∈ rest.head?,
    isDigit c = false ∧
      (t.exponent = Option.none → c ≠ 101 ∧ c ≠ 69) ∧
      (t.exponent = Option.none → t.fracDigits = Option.none → c ≠ 46) ∧
      (t.intDigits = [0] → t.fracDigits = Option.none → t.exponent = Option.none →
        c ≠ 120 ∧ c ≠ 88)

instance (t : DecimalTok) (rest : Bytes) : Decidable (cannotExtend t rest) := by
  unfold cannotExtend; infer_instance

/-- Whether an input resets the store: an `Activate` that gets past
`WSAStartup` (lines 108-110). -/
def resets : Input → Bool
  | Input.activate _ wsaOk _ => wsaOk
  | _ => false

/-- The wire message `1,0,0,0;0,1,0.25`. -/
def msgSecond : WireMessage :=
  { qx := digitTok 1, qy := digitTok 0, qz := digitTok 0, qw := digitTok 0,
    aClick := natTok [0], trigClick := natTok [1], trigVal := pointTok [0] [2, 5] }

/-- An exponent part as a C library may take it: nothing, or the marker
letter (in either case), an optional sign and digits. The digits may be
missing: the GNU C library takes a marker without digits as part of the
number, where ISO C has a matching failure. -/
def IsExponentPart (mark : Nat) (ex : Bytes) : Prop :=
  ex = [] ∨ ∃ (c : Nat) (sg : SignTok) (ds : Bytes),
    toLower c = mark ∧ (∀ x ∈ ds, isDigit x = true) ∧ ex = c :: (sg.bytes ++ ds)

/-- A fraction part: nothing, or a point followed by digits of the given class. -/
def IsFractionPart (digit : Nat → Bool) (fp : Bytes) : Prop :=
  fp = [] ∨ ∃ fd : Bytes, (∀ x ∈ fd, digit x = true) ∧ fp = 46 :: fd

/-- A decimal number: digits, an optional point with digits, at least one
digit in all, an optional exponent part. -/
def IsDecimalNumber (b : Bytes) : Prop :=
  ∃ ip fp ex : Bytes, (∀ x ∈ ip, isDigit x = true) ∧ IsFractionPart isDigit fp ∧
    IsExponentPart 101 ex ∧ (ip ≠ [] ∨ 2 ≤ fp.length) ∧ b = ip ++ (fp ++ ex)

/-- A hexadecimal number: `0x` or `0X`, hexadecimal digits with an optional
point (at least one character), an optional binary exponent part. -/
def IsHexNumber (b : Bytes) : Prop :=
  ∃ (x : Nat) (ip fp ex : Bytes), toLower x = 120 ∧ (∀ c ∈ ip, isXDigit c = true) ∧
    IsFractionPart isXDigit fp ∧ IsExponentPart 112 ex ∧ (ip ≠ [] ∨ fp ≠ []) ∧
    b = 48 :: x :: (ip ++ (fp ++ ex))

/-- The words `inf` and `infinity` in any case. -/
def IsInfinityWord (b : Bytes) : Prop :=
  b.map toLower = [105, 110, 102] ∨ b.map toLower = infinityWord

/-- The word `nan` in any case, alone or followed by a parenthesised
n-char-sequence (the form of ISO C; the GNU C library takes the word only). -/
def IsNanWord (b : Bytes) : Prop :=
  ∃ w t : Bytes, w.map toLower = nanWord ∧
    (t = [] ∨ ∃ ns : Bytes, (∀ c ∈ ns, isNChar c = true) ∧ t = 40 :: (ns ++ [41])) ∧ b = w ++ t

/-- A floating-point field as `%lf` or `%f` may read it: optional white
space, an optional sign, and a decimal number, a hexadecimal number, an
infinity or a NaN. -/
def IsFloatField (f : Bytes) : Prop :=
  ∃ (ws : Bytes) (sg : SignTok) (b : Bytes), (∀ c ∈ ws, isSpace c = true) ∧
    (IsDecimalNumber b ∨ IsHexNumber b ∨ IsInfinityWord b ∨ IsNanWord b) ∧
    f = ws ++ (sg.bytes ++ b)

/-- An integer field as `%d` reads it: optional white space, an optional
sign, and at least one decimal digit. -/
def IsIntField (f : Bytes) : Prop :=
  ∃ (ws : Bytes) (sg : SignTok) (ds : Bytes), (∀ c ∈ ws, isSpace c = true) ∧ ds ≠ [] ∧
    (∀ c ∈ ds, isDigit c = true) ∧ f = ws ++ (sg.bytes ++ ds)

/-- The text begins with seven numeric fields in the order and with the
separators of the wire format: four floating-point fields joined by commas,
a semicolon, two integer fields and a floating-point field joined by commas.
What follows the seventh field is arbitrary. -/
def startsWithSevenFields (s : Bytes) : Prop :=
  ∃ f1 f2 f3 f4 i5 i6 f7 rest : Bytes,
    IsFloatField f1 ∧ IsFloatField f2 ∧ IsFloatField f3 ∧ IsFloatField f4 ∧
    IsIntField i5 ∧ IsIntField i6 ∧ IsFloatField f7 ∧
    s = f1 ++ 44 :: (f2 ++ 44 :: (f3 ++ 44 :: (f4 ++ 59 :: (i5 ++ 44 :: (i6 ++ 44 ::
      (f7 ++ rest))))))

/-- The directive list reads its first `k` conversions from fields of the
text: every literal before the k-th conversion is the next character, every
conversion up to the k-th has a field of its kind in front of it. -/
def readsFields : Nat → List Directive → Bytes → Prop
  | 0, _, _ => True
  | _ + 1, [], _ => False
  | k + 1, Directive.lit c :: ds, s => ∃ r : Bytes, s = c :: r ∧ readsFields (k + 1) ds r
  | k + 1, Directive.lf :: ds, s => ∃ f r : Bytes, IsFloatField f ∧ s = f ++ r ∧ readsFields k ds r
  | k + 1, Directive.f :: ds, s => ∃ f r : Bytes, IsFloatField f ∧ s = f ++ r ∧ readsFields k ds r
  | k + 1, Directive.d :: ds, s => ∃ f r : Bytes, IsIntField f ∧ s = f ++ r ∧ readsFields k ds r

/-- A character that can occur in a numeric field: white space, a sign, a
point, a parenthesis, a digit, a letter or an underscore. -/
def fieldChar (c : Nat) : Bool :=
  isSpace c || isNChar c || c == 43 || c == 45 || c == 46 || c == 40 || c == 41

/-- The text before the first character that cannot occur in a numeric
field, with the text after that character, when the character is `sep`. -/
def cutField (sep : Nat) (s : Bytes) : Option (Bytes × Bytes) :=
  match s.dropWhile fieldChar with
  | c :: r => if c = sep then some (s.takeWhile fieldChar, r) else none
  | [] => none

/-- Whether the first character after leading white space can begin a number. -/
def floatStart (f : Bytes) : Bool :=
  match skipSpace f with
  | c :: _ => canStartNumber c
  | [] => false

/-- Whether the text is white space, an optional sign and one or more digits. -/
def intText (f : Bytes) : Bool :=
  (scanSign (skipSpace f)).2 != [] && (scanSign (skipSpace f)).2.all isDigit

/-- A condition that every text beginning with seven numeric fields meets
and that can be evaluated: the text cut at the six separators `,` `,` `,` `;`
`,` `,`, each cut being the first character that cannot occur in a field,
gives four pieces that start like a number, two pieces that are integers,
and a remainder that starts like a number. -/
def fieldsShape (s : Bytes) : Bool :=
  (do
    let p1 ← cutField 44 s
    let p2 ← cutField 44 p1.2
    let p3 ← cutField 44 p2.2
    let p4 ← cutField 59 p3.2
    let p5 ← cutField 44 p4.2
    let p6 ← cutField 44 p5.2
    pure (floatStart p1.1 && floatStart p2.1 && floatStart p3.1 && floatStart p4.1 &&
      intText p5.1 && intText p6.1 && floatStart p6.2)) == some true

/-- Consistency of the server thread's program point, the two handle members
and the sockets the operating system holds open. -/
structure Inv (w : World) : Prop where
  recv_handle : ∀ h, w.server = ServerPc.inRecv h → w.d.client_socket_ = h ∧ h ≠ INVALID_SOCKET
  accept_handle : ∀ l, w.server = ServerPc.inAccept l →
    w.d.client_socket_ = INVALID_SOCKET ∧ l = w.d.listen_socket_
  connected_eq : w.connected = if w.d.client_socket_ = INVALID_SOCKET then [] else [w.d.client_socket_]
  listening_eq : w.listening = if w.d.listen_socket_ = INVALID_SOCKET then [] else [w.d.listen_socket_]
  stopped : w.server = ServerPc.notRunning ∨ w.server = ServerPc.returned →
    w.d.client_socket_ = INVALID_SOCKET ∧ w.d.listen_socket_ = INVALID_SOCKET
  distinct : w.d.client_socket_ ≠ INVALID_SOCKET → w.d.client_socket_ ≠ w.d.listen_socket_
  listen_valid : w.server ≠ ServerPc.notRunning → w.server ≠ ServerPc.returned →
    w.d.listen_socket_ ≠ INVALID_SOCKET

/-- Both handle members are invalid and the operating system holds no socket
of the driver open. -/
structure Closed (w : World) : Prop where
  client : w.d.client_socket_ = INVALID_SOCKET
  listen : w.d.listen_socket_ = INVALID_SOCKET
  connected : w.connected = []
  listening : w.listening = []

/-! ## Scanning a well-formed token -/

theorem isDigit_render (d : Nat) (h : d < 10) : isDigit (d + 48) = true := by
  simp [isDigit]; omega

theorem takeWhile_renderDigits (ds : List Nat) (r : Bytes) (hd : ∀ d ∈ ds, d < 10)
    (hr : ∀ c ∈ r.head?, isDigit c = false) :
    (renderDigits ds ++ r).takeWhile isDigit = renderDigits ds := by
  induction ds with
  | nil =>
    cases r with
    | nil => rfl
    | cons c r => simp [renderDigits, List.takeWhile, hr c (by simp)]
  | cons d ds ih =>
    have h1 : isDigit (d + 48) = true := isDigit_render d (hd d (by simp))
    have := ih (fun x hx => hd x (by simp [hx]))
    simp [renderDigits, List.takeWhile, h1] at this ⊢
    exact this

theorem dropWhile_renderDigits (ds : List Nat) (r : Bytes) (hd : ∀ d ∈ ds, d < 10)
    (hr : ∀ c ∈ r.head?, isDigit c = false) :
    (renderDigits ds ++ r).dropWhile isDigit = r := by
  induction ds with
  | nil =>
    cases r with
    | nil => rfl
    | cons c r => simp [renderDigits, List.dropWhile, hr c (by simp)]
  | cons d ds ih =>
    have h1 : isDigit (d + 48) = true := isDigit_render d (hd d (by simp))
    have := ih (fun x hx => hd x (by simp [hx]))
    simp [renderDigits, List.dropWhile, h1] at this ⊢
    exact this

theorem natOfDigits_append_singleton (ds : Bytes) (c : Nat) :
    natOfDigits (ds ++ [c]) = 10 * natOfDigits ds + (c - 48) := by
  simp [natOfDigits, List.foldl_append]

theorem natOfDigits_render (ds : List Nat) : natOfDigits (renderDigits ds) = digitsValue ds := by
  induction ds using List.reverseRecOn with
  | nil => simp [natOfDigits, renderDigits, digitsValue]
  | append_singleton ds d ih =>
    have : renderDigits (ds ++ [d]) = renderDigits ds ++ [d + 48] := by simp [renderDigits]
    rw [this, natOfDigits_append_singleton, ih]
    simp [digitsValue, Nat.ofDigits_cons]
    omega

theorem natOfDigits_append (a b : Bytes) :
    natOfDigits (a ++ b) = natOfDigits a * 10 ^ b.length + natOfDigits b := by
  induction b using List.reverseRecOn with
  | nil => simp [natOfDigits]
  | append_singleton b c ih =>
    rw [← List.append_assoc, natOfDigits_append_singleton, ih, natOfDigits_append_singleton]
    simp [pow_succ]
    ring

theorem renderDigits_eq_nil (ds : List Nat) : renderDigits ds = [] ↔ ds = [] := by
  simp [renderDigits]

theorem renderDigits_length (ds : List Nat) : (renderDigits ds).length = ds.length := by
  simp [renderDigits]

theorem skipSpace_of_head (s : Bytes) (h : ∀ c ∈ s.head?, isSpace c = false) : skipSpace s = s := by
  cases s with
  | nil => rfl
  | cons c s => simp [skipSpace, List.dropWhile, h c (by simp)]

theorem scanSign_digits (sg : SignTok) (s : Bytes) (h : ∀ c ∈ s.head?, c ≠ 43 ∧ c ≠ 45) :
    scanSign (sg.bytes ++ s) = (sg.neg, s) := by
  cases sg with
  | plus => rfl
  | minus => rfl
  | none =>
    cases s with
    | nil => rfl
    | cons c s =>
      have hc := h c (by simp)
      simp only [SignTok.bytes, List.nil_append, SignTok.neg]
      unfold scanSign
      split
      · rename_i heq; simp at heq; omega
      · rename_i heq; simp at heq; omega
      · rfl

theorem head_renderDigits (ds : List Nat) (r : Bytes) (hne : ds ≠ []) (hd : ∀ d ∈ ds, d < 10) :
    ∀ c ∈ (renderDigits ds ++ r).head?, 48 ≤ c ∧ c ≤ 57 := by
  cases ds with
  | nil => exact absurd rfl hne
  | cons d ds =>
    intro c hc
    have := hd d (by simp)
    simp [renderDigits] at hc
    omega

theorem head_sign_append (sg : SignTok) (s : Bytes) (P : Nat → Prop) (h43 : P 43) (h45 : P 45)
    (hs : ∀ c ∈ s.head?, P c) : ∀ c ∈ (sg.bytes ++ s).head?, P c := by
  cases sg with
  | none => simpa [SignTok.bytes] using hs
  | plus => intro c hc; simp [SignTok.bytes] at hc; subst hc; exact h43
  | minus => intro c hc; simp [SignTok.bytes] at hc; subst hc; exact h45

theorem scanInt_tok (t : IntTok) (hw : t.wf) (r : Bytes) (hr : ∀ c ∈ r.head?, isDigit c = false) :
    scanInt (t.bytes ++ r) = some (strtolValue t.value, r) := by
  obtain ⟨hne, hd⟩ := hw
  have hhead := head_renderDigits t.digits r hne hd
  have h1 : skipSpace (t.bytes ++ r) = t.sign.bytes ++ (renderDigits t.digits ++ r) := by
    rw [IntTok.bytes, List.append_assoc]
    apply skipSpace_of_head
    apply head_sign_append t.sign _ (fun c => isSpace c = false) (by decide) (by decide)
    intro c hc
    have := hhead c hc
    simp [isSpace]; omega
  have h2 : scanSign (t.sign.bytes ++ (renderDigits t.digits ++ r))
      = (t.sign.neg, renderDigits t.digits ++ r) := by
    apply scanSign_digits
    intro c hc
    have := hhead c hc
    omega
  unfold scanInt
  simp only [h1, h2, takeWhile_renderDigits _ _ hd hr, dropWhile_renderDigits _ _ hd hr,
    renderDigits_eq_nil, hne, if_false, natOfDigits_render, IntTok.value]

theorem decValue_eq (neg : Bool) (m : Nat) (e : Int) :
    decValue neg m e = (if neg then -1 else 1) * ((m : ℚ) * (10 : ℚ) ^ e) := by
  have hv : (if 0 ≤ e then ((m * 10 ^ e.toNat : Nat) : ℚ) else mkRat m (10 ^ (-e).toNat))
      = (m : ℚ) * (10 : ℚ) ^ e := by
    split
    · rename_i h
      obtain ⟨k, rfl⟩ := Int.eq_ofNat_of_zero_le h
      simp
    · rename_i h
      obtain ⟨k, hk⟩ := Int.eq_ofNat_of_zero_le (show 0 ≤ -e by omega)
      have he : e = -(k : Int) := by omega
      subst he
      simp [Rat.mkRat_eq_div, div_eq_mul_inv]
  unfold decValue
  simp only [hv]
  cases neg <;> simp

theorem scanExponent_tok (t : DecimalTok) (hw : t.wf) (r : Bytes) (hr : numberStop r) :
    scanExponent (expBytes t ++ r) = (t.exp, r) := by
  obtain ⟨_, _, _, hexp⟩ := hw
  cases hx : t.exponent with
  | none =>
    simp only [expBytes, hx, DecimalTok.exp, List.nil_append]
    cases r with
    | nil => rfl
    | cons c r =>
      have := hr c (by simp)
      simp [scanExponent, this]
  | some e =>
    obtain ⟨hne, hd⟩ := hexp e (by simp [hx])
    have hr' : ∀ c ∈ r.head?, isDigit c = false := fun c hc => (hr c hc).1
    have hhead := head_renderDigits e.digits r hne hd
    have h2 : scanSign (e.sign.bytes ++ (renderDigits e.digits ++ r))
        = (e.sign.neg, renderDigits e.digits ++ r) := by
      apply scanSign_digits
      intro c hc
      have := hhead c hc
      omega
    have hm : (if e.upper = true then 69 else 101) = 101 ∨ (if e.upper = true then 69 else 101) = 69 := by
      cases e.upper <;> simp
    simp only [expBytes, hx, DecimalTok.exp, ExpTok.bytes, List.cons_append, List.append_assoc,
      scanExponent, hm, if_true, h2, takeWhile_renderDigits _ _ hd hr',
      dropWhile_renderDigits _ _ hd hr', renderDigits_eq_nil, hne, if_false, natOfDigits_render,
      ExpTok.value]

theorem scanFraction_tok (t : DecimalTok) (hw : t.wf) (x : Bytes)
    (hx : ∀ c ∈ x.head?, isDigit c = false ∧ c ≠ 46) :
    scanFraction (fracBytes t ++ x) = (renderDigits t.frac, x) := by
  obtain ⟨_, hf, _, _⟩ := hw
  cases hfd : t.fracDigits with
  | none =>
    simp only [fracBytes, hfd, DecimalTok.frac, List.nil_append, Option.getD_none]
    cases x with
    | nil => rfl
    | cons c x =>
      have := (hx c (by simp)).2
      unfold scanFraction
      split
      · rename_i heq; simp at heq; omega
      · rfl
  | some f =>
    have hf' : ∀ d ∈ f, d < 10 := by simpa [DecimalTok.frac, hfd] using hf
    have hx' : ∀ c ∈ x.head?, isDigit c = false := fun c hc => (hx c hc).1
    simp only [fracBytes, hfd, DecimalTok.frac, Option.getD_some, List.cons_append, scanFraction,
      takeWhile_renderDigits _ _ hf' hx', dropWhile_renderDigits _ _ hf' hx']

theorem head_expBytes (t : DecimalTok) (r : Bytes) (hr : numberStop r) :
    ∀ c ∈ (expBytes t ++ r).head?, isDigit c = false ∧ c ≠ 46 := by
  cases hx : t.exponent with
  | none =>
    intro c hc
    simp only [expBytes, hx, List.nil_append] at hc
    exact ⟨(hr c hc).1, (hr c hc).2.1⟩
  | some e =>
    intro c hc
    simp only [expBytes, hx, ExpTok.bytes, List.cons_append, List.head?_cons, Option.mem_def,
      Option.some.injEq] at hc
    subst hc
    cases e.upper <;> simp [isDigit]

theorem decimalTok_bytes_eq (t : DecimalTok) (r : Bytes) :
    t.bytes ++ r = t.sign.bytes ++ (renderDigits t.intDigits ++ (fracBytes t ++ (expBytes t ++ r))) := by
  simp [DecimalTok.bytes, List.append_assoc]

theorem head_mantissa (t : DecimalTok) (hw : t.wf) (x : Bytes) :
    ∀ c ∈ (renderDigits t.intDigits ++ (fracBytes t ++ x)).head?, c = 46 ∨ (48 ≤ c ∧ c ≤ 57) := by
  obtain ⟨hi, _, hne, _⟩ := hw
  by_cases h : t.intDigits = []
  · have hfr : t.frac ≠ [] := by
      rcases hne with h' | h'
      · exact absurd h h'
      · exact h'
    cases hfd : t.fracDigits with
    | none => simp [DecimalTok.frac, hfd] at hfr
    | some f =>
      intro c hc
      simp [h, renderDigits, fracBytes, hfd] at hc
      omega
  · intro c hc
    exact Or.inr (head_renderDigits t.intDigits _ h hi c hc)

theorem value_eq (t : DecimalTok) :
    decValue t.sign.neg (natOfDigits (renderDigits t.intDigits ++ renderDigits t.frac))
      (t.exp - ((renderDigits t.frac).length : Int)) = t.value := by
  rw [decValue_eq, natOfDigits_append, natOfDigits_render, natOfDigits_render, renderDigits_length,
    DecimalTok.value]
  congr 1
  have h10 : (10 : ℚ) ≠ 0 := by norm_num
  rw [zpow_sub₀ h10]
  push_cast
  field_simp

theorem cannotExtend_of_numberStop (t : DecimalTok) (r : Bytes) (h : numberStop r) :
    cannotExtend t r := by
  intro c hc
  obtain ⟨h1, h2, h3, h4, h5⟩ := h c hc
  exact ⟨h1, fun _ => ⟨h3, h4⟩, fun _ _ => h2, fun _ _ _ => h5⟩

theorem hexPrefix_false (s : Bytes)
    (h : ∀ a b rest, s = a :: b :: rest → a = 48 → b ≠ 120 ∧ b ≠ 88) : hexPrefix s = false := by
  unfold hexPrefix
  split
  · rename_i x rest
    have := h 48 x rest rfl rfl
    simp [this.1, this.2]
  · rfl

theorem startsWithLetter_false (l : Nat) (s : Bytes) (hl : 97 ≤ l)
    (h : ∀ c ∈ s.head?, c < 65) : startsWithLetter l s = false := by
  cases s with
  | nil => rfl
  | cons c s =>
    have hc := h c (by simp)
    have : toLower c = c := by simp [toLower]; omega
    simp only [startsWithLetter, this, beq_eq_false_iff_ne, ne_eq]
    omega

theorem hexPrefix_tok (t : DecimalTok) (hw : t.wf) (r : Bytes) (hr : cannotExtend t r) :
    hexPrefix (renderDigits t.intDigits ++ (fracBytes t ++ (expBytes t ++ r))) = false := by
  obtain ⟨hi, _, hne, _⟩ := hw
  apply hexPrefix_false
  intro a b rest heq ha
  cases hid : t.intDigits with
  | nil =>
    have hfr : t.frac ≠ [] := by
      rcases hne with h | h
      · exact absurd hid h
      · exact h
    cases hfd : t.fracDigits with
    | none => simp [DecimalTok.frac, hfd] at hfr
    | some f =>
      simp [hid, renderDigits, fracBytes, hfd] at heq
      omega
  | cons d ds =>
    have hd : d < 10 := hi d (by simp [hid])
    cases ds with
    | cons d2 ds2 =>
      have hd2 : d2 < 10 := hi d2 (by simp [hid])
      simp [hid, renderDigits] at heq
      omega
    | nil =>
      have hd0 : d = 0 := by
        simp [hid, renderDigits] at heq
        omega
      subst hd0
      cases hfd : t.fracDigits with
      | some f =>
        simp [hid, renderDigits, fracBytes, hfd] at heq
        omega
      | none =>
        cases hx : t.exponent with
        | some e =>
          simp [hid, renderDigits, fracBytes, hfd, expBytes, hx, ExpTok.bytes] at heq
          obtain ⟨_, h2, _⟩ := heq
          rw [← h2]
          cases e.upper <;> simp
        | none =>
          simp [hid, renderDigits, fracBytes, hfd, expBytes, hx] at heq
          have := (hr b (by simp [heq.2])).2.2.2 hid hfd hx
          exact this

theorem scanExponent_tok_ext (t : DecimalTok) (hw : t.wf) (r : Bytes) (hr : cannotExtend t r) :
    scanExponent (expBytes t ++ r) = (t.exp, r) := by
  obtain ⟨_, _, _, hexp⟩ := hw
  cases hx : t.exponent with
  | none =>
    simp only [expBytes, hx, DecimalTok.exp, List.nil_append]
    cases r with
    | nil => rfl
    | cons c r =>
      have := (hr c (by simp)).2.1 hx
      simp [scanExponent, this]
  | some e =>
    obtain ⟨hne, hd⟩ := hexp e (by simp [hx])
    have hr' : ∀ c ∈ r.head?, isDigit c = false := fun c hc => (hr c hc).1
    have hhead := head_renderDigits e.digits r hne hd
    have h2 : scanSign (e.sign.bytes ++ (renderDigits e.digits ++ r))
        = (e.sign.neg, renderDigits e.digits ++ r) := by
      apply scanSign_digits
      intro c hc
      have := hhead c hc
      omega
    have hm : (if e.upper = true then 69 else 101) = 101 ∨
        (if e.upper = true then 69 else 101) = 69 := by
      cases e.upper <;> simp
    simp only [expBytes, hx, DecimalTok.exp, ExpTok.bytes, List.cons_append, List.append_assoc,
      scanExponent, hm, if_true, h2, takeWhile_renderDigits _ _ hd hr',
      dropWhile_renderDigits _ _ hd hr', renderDigits_eq_nil, hne, if_false, natOfDigits_render,
      ExpTok.value]

theorem scanFraction_tok_ext (t : DecimalTok) (hw : t.wf) (x : Bytes)
    (hx : ∀ c ∈ x.head?, isDigit c = false ∧ (t.fracDigits = Option.none → c ≠ 46)) :
    scanFraction (fracBytes t ++ x) = (renderDigits t.frac, x) := by
  obtain ⟨_, hf, _, _⟩ := hw
  cases hfd : t.fracDigits with
  | none =>
    simp only [fracBytes, hfd, DecimalTok.frac, List.nil_append, Option.getD_none]
    cases x with
    | nil => rfl
    | cons c x =>
      have := (hx c (by simp)).2 hfd
      unfold scanFraction
      split
      · rename_i heq; simp at heq; omega
      · rfl
  | some f =>
    have hf' : ∀ d ∈ f, d < 10 := by simpa [DecimalTok.frac, hfd] using hf
    have hx' : ∀ c ∈ x.head?, isDigit c = false := fun c hc => (hx c hc).1
    simp only [fracBytes, hfd, DecimalTok.frac, Option.getD_some, List.cons_append, scanFraction,
      takeWhile_renderDigits _ _ hf' hx', dropWhile_renderDigits _ _ hf' hx']

theorem head_expBytes_ext (t : DecimalTok) (r : Bytes) (hr : cannotExtend t r) :
    ∀ c ∈ (expBytes t ++ r).head?, isDigit c = false ∧ (t.fracDigits = Option.none → c ≠ 46) := by
  cases hx : t.exponent with
  | none =>
    intro c hc
    simp only [expBytes, hx, List.nil_append] at hc
    exact ⟨(hr c hc).1, (hr c hc).2.2.1 hx⟩
  | some e =>
    intro c hc
    simp only [expBytes, hx, ExpTok.bytes, List.cons_append, List.head?_cons, Option.mem_def,
      Option.some.injEq] at hc
    subst hc
    cases e.upper <;> simp [isDigit]

theorem scanFloat_tok_ext (t : DecimalTok) (hw : t.wf) (r : Bytes) (hr : cannotExtend t r) :
    scanFloat (t.bytes ++ r) = some (t.number, r) := by
  have hw' := hw
  obtain ⟨hi, hf, hne, _⟩ := hw
  have hhead := head_mantissa t hw' (expBytes t ++ r)
  have hx := head_expBytes_ext t r hr
  have h1 : skipSpace (t.bytes ++ r)
      = t.sign.bytes ++ (renderDigits t.intDigits ++ (fracBytes t ++ (expBytes t ++ r))) := by
    rw [decimalTok_bytes_eq]
    apply skipSpace_of_head
    apply head_sign_append t.sign _ (fun c => isSpace c = false) (by decide) (by decide)
    intro c hc
    have := hhead c hc
    simp [isSpace]; omega
  have h2 : scanSign (t.sign.bytes ++ (renderDigits t.intDigits ++ (fracBytes t ++ (expBytes t ++ r))))
      = (t.sign.neg, renderDigits t.intDigits ++ (fracBytes t ++ (expBytes t ++ r))) := by
    apply scanSign_digits
    intro c hc
    have := hhead c hc
    omega
  have hy : ∀ c ∈ (fracBytes t ++ (expBytes t ++ r)).head?, isDigit c = false := by
    cases hfd : t.fracDigits with
    | none =>
      intro c hc
      simp only [fracBytes, hfd, List.nil_append] at hc
      exact (hx c hc).1
    | some f =>
      intro c hc
      simp [fracBytes, hfd] at hc
      subst hc
      decide
  have hnonempty : ¬ (renderDigits t.intDigits = [] ∧ renderDigits t.frac = []) := by
    simp only [renderDigits_eq_nil]
    tauto
  have hlow : ∀ c ∈ (renderDigits t.intDigits ++ (fracBytes t ++ (expBytes t ++ r))).head?,
      c < 65 := by
    intro c hc
    have := hhead c hc
    omega
  unfold scanFloat scanDecimal
  simp only [h1, h2, startsWithLetter_false 105 _ (by decide) hlow,
    startsWithLetter_false 110 _ (by decide) hlow, hexPrefix_tok t hw' r hr, Bool.false_eq_true,
    if_false, takeWhile_renderDigits _ _ hi hy, dropWhile_renderDigits _ _ hi hy,
    scanFraction_tok_ext t hw' _ hx, hnonempty, scanExponent_tok_ext t hw' r hr,
    value_eq, DecimalTok.number]

theorem scanFloat_tok (t : DecimalTok) (hw : t.wf) (r : Bytes) (hr : numberStop r) :
    scanFloat (t.bytes ++ r) = some (t.number, r) :=
  scanFloat_tok_ext t hw r (cannotExtend_of_numberStop t r hr)

theorem numberStop_sep (c : Nat) (r : Bytes) (h : c = 44 ∨ c = 59) : numberStop (c :: r) := by
  intro x hx
  simp at hx
  subst hx
  rcases h with h | h <;> subst h <;> decide

theorem digitStop_sep (c : Nat) (r : Bytes) (h : c = 44 ∨ c = 59) :
    ∀ x ∈ (c :: r).head?, isDigit x = false := fun x hx => (numberStop_sep c r h x hx).1

theorem scanDirectives_message (m : WireMessage) (hw : m.wf) (rest : Bytes) (hr : numberStop rest) :
    scanDirectives imuFormat (m.bytes ++ rest) =
      [Arg.dbl (toDouble m.qx.number), Arg.dbl (toDouble m.qy.number),
       Arg.dbl (toDouble m.qz.number), Arg.dbl (toDouble m.qw.number),
       Arg.int (strtolValue m.aClick.value), Arg.int (strtolValue m.trigClick.value),
       Arg.flt (toFloat m.trigVal.number)] := by
  obtain ⟨h1, h2, h3, h4, h5, h6, h7⟩ := hw
  simp only [WireMessage.bytes, imuFormat, List.append_assoc, List.cons_append, scanDirectives,
    scanFloat_tok _ h1 _ (numberStop_sep 44 _ (Or.inl rfl)),
    scanFloat_tok _ h2 _ (numberStop_sep 44 _ (Or.inl rfl)),
    scanFloat_tok _ h3 _ (numberStop_sep 44 _ (Or.inl rfl)),
    scanFloat_tok _ h4 _ (numberStop_sep 59 _ (Or.inr rfl)),
    scanInt_tok _ h5 _ (digitStop_sep 44 _ (Or.inl rfl)),
    scanInt_tok _ h6 _ (digitStop_sep 44 _ (Or.inl rfl)),
    scanFloat_tok _ h7 _ hr, if_true]

/-! ## Decoding a well-formed message -/

theorem sign_bytes_pos (sg : SignTok) : ∀ c ∈ sg.bytes, 43 ≤ c := by
  cases sg <;> simp [SignTok.bytes]

theorem renderDigits_pos (ds : List Nat) : ∀ c ∈ renderDigits ds, 43 ≤ c := by
  intro c hc
  simp [renderDigits] at hc
  obtain ⟨a, _, rfl⟩ := hc
  omega

theorem intTok_bytes_pos (t : IntTok) : ∀ c ∈ t.bytes, 43 ≤ c := by
  intro c hc
  simp only [IntTok.bytes, List.mem_append] at hc
  rcases hc with h | h
  · exact sign_bytes_pos _ c h
  · exact renderDigits_pos _ c h

theorem decimalTok_bytes_pos (t : DecimalTok) : ∀ c ∈ t.bytes, 43 ≤ c := by
  intro c hc
  simp only [DecimalTok.bytes, List.mem_append] at hc
  rcases hc with h | h | h | h
  · exact sign_bytes_pos _ c h
  · exact renderDigits_pos _ c h
  · unfold fracBytes at h
    split at h
    · simp at h
    · simp only [List.mem_cons] at h
      rcases h with h | h
      · omega
      · exact renderDigits_pos _ c h
  · unfold expBytes at h
    split at h
    · simp at h
    · rename_i e _
      simp only [ExpTok.bytes, List.mem_cons, List.mem_append] at h
      rcases h with h | h | h
      · rw [h]; cases e.upper <;> simp
      · exact sign_bytes_pos _ c h
      · exact renderDigits_pos _ c h

theorem wireMessage_bytes_pos (m : WireMessage) : ∀ c ∈ m.bytes, 43 ≤ c := by
  intro c hc
  simp only [WireMessage.bytes, List.mem_append, List.mem_cons] at hc
  rcases hc with h | h | h | h | h | h | h | h | h | h | h | h | h
  all_goals first
    | omega
    | exact decimalTok_bytes_pos _ c h
    | exact intTok_bytes_pos _ c h

theorem cstr_append (a b : Bytes) (h : ∀ c ∈ a, 43 ≤ c) : cstr (a ++ b) = a ++ cstr b := by
  induction a with
  | nil => rfl
  | cons x a ih =>
    have hx : (x != 0) = true := by
      have := h x (by simp)
      simp only [bne_iff_ne, ne_eq]
      omega
    have := ih (fun c hc => h c (by simp [hc]))
    simp only [cstr] at this ⊢
    simp only [List.cons_append, List.takeWhile_cons, hx, this, if_true]

theorem numberStop_cstr (rest : Bytes) (hr : numberStop rest) : numberStop (cstr (rest ++ [0])) := by
  cases rest with
  | nil => intro c hc; simp [cstr] at hc
  | cons x r =>
    by_cases hx : x = 0
    · intro c hc; simp [cstr, List.takeWhile, hx] at hc
    · have hx' : (x != 0) = true := by simp [hx]
      intro c hc
      have : c = x := by
        simp only [cstr, List.cons_append, List.takeWhile, hx', List.head?_cons, Option.mem_def,
          Option.some.injEq] at hc
        exact hc.symm
      subst this
      exact hr c (by simp)

theorem decimalTok_bytes_ne_nil (t : DecimalTok) (hw : t.wf) : t.bytes ≠ [] := by
  obtain ⟨_, _, hne, _⟩ := hw
  intro h
  simp only [DecimalTok.bytes, List.append_eq_nil, renderDigits_eq_nil] at h
  obtain ⟨_, hi, hf, _⟩ := h
  rcases hne with h' | h'
  · exact h' hi
  · apply h'
    unfold fracBytes at hf
    split at hf
    · rename_i hn; simp [DecimalTok.frac, hn]
    · simp at hf

theorem skipSpace_message (m : WireMessage) (hw : m.wf) (x : Bytes) :
    skipSpace (m.bytes ++ x) ≠ [] := by
  have hne : m.bytes ≠ [] := by
    intro h
    simp only [WireMessage.bytes, List.append_eq_nil] at h
    exact decimalTok_bytes_ne_nil _ hw.1 h.1
  have hpos := wireMessage_bytes_pos m
  cases hb : m.bytes with
  | nil => exact absurd hb hne
  | cons c r =>
    have hc : 43 ≤ c := hpos c (by simp [hb])
    have : isSpace c = false := by simp [isSpace]; omega
    simp [skipSpace, List.dropWhile, this]

theorem sscanf_items_message (m : WireMessage) (hw : m.wf) (x : Bytes) (hx : numberStop x) :
    sscanf_items (m.bytes ++ x) = 7 := by
  simp [sscanf_items, skipSpace_message m hw x, scanDirectives_message m hw x hx]

/-- The byte that a 4-byte store of `n` leaves in the first byte written. -/
theorem int32Bytes_head (n : Int) :
    int32Bytes n = [(n % 4294967296).toNat % 256, (n % 4294967296).toNat / 256 % 256,
      (n % 4294967296).toNat / 65536 % 256, (n % 4294967296).toNat / 16777216 % 256] := rfl

theorem strtolValue_of_range (n : Int) (h1 : -9223372036854775808 ≤ n)
    (h2 : n ≤ 9223372036854775807) : strtolValue n = n := by
  unfold strtolValue
  omega

theorem boolOfByte_low (n : Int) :
    boolOfByte ((n % 4294967296).toNat % 256) = decide (n % 256 ≠ 0) := by
  have h : ((n % 4294967296).toNat % 256 = 0) ↔ n % 256 = 0 := by omega
  by_cases h0 : n % 256 = 0
  · simp [boolOfByte, h.2 h0, h0]
  · have : (n % 4294967296).toNat % 256 ≠ 0 := fun hh => h0 (h.1 hh)
    simp [boolOfByte, this, h0]

theorem received_data_temp_message (m : WireMessage) (hw : m.wf) (x : Bytes) (hx : numberStop x) :
    received_data_temp (m.bytes ++ x) =
      { m.sample with
        a_click := decide (strtolValue m.aClick.value % 256 ≠ 0)
        trigger_click := decide (strtolValue m.trigClick.value % 256 ≠ 0) } := by
  simp only [received_data_temp, scanDirectives_message m hw x hx, storeArgs, storeArg, rawUninit,
    IMUData.ofRaw, pokeBytes, int32Bytes_head, WireMessage.sample]
  simp [boolOfByte_low]

/-! ## Rejection of malformed buffers -/

theorem scanSign_suffix (s : Bytes) : (scanSign s).2 <:+ s := by
  unfold scanSign
  split
  · exact List.suffix_cons _ _
  · exact List.suffix_cons _ _
  · exact List.suffix_refl _

theorem skipSpace_suffix (s : Bytes) : skipSpace s <:+ s := List.dropWhile_suffix _

theorem scanInt_suffix (s : Bytes) (v : Int) (r : Bytes) (h : scanInt s = some (v, r)) : r <:+ s := by
  unfold scanInt at h
  simp only at h
  split at h
  · simp at h
  · simp only [Option.some.injEq, Prod.mk.injEq] at h
    rw [← h.2]
    exact ((List.dropWhile_suffix _).trans (scanSign_suffix _)).trans (skipSpace_suffix _)

theorem scanFraction_suffix (s : Bytes) : (scanFraction s).2 <:+ s := by
  unfold scanFraction
  split
  · exact (List.dropWhile_suffix _).trans (List.suffix_cons _ _)
  · exact List.suffix_refl _

theorem scanExponent_suffix (s : Bytes) : (scanExponent s).2 <:+ s := by
  unfold scanExponent
  split
  · split
    · exact ((List.dropWhile_suffix _).trans (scanSign_suffix _)).trans (List.suffix_cons _ _)
    · exact List.suffix_refl _
  · exact List.suffix_refl _

theorem scanSign_split (s : Bytes) : ∃ sg : SignTok, s = sg.bytes ++ (scanSign s).2 := by
  unfold scanSign
  split
  · exact ⟨SignTok.minus, rfl⟩
  · exact ⟨SignTok.plus, rfl⟩
  · exact ⟨SignTok.none, rfl⟩

theorem skipSpace_split (s : Bytes) :
    ∃ ws : Bytes, (∀ c ∈ ws, isSpace c = true) ∧ s = ws ++ skipSpace s :=
  ⟨s.takeWhile isSpace, fun _ hc => List.mem_takeWhile_imp hc,
    (List.takeWhile_append_dropWhile isSpace s).symm⟩

theorem digits_split (p : Nat → Bool) (s : Bytes) :
    (∀ c ∈ s.takeWhile p, p c = true) ∧ s = s.takeWhile p ++ s.dropWhile p :=
  ⟨fun _ hc => List.mem_takeWhile_imp hc, (List.takeWhile_append_dropWhile p s).symm⟩

theorem scanInt_field (s : Bytes) (v : Int) (r : Bytes) (h : scanInt s = some (v, r)) :
    ∃ f : Bytes, IsIntField f ∧ s = f ++ r := by
  unfold scanInt at h
  simp only at h
  split at h
  · simp at h
  · rename_i hne
    simp only [Option.some.injEq, Prod.mk.injEq] at h
    obtain ⟨ws, hws, h1⟩ := skipSpace_split s
    obtain ⟨sg, h2⟩ := scanSign_split (skipSpace s)
    obtain ⟨hd, h3⟩ := digits_split isDigit (scanSign (skipSpace s)).2
    refine ⟨ws ++ (sg.bytes ++ (scanSign (skipSpace s)).2.takeWhile isDigit),
      ⟨ws, sg, _, hws, hne, hd, rfl⟩, ?_⟩
    rw [← h.2, List.append_assoc, List.append_assoc, ← h3, ← h2, ← h1]

theorem exponent_part (mark : Nat) (c : Nat) (t : Bytes) (hc : toLower c = mark) :
    ∃ ex : Bytes, IsExponentPart mark ex ∧
      c :: t = ex ++ (scanSign t).2.dropWhile isDigit := by
  obtain ⟨sg, h2⟩ := scanSign_split t
  obtain ⟨hd, h3⟩ := digits_split isDigit (scanSign t).2
  refine ⟨c :: (sg.bytes ++ (scanSign t).2.takeWhile isDigit),
    Or.inr ⟨c, sg, _, hc, hd, rfl⟩, ?_⟩
  rw [List.cons_append, List.append_assoc, ← h3, ← h2]

theorem scanExponent_part (s : Bytes) :
    ∃ ex : Bytes, IsExponentPart 101 ex ∧ s = ex ++ (scanExponent s).2 := by
  unfold scanExponent
  split
  · rename_i c t
    split
    · rename_i hc
      apply exponent_part
      rcases hc with hc | hc <;> subst hc <;> decide
    · exact ⟨[], Or.inl rfl, rfl⟩
  · exact ⟨[], Or.inl rfl, rfl⟩

theorem scanBinExponent_part (s : Bytes) :
    ∃ ex : Bytes, IsExponentPart 112 ex ∧ s = ex ++ (scanBinExponent s).2 := by
  unfold scanBinExponent
  split
  · rename_i c t
    split
    · rename_i hc
      apply exponent_part
      rcases hc with hc | hc <;> subst hc <;> decide
    · exact ⟨[], Or.inl rfl, rfl⟩
  · exact ⟨[], Or.inl rfl, rfl⟩

theorem scanFraction_part (s : Bytes) :
    ∃ fp : Bytes, IsFractionPart isDigit fp ∧ s = fp ++ (scanFraction s).2 ∧
      ((scanFraction s).1 ≠ [] → 2 ≤ fp.length) := by
  unfold scanFraction
  split
  · rename_i t
    obtain ⟨hd, h3⟩ := digits_split isDigit t
    refine ⟨46 :: t.takeWhile isDigit, Or.inr ⟨_, hd, rfl⟩, ?_, ?_⟩
    · simp only [List.cons_append, ← h3]
    · intro hne
      have : 0 < (t.takeWhile isDigit).length := List.length_pos.2 hne
      simp only [List.length_cons]
      omega
  · exact ⟨[], Or.inl rfl, rfl, fun h => absurd rfl h⟩

theorem scanDecimal_number (neg : Bool) (s : Bytes) (v : CFloat) (r : Bytes)
    (h : scanDecimal neg s = some (v, r)) : ∃ b : Bytes, IsDecimalNumber b ∧ s = b ++ r := by
  unfold scanDecimal at h
  simp only at h
  split at h
  · simp at h
  · rename_i hne
    simp only [Option.some.injEq, Prod.mk.injEq] at h
    obtain ⟨hd, h1⟩ := digits_split isDigit s
    obtain ⟨fp, hfp, h2, h3⟩ := scanFraction_part (s.dropWhile isDigit)
    obtain ⟨ex, hex, h4⟩ := scanExponent_part (scanFraction (s.dropWhile isDigit)).2
    refine ⟨s.takeWhile isDigit ++ (fp ++ ex), ⟨_, fp, ex, hd, hfp, hex, ?_, rfl⟩, ?_⟩
    · by_cases hip : s.takeWhile isDigit = []
      · exact Or.inr (h3 (fun hf => hne ⟨hip, hf⟩))
      · exact Or.inl hip
    · rw [← h.2, List.append_assoc, List.append_assoc, ← h4, ← h2, ← h1]

theorem hexResult_number (neg : Bool) (ip fd r : Bytes) :
    ∃ ex : Bytes, IsExponentPart 112 ex ∧ r = ex ++ (hexResult neg ip fd r).2 :=
  scanBinExponent_part r

theorem scanHex_number (neg : Bool) (s : Bytes) (v : CFloat) (r : Bytes)
    (h : scanHex neg s = some (v, r)) :
    ∃ ip fp ex : Bytes, (∀ c ∈ ip, isXDigit c = true) ∧ IsFractionPart isXDigit fp ∧
      IsExponentPart 112 ex ∧ (ip ≠ [] ∨ fp ≠ []) ∧ s = ip ++ (fp ++ ex) ++ r := by
  obtain ⟨hd, h1⟩ := digits_split isXDigit s
  unfold scanHex at h
  simp only at h
  split at h
  · rename_i t ht
    obtain ⟨hfd, h2⟩ := digits_split isXDigit t
    split at h
    · simp only [Option.some.injEq, Prod.mk.injEq] at h
      refine ⟨s.takeWhile isXDigit, [46], [], hd, Or.inr ⟨[], by simp, rfl⟩, Or.inl rfl,
        Or.inr (by simp), ?_⟩
      rw [← h.2]
      conv_lhs => rw [h1, ht]
      simp
    · simp only [Option.some.injEq] at h
      obtain ⟨ex, hex, h3⟩ := hexResult_number neg (s.takeWhile isXDigit) (t.takeWhile isXDigit)
        (t.dropWhile isXDigit)
      refine ⟨s.takeWhile isXDigit, 46 :: t.takeWhile isXDigit, ex, hd, Or.inr ⟨_, hfd, rfl⟩, hex,
        Or.inr (by simp), ?_⟩
      have hr2 : (hexResult neg (s.takeWhile isXDigit) (t.takeWhile isXDigit)
          (t.dropWhile isXDigit)).2 = r := by rw [h]
      rw [hr2] at h3
      conv_lhs => rw [h1, ht, h2, h3]
      simp
  · rename_i r' hr'
    split at h
    · simp at h
    · rename_i hip
      simp only [Option.some.injEq] at h
      obtain ⟨ex, hex, h3⟩ := hexResult_number neg (s.takeWhile isXDigit) [] (s.dropWhile isXDigit)
      refine ⟨s.takeWhile isXDigit, [], ex, hd, Or.inl rfl, hex, Or.inl hip, ?_⟩
      have hr2 : (hexResult neg (s.takeWhile isXDigit) [] (s.dropWhile isXDigit)).2 = r := by
        rw [h]
      rw [hr2] at h3
      conv_lhs => rw [h1, h3]
      simp

theorem hexPrefix_split (s : Bytes) (h : hexPrefix s = true) :
    ∃ x : Nat, toLower x = 120 ∧ s = 48 :: x :: s.drop 2 := by
  unfold hexPrefix at h
  split at h
  · rename_i x t
    refine ⟨x, ?_, rfl⟩
    simp only [Bool.or_eq_true, beq_iff_eq] at h
    rcases h with h | h <;> subst h <;> decide
  · simp at h

theorem matchWord_take (w : Bytes) : ∀ (s : Bytes) (k : Nat), matchWord w s = k →
    (s.take k).map toLower = w.take k ∧ s = s.take k ++ s.drop k := by
  induction w with
  | nil =>
    intro s k h
    have : k = 0 := by
      cases s <;> simp [matchWord] at h <;> omega
    subst this
    simp
  | cons a w ih =>
    intro s k h
    cases s with
    | nil =>
      have : k = 0 := by simp [matchWord] at h; omega
      subst this
      simp
    | cons c cs =>
      simp only [matchWord] at h
      split at h
      · rename_i hc
        cases k with
        | zero => simp
        | succ k =>
          have hk : matchWord w cs = k := by omega
          obtain ⟨h1, h2⟩ := ih cs k hk
          simp [hc, h1]
      · subst h
        simp

theorem scanInf_word (neg : Bool) (s : Bytes) (v : CFloat) (r : Bytes)
    (h : scanInf neg s = some (v, r)) : ∃ b : Bytes, IsInfinityWord b ∧ s = b ++ r := by
  unfold scanInf at h
  split at h
  · rename_i h8
    simp only [Option.some.injEq, Prod.mk.injEq] at h
    obtain ⟨h1, h2⟩ := matchWord_take _ _ _ h8
    exact ⟨s.take 8, Or.inr (by rw [h1]; rfl), by rw [← h.2]; exact h2⟩
  · split at h
    · rename_i h3
      simp only [Option.some.injEq, Prod.mk.injEq] at h
      obtain ⟨h1, h2⟩ := matchWord_take _ _ _ h3
      exact ⟨s.take 3, Or.inl (by rw [h1]; rfl), by rw [← h.2]; exact h2⟩
    · simp at h

theorem scanNan_word (neg : Bool) (s : Bytes) (v : CFloat) (r : Bytes)
    (h : scanNan neg s = some (v, r)) : ∃ b : Bytes, IsNanWord b ∧ s = b ++ r := by
  unfold scanNan at h
  split at h
  · rename_i h3
    obtain ⟨h1, h2⟩ := matchWord_take _ _ _ h3
    have hw : (s.take 3).map toLower = nanWord := by rw [h1]; rfl
    simp only [Option.some.injEq, Prod.mk.injEq] at h
    refine ⟨s.take 3, ⟨_, [], hw, Or.inl rfl, by simp⟩, ?_⟩
    rw [← h.2]
    exact h2
  · simp at h

theorem scanFloat_field (s : Bytes) (v : CFloat) (r : Bytes) (h : scanFloat s = some (v, r)) :
    ∃ f : Bytes, IsFloatField f ∧ s = f ++ r := by
  obtain ⟨ws, hws, h1⟩ := skipSpace_split s
  obtain ⟨sg, h2⟩ := scanSign_split (skipSpace s)
  have key : ∀ b : Bytes,
      (IsDecimalNumber b ∨ IsHexNumber b ∨ IsInfinityWord b ∨ IsNanWord b) →
      (scanSign (skipSpace s)).2 = b ++ r → ∃ f : Bytes, IsFloatField f ∧ s = f ++ r := by
    intro b hb hs
    refine ⟨ws ++ (sg.bytes ++ b), ⟨ws, sg, b, hws, hb, rfl⟩, ?_⟩
    rw [List.append_assoc, List.append_assoc, ← hs, ← h2, ← h1]
  unfold scanFloat at h
  simp only at h
  split at h
  · obtain ⟨b, hb, hs⟩ := scanInf_word _ _ _ _ h
    exact key b (Or.inr (Or.inr (Or.inl hb))) hs
  · split at h
    · obtain ⟨b, hb, hs⟩ := scanNan_word _ _ _ _ h
      exact key b (Or.inr (Or.inr (Or.inr hb))) hs
    · split at h
      · rename_i hp
        obtain ⟨x, hx, hsx⟩ := hexPrefix_split _ hp
        obtain ⟨ip, fp, ex, hip, hfp, hex, hne, hs⟩ := scanHex_number _ _ _ _ h
        refine key (48 :: x :: (ip ++ (fp ++ ex)))
          (Or.inr (Or.inl ⟨x, ip, fp, ex, hx, hip, hfp, hex, hne, rfl⟩)) ?_
        rw [hsx, hs]
        simp
      · obtain ⟨b, hb, hs⟩ := scanDecimal_number _ _ _ _ h
        exact key b (Or.inl hb) hs

theorem scanFloat_suffix (s : Bytes) (v : CFloat) (r : Bytes) (h : scanFloat s = some (v, r)) :
    r <:+ s := by
  obtain ⟨f, _, hs⟩ := scanFloat_field s v r h
  exact ⟨f, hs.symm⟩

theorem litsBeforeConv_sublist (ds : List Directive) :
    ∀ (k : Nat) (s : Bytes), k ≤ (scanDirectives ds s).length → (litsBeforeConv k ds).Sublist s := by
  induction ds with
  | nil =>
    intro k s h
    cases k <;> simp [litsBeforeConv]
  | cons dir ds ih =>
    intro k s h
    cases k with
    | zero => simp [litsBeforeConv]
    | succ k =>
      cases dir with
      | lit c =>
        cases s with
        | nil => simp [scanDirectives] at h
        | cons b r =>
          by_cases hb : b = c
          · subst hb
            simp only [scanDirectives, if_true] at h
            simp only [litsBeforeConv]
            exact (ih (k + 1) r h).cons₂ b
          · simp [scanDirectives, hb] at h
      | lf =>
        simp only [scanDirectives] at h
        split at h
        · rename_i v r hs
          simp only [List.length_cons, Nat.add_le_add_iff_right] at h
          exact (ih k r h).trans (scanFloat_suffix _ _ _ hs).sublist
        · simp at h
      | f =>
        simp only [scanDirectives] at h
        split at h
        · rename_i v r hs
          simp only [List.length_cons, Nat.add_le_add_iff_right] at h
          exact (ih k r h).trans (scanFloat_suffix _ _ _ hs).sublist
        · simp at h
      | d =>
        simp only [scanDirectives] at h
        split at h
        · rename_i v r hs
          simp only [List.length_cons, Nat.add_le_add_iff_right] at h
          exact (ih k r h).trans (scanInt_suffix _ _ _ hs).sublist
        · simp at h

theorem separators_of_seven (s : Bytes) (h : sscanf_items s = 7) :
    [44, 44, 44, 59, 44, 44].Sublist s := by
  unfold sscanf_items at h
  split at h
  · simp at h
  · have h7 : 7 ≤ (scanDirectives imuFormat s).length := by omega
    exact litsBeforeConv_sublist imuFormat 7 s h7

theorem readsFields_of_items (ds : List Directive) :
    ∀ (k : Nat) (s : Bytes), k ≤ (scanDirectives ds s).length → readsFields k ds s := by
  induction ds with
  | nil =>
    intro k s h
    cases k with
    | zero => simp [readsFields]
    | succ k => simp [scanDirectives] at h
  | cons dir ds ih =>
    intro k s h
    cases k with
    | zero => simp [readsFields]
    | succ k =>
      cases dir with
      | lit c =>
        cases s with
        | nil => simp [scanDirectives] at h
        | cons b r =>
          by_cases hb : b = c
          · subst hb
            simp only [scanDirectives, if_true] at h
            exact ⟨r, rfl, ih (k + 1) r h⟩
          · simp [scanDirectives, hb] at h
      | lf =>
        simp only [scanDirectives] at h
        split at h
        · rename_i v r hs
          simp only [List.length_cons, Nat.add_le_add_iff_right] at h
          obtain ⟨f, hf, hsf⟩ := scanFloat_field _ _ _ hs
          exact ⟨f, r, hf, hsf, ih k r h⟩
        · simp at h
      | f =>
        simp only [scanDirectives] at h
        split at h
        · rename_i v r hs
          simp only [List.length_cons, Nat.add_le_add_iff_right] at h
          obtain ⟨f, hf, hsf⟩ := scanFloat_field _ _ _ hs
          exact ⟨f, r, hf, hsf, ih k r h⟩
        · simp at h
      | d =>
        simp only [scanDirectives] at h
        split at h
        · rename_i v r hs
          simp only [List.length_cons, Nat.add_le_add_iff_right] at h
          obtain ⟨f, hf, hsf⟩ := scanInt_field _ _ _ hs
          exact ⟨f, r, hf, hsf, ih k r h⟩
        · simp at h

theorem fields_of_seven (s : Bytes) (h : sscanf_items s = 7) : startsWithSevenFields s := by
  unfold sscanf_items at h
  split at h
  · simp at h
  · have h7 : 7 ≤ (scanDirectives imuFormat s).length := by omega
    have := readsFields_of_items imuFormat 7 s h7
    simp only [imuFormat, readsFields] at this
    obtain ⟨f1, r1, hf1, rfl, r1', rfl, f2, r2, hf2, rfl, r2', rfl, f3, r3, hf3, rfl, r3', rfl,
      f4, r4, hf4, rfl, r4', rfl, i5, r5, hi5, rfl, r5', rfl, i6, r6, hi6, rfl, r6', rfl,
      f7, r7, hf7, rfl, _⟩ := this
    exact ⟨f1, f2, f3, f4, i5, i6, f7, r7, hf1, hf2, hf3, hf4, hi5, hi6, hf7, rfl⟩

theorem toLower_cases (c l : Nat) (h : toLower c = l) : c = l ∨ c + 32 = l := by
  unfold toLower at h
  split at h <;> omega

theorem canStartNumber_not_space (c : Nat) (h : canStartNumber c = true) : isSpace c = false := by
  simp only [canStartNumber, isDigit, Bool.or_eq_true, Bool.and_eq_true, decide_eq_true_eq,
    beq_iff_eq] at h
  simp only [isSpace, Bool.or_eq_false_iff, beq_eq_false_iff_ne, ne_eq, Bool.and_eq_false_iff,
    decide_eq_false_iff_not]
  omega

theorem skipSpace_append_spaces (ws s : Bytes) (hws : ∀ c ∈ ws, isSpace c = true)
    (hs : ∀ c ∈ s.head?, isSpace c = false) : skipSpace (ws ++ s) = s := by
  induction ws with
  | nil =>
    cases s with
    | nil => rfl
    | cons c s => simp [skipSpace, List.dropWhile, hs c (by simp)]
  | cons a ws ih =>
    have ha := hws a (by simp)
    have := ih (fun c hc => hws c (by simp [hc]))
    simp only [skipSpace] at this ⊢
    simp only [List.cons_append, List.dropWhile_cons, ha, if_true, this]

theorem number_head (b : Bytes)
    (hb : IsDecimalNumber b ∨ IsHexNumber b ∨ IsInfinityWord b ∨ IsNanWord b) :
    ∃ (c : Nat) (t : Bytes), b = c :: t ∧ canStartNumber c = true ∧ c ≠ 43 ∧ c ≠ 45 := by
  rcases hb with h | h | h | h
  · obtain ⟨ip, fp, ex, hip, hfp, _, hne, rfl⟩ := h
    cases ip with
    | cons c t =>
      have hc := hip c (by simp)
      refine ⟨c, t ++ (fp ++ ex), rfl, by simp [canStartNumber, hc], ?_, ?_⟩ <;>
        · intro h0; subst h0; simp [isDigit] at hc
    | nil =>
      rcases hfp with hfp | ⟨fd, _, hfp⟩
      · subst hfp; simp at hne
      · subst hfp
        exact ⟨46, fd ++ ex, rfl, by decide, by decide, by decide⟩
  · obtain ⟨x, ip, fp, ex, _, _, _, _, _, rfl⟩ := h
    exact ⟨48, _, rfl, by decide, by decide, by decide⟩
  · have key : ∀ w : Bytes, b.map toLower = 105 :: w →
        ∃ (c : Nat) (t : Bytes), b = c :: t ∧ canStartNumber c = true ∧ c ≠ 43 ∧ c ≠ 45 := by
      intro w hw
      cases b with
      | nil => simp at hw
      | cons c t =>
        simp only [List.map_cons, List.cons.injEq] at hw
        rcases toLower_cases c 105 hw.1 with h1 | h1
        · subst h1; exact ⟨105, t, rfl, by decide, by decide, by decide⟩
        · have : c = 73 := by omega
          subst this; exact ⟨73, t, rfl, by decide, by decide, by decide⟩
    rcases h with h | h
    · exact key _ h
    · exact key _ h
  · obtain ⟨w, t, hw, _, rfl⟩ := h
    cases w with
    | nil => simp [nanWord] at hw
    | cons c w' =>
      simp only [nanWord, List.map_cons, List.cons.injEq] at hw
      rcases toLower_cases c 110 hw.1 with h1 | h1
      · subst h1; exact ⟨110, w' ++ t, rfl, by decide, by decide, by decide⟩
      · have : c = 78 := by omega
        subst this; exact ⟨78, w' ++ t, rfl, by decide, by decide, by decide⟩

theorem floatField_head (f : Bytes) (hf : IsFloatField f) (r : Bytes) :
    ∃ c : Nat, (skipSpace (f ++ r)).head? = some c ∧ canStartNumber c = true := by
  obtain ⟨ws, sg, b, hws, hb, rfl⟩ := hf
  obtain ⟨c, t, rfl, hc, _, _⟩ := number_head b hb
  cases sg with
  | none =>
    refine ⟨c, ?_, hc⟩
    have : ws ++ (SignTok.none.bytes ++ c :: t) ++ r = ws ++ (c :: (t ++ r)) := by
      simp [SignTok.bytes]
    rw [this, skipSpace_append_spaces ws _ hws]
    · rfl
    · intro x hx
      simp at hx
      subst hx
      exact canStartNumber_not_space _ hc
  | plus =>
    refine ⟨43, ?_, by decide⟩
    have : ws ++ (SignTok.plus.bytes ++ c :: t) ++ r = ws ++ (43 :: (c :: t ++ r)) := by
      simp [SignTok.bytes]
    rw [this, skipSpace_append_spaces ws _ hws]
    · rfl
    · intro x hx
      simp at hx
      subst hx
      decide
  | minus =>
    refine ⟨45, ?_, by decide⟩
    have : ws ++ (SignTok.minus.bytes ++ c :: t) ++ r = ws ++ (45 :: (c :: t ++ r)) := by
      simp [SignTok.bytes]
    rw [this, skipSpace_append_spaces ws _ hws]
    · rfl
    · intro x hx
      simp at hx
      subst hx
      decide

theorem scanFloat_bad_start (s : Bytes) (h : ∀ c ∈ (skipSpace s).head?, canStartNumber c = false) :
    scanFloat s = none := by
  cases hs : scanFloat s with
  | none => rfl
  | some p =>
    obtain ⟨v, r⟩ := p
    obtain ⟨f, hf, hsf⟩ := scanFloat_field s v r hs
    obtain ⟨c, hc, hcan⟩ := floatField_head f hf r
    rw [← hsf] at hc
    have := h c (by simp [hc])
    rw [this] at hcan
    exact absurd hcan (by decide)

theorem cstr_append_nul (data : Bytes) : cstr (data ++ [0]) = cstr data := by
  induction data with
  | nil => simp [cstr]
  | cons x r ih =>
    simp only [cstr] at ih ⊢
    by_cases hx : x = 0
    · simp [hx]
    · have hx' : (x != 0) = true := by simp [hx]
      simp only [List.cons_append, List.takeWhile_cons, hx', if_true, ih]

theorem cstr_sublist (data : Bytes) : (cstr data).Sublist data := List.takeWhile_sublist _

theorem head_skipSpace_cstr (data : Bytes) :
    ∀ c ∈ (skipSpace (cstr data)).head?, c ∈ (skipSpace data).head? := by
  induction data with
  | nil => simp [cstr, skipSpace]
  | cons x r ih =>
    by_cases hx : x = 0
    · simp [cstr, skipSpace, hx]
    · have hx' : (x != 0) = true := by simp [hx]
      simp only [cstr, skipSpace] at ih ⊢
      simp only [List.takeWhile_cons, hx', if_true, List.dropWhile_cons]
      split
      · exact ih
      · intro c hc; exact hc

theorem items_ne_seven_of_shape (data : Bytes)
    (h : data.count 44 < 5 ∨ 59 ∉ data ∨ ∀ c ∈ (skipSpace data).head?, canStartNumber c = false) :
    sscanf_items (cstr (data ++ [0])) ≠ 7 := by
  rw [cstr_append_nul]
  intro h7
  rcases h with h | h | h
  · have hs := (separators_of_seven _ h7).trans (cstr_sublist data)
    have := hs.count_le 44
    simp at this
    omega
  · have hs := (separators_of_seven _ h7).trans (cstr_sublist data)
    exact h (hs.subset (by simp))
  · have hf : scanFloat (cstr data) = none :=
      scanFloat_bad_start _ (fun c hc => h c (head_skipSpace_cstr data c hc))
    unfold sscanf_items at h7
    split at h7
    · simp at h7
    · simp [imuFormat, scanDirectives, hf] at h7

/-! ## Publishing a decoded sample -/

theorem afterRecv_publishes (recv_len : Int) (data : Bytes) (w : World) (hlen : recv_len > 0)
    (h7 : sscanf_items (cstr (data ++ [0])) = 7) :
    afterRecv recv_len data w =
      { w with
        d := { w.d with latest_imu_data_ := received_data_temp (cstr (data ++ [0])),
                        new_imu_data_available_ := true }
        server := ServerPc.loopTest } := by
  simp [afterRecv, hlen, h7]

theorem afterRecv_rejects (recv_len : Int) (data : Bytes) (w : World) (hlen : recv_len > 0)
    (h7 : sscanf_items (cstr (data ++ [0])) ≠ 7) :
    afterRecv recv_len data w =
      { emit (Call.logMalformed (sscanf_items (cstr (data ++ [0])))) w with
        server := ServerPc.loopTest } := by
  simp [afterRecv, hlen, h7]

/-- For every well-formed wire message, alone in the buffer or followed by
bytes that cannot continue its last number, the read publishes it: seven
items, fresh flag set, orientation and trigger value those of the message
(rounded to `double` and `float`), and each click flag true exactly when the
low-order byte of its field, as `strtol` converts it, is non-zero. -/
theorem afterRecv_valid_message (m : WireMessage) (hw : m.wf) (rest : Bytes) (hr : numberStop rest)
    (recv_len : Int) (hlen : recv_len > 0) (w : World) :
    sscanf_items (cstr ((m.bytes ++ rest) ++ [0])) = 7 ∧
      (afterRecv recv_len (m.bytes ++ rest) w).d.store =
        ({ m.sample with
           a_click := decide (strtolValue m.aClick.value % 256 ≠ 0)
           trigger_click := decide (strtolValue m.trigClick.value % 256 ≠ 0) }, true) := by
  have hc : cstr ((m.bytes ++ rest) ++ [0]) = m.bytes ++ cstr (rest ++ [0]) := by
    rw [List.append_assoc]; exact cstr_append _ _ (wireMessage_bytes_pos m)
  have hs := numberStop_cstr rest hr
  have h7 : sscanf_items (cstr ((m.bytes ++ rest) ++ [0])) = 7 := by
    rw [hc]; exact sscanf_items_message m hw _ hs
  refine ⟨h7, ?_⟩
  rw [afterRecv_publishes _ _ _ hlen h7, hc]
  simp only [Driver.store, received_data_temp_message m hw _ hs]

/-- When both click fields are 0 or 1 the published sample is the sample the
message denotes. -/
theorem afterRecv_valid_message_bits (m : WireMessage) (hw : m.wf) (rest : Bytes)
    (hr : numberStop rest) (recv_len : Int) (hlen : recv_len > 0) (w : World)
    (ha : m.aClick.value = 0 ∨ m.aClick.value = 1)
    (ht : m.trigClick.value = 0 ∨ m.trigClick.value = 1) :
    (afterRecv recv_len (m.bytes ++ rest) w).d.store = (m.sample, true) := by
  rw [(afterRecv_valid_message m hw rest hr recv_len hlen w).2]
  have h1 : decide (strtolValue m.aClick.value % 256 ≠ 0) = m.sample.a_click := by
    rcases ha with h | h <;> simp [WireMessage.sample, h, strtolValue]
  have h2 : decide (strtolValue m.trigClick.value % 256 ≠ 0) = m.sample.trigger_click := by
    rcases ht with h | h <;> simp [WireMessage.sample, h, strtolValue]
  rw [h1, h2]

theorem afterRecv_scenarioA :
    bytesOf "0,0,0,1;0,0,0.0" = msgScenarioA.bytes ∧
      (afterRecv 15 (bytesOf "0,0,0,1;0,0,0.0") sampleConnected).d.store =
        ({ orientation := HmdQuaternion_Identity, trigger_value := 0, a_click := false,
           trigger_click := false }, true) := by
  refine ⟨by decide, ?_⟩
  have h : bytesOf "0,0,0,1;0,0,0.0" = msgScenarioA.bytes ++ [] := by decide
  rw [h, afterRecv_valid_message_bits msgScenarioA (by decide) [] (by simp [numberStop]) 15
    (by decide) sampleConnected (by decide) (by decide)]
  decide!

/-- C1: the buffer `0,0,0,1;256,0,0.0` is a well-formed wire message
whose aClick field is the non-zero integer 256, so the claim requires the
published `a_click` to be true; the read does publish it (seven items, fresh
flag set, identity orientation, trigger 0) but stores `a_click = false`,
because the 4-byte store through `(int* )&a_click` leaves the low-order byte
of 256, which is zero, in the one-byte member. -/
theorem C1_click_256_published_as_false :
    bytesOf "0,0,0,1;256,0,0.0" = msgClick256.bytes ∧ msgClick256.wf ∧
      msgClick256.aClick.value = 256 ∧ msgClick256.sample.a_click = true ∧
      sscanf_items (cstr (bytesOf "0,0,0,1;256,0,0.0" ++ [0])) = 7 ∧
      (afterRecv 17 (bytesOf "0,0,0,1;256,0,0.0") sampleConnected).d.store =
        ({ orientation := HmdQuaternion_Identity, trigger_value := 0, a_click := false,
           trigger_click := false }, true) := by
  refine ⟨by decide, by decide, by decide, by decide, by decide, by decide!⟩

/-- C3: in the well-formed message `0,0,0,1;2,512,0.5` both click
fields are non-zero, so the claim requires both published flags to be true;
the read publishes `a_click = true` but `trigger_click = false`, the
low-order byte of 512 being zero. -/
theorem C3_click_512_published_as_false :
    bytesOf "0,0,0,1;2,512,0.5" = msgClick512.bytes ∧ msgClick512.wf ∧
      msgClick512.aClick.value = 2 ∧ msgClick512.trigClick.value = 512 ∧
      sscanf_items (cstr (bytesOf "0,0,0,1;2,512,0.5" ++ [0])) = 7 ∧
      (afterRecv 17 (bytesOf "0,0,0,1;2,512,0.5") sampleConnected).d.new_imu_data_available_ = true ∧
      (afterRecv 17 (bytesOf "0,0,0,1;2,512,0.5") sampleConnected).d.latest_imu_data_.a_click = true ∧
      (afterRecv 17 (bytesOf "0,0,0,1;2,512,0.5") sampleConnected).d.latest_imu_data_.trigger_click
        = false := by
  refine ⟨by decide, by decide, by decide, by decide, by decide, by decide, by decide, by decide⟩

/-! ## Malformed buffers -/

theorem sign_bytes_no_sep (sg : SignTok) : ∀ c ∈ sg.bytes, c ≠ 44 := by
  cases sg <;> simp [SignTok.bytes]

theorem renderDigits_no_sep (ds : List Nat) (hd : ∀ d ∈ ds, d < 10) :
    ∀ c ∈ renderDigits ds, c ≠ 44 := by
  intro c hc
  simp [renderDigits] at hc
  obtain ⟨a, ha, rfl⟩ := hc
  have := hd a ha
  omega

theorem intTok_bytes_no_sep (t : IntTok) (hw : t.wf) : ∀ c ∈ t.bytes, c ≠ 44 := by
  intro c hc
  simp only [IntTok.bytes, List.mem_append] at hc
  rcases hc with h | h
  · exact sign_bytes_no_sep _ c h
  · exact renderDigits_no_sep _ hw.2 c h

theorem decimalTok_bytes_no_sep (t : DecimalTok) (hw : t.wf) : ∀ c ∈ t.bytes, c ≠ 44 := by
  obtain ⟨hi, hf, _, he⟩ := hw
  intro c hc
  simp only [DecimalTok.bytes, List.mem_append] at hc
  rcases hc with h | h | h | h
  · exact sign_bytes_no_sep _ c h
  · exact renderDigits_no_sep _ hi c h
  · unfold fracBytes at h
    split at h
    · simp at h
    · rename_i f hfd
      simp only [List.mem_cons] at h
      rcases h with h | h
      · omega
      · exact renderDigits_no_sep _ (by simpa [DecimalTok.frac, hfd] using hf) c h
  · unfold expBytes at h
    split at h
    · simp at h
    · rename_i e hx
      simp only [ExpTok.bytes, List.mem_cons, List.mem_append] at h
      rcases h with h | h | h
      · rw [h]; cases e.upper <;> simp
      · exact sign_bytes_no_sep _ c h
      · exact renderDigits_no_sep _ (he e (by simp [hx])).2 c h

theorem wireMessage_count_comma (m : WireMessage) (hw : m.wf) : m.bytes.count 44 = 5 := by
  obtain ⟨h1, h2, h3, h4, h5, h6, h7⟩ := hw
  have c1 := List.count_eq_zero.2 (fun h => decimalTok_bytes_no_sep _ h1 44 h rfl)
  have c2 := List.count_eq_zero.2 (fun h => decimalTok_bytes_no_sep _ h2 44 h rfl)
  have c3 := List.count_eq_zero.2 (fun h => decimalTok_bytes_no_sep _ h3 44 h rfl)
  have c4 := List.count_eq_zero.2 (fun h => decimalTok_bytes_no_sep _ h4 44 h rfl)
  have c5 := List.count_eq_zero.2 (fun h => intTok_bytes_no_sep _ h5 44 h rfl)
  have c6 := List.count_eq_zero.2 (fun h => intTok_bytes_no_sep _ h6 44 h rfl)
  have c7 := List.count_eq_zero.2 (fun h => decimalTok_bytes_no_sep _ h7 44 h rfl)
  simp only [WireMessage.bytes, List.count_append, List.count_cons, c1, c2, c3, c4, c5, c6, c7]
  simp

theorem renderDigits_le (ds : List Nat) (hd : ∀ d ∈ ds, d < 10) :
    ∀ c ∈ renderDigits ds, c ≤ 69 := by
  intro c hc
  simp [renderDigits] at hc
  obtain ⟨a, ha, rfl⟩ := hc
  have := hd a ha
  omega

theorem sign_bytes_le (sg : SignTok) : ∀ c ∈ sg.bytes, c ≤ 69 := by
  cases sg <;> simp [SignTok.bytes]

theorem intTok_bytes_le (t : IntTok) (hw : t.wf) : ∀ c ∈ t.bytes, c ≤ 69 ∨ c = 101 := by
  intro c hc
  simp only [IntTok.bytes, List.mem_append] at hc
  rcases hc with h | h
  · exact Or.inl (sign_bytes_le _ c h)
  · exact Or.inl (renderDigits_le _ hw.2 c h)

theorem decimalTok_bytes_le (t : DecimalTok) (hw : t.wf) : ∀ c ∈ t.bytes, c ≤ 69 ∨ c = 101 := by
  obtain ⟨hi, hf, _, he⟩ := hw
  intro c hc
  simp only [DecimalTok.bytes, List.mem_append] at hc
  rcases hc with h | h | h | h
  · exact Or.inl (sign_bytes_le _ c h)
  · exact Or.inl (renderDigits_le _ hi c h)
  · unfold fracBytes at h
    split at h
    · simp at h
    · rename_i f hfd
      simp only [List.mem_cons] at h
      rcases h with h | h
      · left; omega
      · exact Or.inl (renderDigits_le _ (by simpa [DecimalTok.frac, hfd] using hf) c h)
  · unfold expBytes at h
    split at h
    · simp at h
    · rename_i e hx
      simp only [ExpTok.bytes, List.mem_cons, List.mem_append] at h
      rcases h with h | h | h
      · rw [h]; cases e.upper <;> simp
      · exact Or.inl (sign_bytes_le _ c h)
      · exact Or.inl (renderDigits_le _ (he e (by simp [hx])).2 c h)

/-- The characters of a well-formed wire message are digits, signs, points,
exponent letters and the two separators: each is at most `E` or is `e`. -/
theorem wireMessage_bytes_le (m : WireMessage) (hw : m.wf) : ∀ c ∈ m.bytes, c ≤ 69 ∨ c = 101 := by
  obtain ⟨h1, h2, h3, h4, h5, h6, h7⟩ := hw
  intro c hc
  simp only [WireMessage.bytes, List.mem_append, List.mem_cons] at hc
  rcases hc with h | h | h | h | h | h | h | h | h | h | h | h | h
  all_goals first
    | (left; omega)
    | exact decimalTok_bytes_le _ ‹_› c h
    | exact intTok_bytes_le _ ‹_› c h

/-- C2, counterexample: the buffer `0,0,0,1;1,0,0.75,9` has eight fields, so it
is not the text of any well-formed seven-field message, yet the read assigns
seven items and publishes its first seven fields: the store changes. So do
the reads of ` 0, 0,0,1; 1,0, 0.75`, where white space stands before fields,
and of `inf,0x10,nan,1;1,0,1e1`, whose first three fields are not decimal
numbers: neither is the text of a well-formed message, and both are
published. -/
theorem C2_eight_fields_published :
    (∀ m : WireMessage, m.wf → m.bytes ≠ bytesOf "0,0,0,1;1,0,0.75,9") ∧
      sscanf_items (cstr (bytesOf "0,0,0,1;1,0,0.75,9" ++ [0])) = 7 ∧
      (afterRecv 18 (bytesOf "0,0,0,1;1,0,0.75,9") sampleConnected).d.store ≠
        sampleConnected.d.store ∧
      (afterRecv 18 (bytesOf "0,0,0,1;1,0,0.75,9") sampleConnected).d.store =
        ({ orientation := HmdQuaternion_Identity, trigger_value := 3 / 4, a_click := true,
           trigger_click := false }, true) ∧
      (∀ m : WireMessage, m.wf → m.bytes ≠ bytesOf " 0, 0,0,1; 1,0, 0.75") ∧
      sscanf_items (cstr (bytesOf " 0, 0,0,1; 1,0, 0.75" ++ [0])) = 7 ∧
      (afterRecv 20 (bytesOf " 0, 0,0,1; 1,0, 0.75") sampleConnected).d.store =
        ({ orientation := HmdQuaternion_Identity, trigger_value := 3 / 4, a_click := true,
           trigger_click := false }, true) ∧
      (∀ m : WireMessage, m.wf → m.bytes ≠ bytesOf "inf,0x10,nan,1;1,0,1e1") ∧
      sscanf_items (cstr (bytesOf "inf,0x10,nan,1;1,0,1e1" ++ [0])) = 7 ∧
      (afterRecv 22 (bytesOf "inf,0x10,nan,1;1,0,1e1") sampleConnected).d.store =
        ({ orientation := { w := 1, x := CFloat.inf false, y := 16, z := CFloat.nan false },
           trigger_value := 10, a_click := true, trigger_click := false }, true) := by
  refine ⟨?_, by decide, by decide!, by decide!, ?_, by decide, by decide!, ?_, by decide,
    by decide!⟩
  · intro m hw h
    have h5 := wireMessage_count_comma m hw
    rw [h] at h5
    revert h5
    decide
  · intro m _ h
    have := wireMessage_bytes_pos m 32 (by rw [h]; decide)
    omega
  · intro m hw h
    have := wireMessage_bytes_le m hw 105 (by rw [h]; decide)
    omega

theorem cutField_append (sep : Nat) (f r : Bytes) (hf : ∀ c ∈ f, fieldChar c = true)
    (hsep : fieldChar sep = false) : cutField sep (f ++ sep :: r) = some (f, r) := by
  have h1 : (f ++ sep :: r).dropWhile fieldChar = sep :: r := by
    induction f with
    | nil => simp [List.dropWhile, hsep]
    | cons a f ih =>
      have ha := hf a (by simp)
      simp only [List.cons_append, List.dropWhile_cons, ha, if_true]
      exact ih (fun c hc => hf c (by simp [hc]))
  have h2 : (f ++ sep :: r).takeWhile fieldChar = f := by
    clear h1
    induction f with
    | nil => simp [List.takeWhile, hsep]
    | cons a f ih =>
      have ha := hf a (by simp)
      simp only [List.cons_append, List.takeWhile_cons, ha, if_true]
      rw [ih (fun c hc => hf c (by simp [hc]))]
  simp only [cutField, h1, h2, if_true]

theorem fieldChar_space (c : Nat) (h : isSpace c = true) : fieldChar c = true := by
  simp [fieldChar, h]

theorem fieldChar_nchar (c : Nat) (h : isNChar c = true) : fieldChar c = true := by
  simp [fieldChar, h]

theorem fieldChar_digit (c : Nat) (h : isDigit c = true) : fieldChar c = true := by
  simp [fieldChar, isNChar, h]

theorem fieldChar_xdigit (c : Nat) (h : isXDigit c = true) : fieldChar c = true := by
  simp only [isXDigit, Bool.or_eq_true, Bool.and_eq_true, decide_eq_true_eq] at h
  rcases h with h | h
  · exact fieldChar_digit c h
  · apply fieldChar_nchar
    simp only [isNChar, Bool.or_eq_true, Bool.and_eq_true, decide_eq_true_eq, beq_iff_eq]
    omega

theorem fieldChar_letter (c l : Nat) (h : toLower c = l) (hl : 97 ≤ l ∧ l ≤ 122) :
    fieldChar c = true := by
  apply fieldChar_nchar
  simp only [isNChar, Bool.or_eq_true, Bool.and_eq_true, decide_eq_true_eq, beq_iff_eq]
  omega

theorem fieldChar_sign (sg : SignTok) : ∀ c ∈ sg.bytes, fieldChar c = true := by
  cases sg <;> simp [SignTok.bytes] <;> decide

theorem fieldChar_word (w b : Bytes) (hw : ∀ l ∈ w, 97 ≤ l ∧ l ≤ 122) (h : b.map toLower = w) :
    ∀ c ∈ b, fieldChar c = true := by
  intro c hc
  have : toLower c ∈ w := by
    rw [← h]
    exact List.mem_map_of_mem _ hc
  exact fieldChar_letter c _ rfl (hw _ this)

theorem fieldChar_exponent (mark : Nat) (hm : 97 ≤ mark ∧ mark ≤ 122) (ex : Bytes)
    (h : IsExponentPart mark ex) : ∀ c ∈ ex, fieldChar c = true := by
  rcases h with h | ⟨x, sg, ds, hx, hds, rfl⟩
  · subst h; simp
  · intro c hc
    simp only [List.mem_cons, List.mem_append] at hc
    rcases hc with hc | hc | hc
    · subst hc; exact fieldChar_letter _ _ hx hm
    · exact fieldChar_sign sg c hc
    · exact fieldChar_digit c (hds c hc)

theorem fieldChar_fraction (digit : Nat → Bool) (hd : ∀ c, digit c = true → fieldChar c = true)
    (fp : Bytes) (h : IsFractionPart digit fp) : ∀ c ∈ fp, fieldChar c = true := by
  rcases h with h | ⟨fd, hfd, rfl⟩
  · subst h; simp
  · intro c hc
    simp only [List.mem_cons] at hc
    rcases hc with hc | hc
    · subst hc; decide
    · exact hd c (hfd c hc)

theorem fieldChar_number (b : Bytes)
    (hb : IsDecimalNumber b ∨ IsHexNumber b ∨ IsInfinityWord b ∨ IsNanWord b) :
    ∀ c ∈ b, fieldChar c = true := by
  rcases hb with h | h | h | h
  · obtain ⟨ip, fp, ex, hip, hfp, hex, _, rfl⟩ := h
    intro c hc
    simp only [List.mem_append] at hc
    rcases hc with hc | hc | hc
    · exact fieldChar_digit c (hip c hc)
    · exact fieldChar_fraction isDigit fieldChar_digit fp hfp c hc
    · exact fieldChar_exponent 101 (by decide) ex hex c hc
  · obtain ⟨x, ip, fp, ex, hx, hip, hfp, hex, _, rfl⟩ := h
    intro c hc
    simp only [List.mem_cons, List.mem_append] at hc
    rcases hc with hc | hc | hc | hc | hc
    · subst hc; decide
    · subst hc; exact fieldChar_letter _ _ hx (by decide)
    · exact fieldChar_xdigit c (hip c hc)
    · exact fieldChar_fraction isXDigit fieldChar_xdigit fp hfp c hc
    · exact fieldChar_exponent 112 (by decide) ex hex c hc
  · rcases h with h | h
    · exact fieldChar_word _ b (by decide) h
    · exact fieldChar_word _ b (by decide) h
  · obtain ⟨w, t, hw, ht, rfl⟩ := h
    intro c hc
    simp only [List.mem_append] at hc
    rcases hc with hc | hc
    · exact fieldChar_word _ w (by decide) hw c hc
    · rcases ht with ht | ⟨ns, hns, rfl⟩
      · subst ht; simp at hc
      · simp only [List.mem_cons, List.mem_append, List.mem_singleton] at hc
        rcases hc with hc | hc | hc
        · subst hc; decide
        · exact fieldChar_nchar c (hns c hc)
        · rcases hc with hc | hc
          · subst hc; decide
          · simp at hc

theorem fieldChar_floatField (f : Bytes) (hf : IsFloatField f) : ∀ c ∈ f, fieldChar c = true := by
  obtain ⟨ws, sg, b, hws, hb, rfl⟩ := hf
  intro c hc
  simp only [List.mem_append] at hc
  rcases hc with hc | hc | hc
  · exact fieldChar_space c (hws c hc)
  · exact fieldChar_sign sg c hc
  · exact fieldChar_number b hb c hc

theorem fieldChar_intField (f : Bytes) (hf : IsIntField f) : ∀ c ∈ f, fieldChar c = true := by
  obtain ⟨ws, sg, ds, hws, _, hds, rfl⟩ := hf
  intro c hc
  simp only [List.mem_append] at hc
  rcases hc with hc | hc | hc
  · exact fieldChar_space c (hws c hc)
  · exact fieldChar_sign sg c hc
  · exact fieldChar_digit c (hds c hc)

theorem floatStart_field (f : Bytes) (hf : IsFloatField f) (r : Bytes) :
    floatStart (f ++ r) = true := by
  obtain ⟨c, hc, hcan⟩ := floatField_head f hf r
  unfold floatStart
  cases hs : skipSpace (f ++ r) with
  | nil => simp [hs] at hc
  | cons a t =>
    simp only [hs, List.head?_cons, Option.some.injEq] at hc
    subst hc
    exact hcan

theorem intText_field (f : Bytes) (hf : IsIntField f) : intText f = true := by
  obtain ⟨ws, sg, ds, hws, hne, hds, rfl⟩ := hf
  have hhead : ∀ c ∈ ds.head?, 48 ≤ c ∧ c ≤ 57 := by
    intro c hc
    have hm : c ∈ ds := List.mem_of_mem_head? hc
    have := hds c hm
    simpa [isDigit] using this
  have h1 : skipSpace (ws ++ (sg.bytes ++ ds)) = sg.bytes ++ ds := by
    apply skipSpace_append_spaces ws _ hws
    apply head_sign_append sg _ (fun c => isSpace c = false) (by decide) (by decide)
    intro c hc
    have := hhead c hc
    simp [isSpace]; omega
  have h2 : scanSign (sg.bytes ++ ds) = (sg.neg, ds) := by
    apply scanSign_digits
    intro c hc
    have := hhead c hc
    omega
  simp only [intText, h1, h2, Bool.and_eq_true, bne_iff_ne, ne_eq, List.all_eq_true]
  exact ⟨hne, hds⟩

theorem fieldsShape_of_fields (s : Bytes) (h : startsWithSevenFields s) : fieldsShape s = true := by
  obtain ⟨f1, f2, f3, f4, i5, i6, f7, rest, h1, h2, h3, h4, h5, h6, h7, rfl⟩ := h
  have c1 := fieldChar_floatField f1 h1
  have c2 := fieldChar_floatField f2 h2
  have c3 := fieldChar_floatField f3 h3
  have c4 := fieldChar_floatField f4 h4
  have c5 := fieldChar_intField i5 h5
  have c6 := fieldChar_intField i6 h6
  have s1 := floatStart_field f1 h1 []
  have s2 := floatStart_field f2 h2 []
  have s3 := floatStart_field f3 h3 []
  have s4 := floatStart_field f4 h4 []
  simp only [List.append_nil] at s1 s2 s3 s4
  simp [fieldsShape, cutField_append 44 _ _ c1 (by decide), cutField_append 44 _ _ c2 (by decide),
    cutField_append 44 _ _ c3 (by decide), cutField_append 59 _ _ c4 (by decide),
    cutField_append 44 _ _ c5 (by decide), cutField_append 44 _ _ c6 (by decide),
    s1, s2, s3, s4, intText_field i5 h5, intText_field i6 h6, floatStart_field f7 h7 rest]

theorem separators_of_fields (s : Bytes) (h : startsWithSevenFields s) :
    [44, 44, 44, 59, 44, 44].Sublist s := by
  obtain ⟨f1, f2, f3, f4, i5, i6, f7, rest, _, _, _, _, _, _, _, rfl⟩ := h
  have step : ∀ (c : Nat) (l f t : Bytes), l.Sublist t → (c :: l).Sublist (f ++ c :: t) :=
    fun c l f t hl => (hl.cons₂ c).trans (List.sublist_append_right f (c :: t))
  exact step 44 _ f1 _ (step 44 _ f2 _ (step 44 _ f3 _ (step 59 _ f4 _ (step 44 _ i5 _
    (step 44 _ i6 _ (List.nil_sublist _))))))

/-- Three kinds of buffer that do not begin with seven numeric fields: fewer
than five commas, no semicolon, or a first character after leading white
space that cannot begin a number. -/
theorem not_fields_of_shape (data : Bytes)
    (h : data.count 44 < 5 ∨ 59 ∉ data ∨ ∀ c ∈ (skipSpace data).head?, canStartNumber c = false) :
    ¬ startsWithSevenFields (cstr (data ++ [0])) := by
  rw [cstr_append_nul]
  intro hA
  rcases h with h | h | h
  · have hs := (separators_of_fields _ hA).trans (cstr_sublist data)
    have := hs.count_le 44
    simp at this
    omega
  · have hs := (separators_of_fields _ hA).trans (cstr_sublist data)
    exact h (hs.subset (by simp))
  · obtain ⟨f1, f2, f3, f4, i5, i6, f7, rest, h1, _, _, _, _, _, _, hs⟩ := hA
    obtain ⟨c, hc, hcan⟩ := floatField_head f1 h1
      (44 :: (f2 ++ 44 :: (f3 ++ 44 :: (f4 ++ 59 :: (i5 ++ 44 :: (i6 ++ 44 :: (f7 ++ rest)))))))
    rw [← hs] at hc
    have := h c (head_skipSpace_cstr data c (by simp [hc]))
    rw [this] at hcan
    exact absurd hcan (by decide)

/-- The three buffers above begin with seven numeric fields, and so does
`1e,0,0,1;1,0,0.75`, whose first field is an exponent marker without digits;
the read publishes it with `x = 1`. -/
theorem afterRecv_scanf_forms :
    startsWithSevenFields (cstr (bytesOf "0,0,0,1;1,0,0.75,9" ++ [0])) ∧
      startsWithSevenFields (cstr (bytesOf " 0, 0,0,1; 1,0, 0.75" ++ [0])) ∧
      startsWithSevenFields (cstr (bytesOf "inf,0x10,nan,1;1,0,1e1" ++ [0])) ∧
      startsWithSevenFields (cstr (bytesOf "1e,0,0,1;1,0,0.75" ++ [0])) ∧
      (afterRecv 17 (bytesOf "1e,0,0,1;1,0,0.75") sampleConnected).d.store =
        ({ orientation := { w := 1, x := 1, y := 0, z := 0 },
           trigger_value := 3 / 4, a_click := true, trigger_click := false }, true) := by
  refine ⟨fields_of_seven _ (by decide), fields_of_seven _ (by decide),
    fields_of_seven _ (by decide), fields_of_seven _ (by decide), by decide!⟩

/-- C2, amended: a read of positive length whose text (the C string in
`recvbuf`: the bytes received, up to the first NUL) does not begin with seven
numeric fields joined by the separators `,` `,` `,` `;` `,` `,` is rejected:
`sscanf_s` assigns other than seven items, the driver members (store, fresh
flag, both handles, flags) and the open sockets are what they were, the
client stays connected, one malformed-data line is logged and the loop goes
on. A numeric field is optional white space, an optional sign and a number as
`%lf` / `%f` or `%d` may read it (`IsFloatField`, `IsIntField`). This covers
every buffer with fewer than seven fields, with a token that is not a number
in any of the seven fields, or with a missing or wrong separator; nothing is
said of a text that does begin with seven such fields, whatever follows
them. -/
theorem C2_malformed_leaves_store (recv_len : Int) (data : Bytes) (w : World) (hlen : recv_len > 0)
    (hbad : ¬ startsWithSevenFields (cstr (data ++ [0]))) :
    sscanf_items (cstr (data ++ [0])) ≠ 7 ∧
      (afterRecv recv_len data w).d = w.d ∧
      (afterRecv recv_len data w).connected = w.connected ∧
      (afterRecv recv_len data w).listening = w.listening ∧
      (afterRecv recv_len data w).server = ServerPc.loopTest ∧
      (afterRecv recv_len data w).trace =
        w.trace ++ [Call.logMalformed (sscanf_items (cstr (data ++ [0])))] := by
  have h7 : sscanf_items (cstr (data ++ [0])) ≠ 7 := fun h7 => hbad (fields_of_seven _ h7)
  rw [afterRecv_rejects _ _ _ hlen h7]
  exact ⟨h7, rfl, rfl, rfl, rfl, rfl⟩

/-- C2, witness: scenario C, the buffer `bad,data` read from a connected
client, and three more rejected buffers: a token that is not a number in the
fifth field (`0,0,0,1;abc,0,0.5`), one in the second field
(`0,x,0,1;1,0,0.5`), and a semicolon in the place of the third comma
(`0,0,0;1,0,0,0.5,1`). -/
theorem C2_malformed_leaves_store_witness :
    (8 : Int) > 0 ∧ ¬ startsWithSevenFields (cstr (bytesOf "bad,data" ++ [0])) ∧
      sscanf_items (cstr (bytesOf "bad,data" ++ [0])) ≠ 7 ∧
      (afterRecv 8 (bytesOf "bad,data") sampleConnected).d = sampleConnected.d ∧
      (afterRecv 8 (bytesOf "bad,data") sampleConnected).connected = [4] ∧
      (afterRecv 8 (bytesOf "bad,data") sampleConnected).server = ServerPc.loopTest ∧
      ¬ startsWithSevenFields (cstr (bytesOf "0,0,0,1;abc,0,0.5" ++ [0])) ∧
      (afterRecv 17 (bytesOf "0,0,0,1;abc,0,0.5") sampleConnected).d = sampleConnected.d ∧
      ¬ startsWithSevenFields (cstr (bytesOf "0,x,0,1;1,0,0.5" ++ [0])) ∧
      (afterRecv 15 (bytesOf "0,x,0,1;1,0,0.5") sampleConnected).d = sampleConnected.d ∧
      ¬ startsWithSevenFields (cstr (bytesOf "0,0,0;1,0,0,0.5,1" ++ [0])) ∧
      (afterRecv 17 (bytesOf "0,0,0;1,0,0,0.5,1") sampleConnected).d = sampleConnected.d := by
  have n1 : ¬ startsWithSevenFields (cstr (bytesOf "bad,data" ++ [0])) :=
    fun h => absurd (fieldsShape_of_fields _ h) (by decide)
  have n2 : ¬ startsWithSevenFields (cstr (bytesOf "0,0,0,1;abc,0,0.5" ++ [0])) :=
    fun h => absurd (fieldsShape_of_fields _ h) (by decide)
  have n3 : ¬ startsWithSevenFields (cstr (bytesOf "0,x,0,1;1,0,0.5" ++ [0])) :=
    fun h => absurd (fieldsShape_of_fields _ h) (by decide)
  have n4 : ¬ startsWithSevenFields (cstr (bytesOf "0,0,0;1,0,0,0.5,1" ++ [0])) :=
    fun h => absurd (fieldsShape_of_fields _ h) (by decide)
  have h1 := C2_malformed_leaves_store 8 (bytesOf "bad,data") sampleConnected (by decide) n1
  have h2 := C2_malformed_leaves_store 17 (bytesOf "0,0,0,1;abc,0,0.5") sampleConnected
    (by decide) n2
  have h3 := C2_malformed_leaves_store 15 (bytesOf "0,x,0,1;1,0,0.5") sampleConnected
    (by decide) n3
  have h4 := C2_malformed_leaves_store 17 (bytesOf "0,0,0;1,0,0,0.5,1") sampleConnected
    (by decide) n4
  exact ⟨by decide, n1, h1.1, h1.2.1, h1.2.2.1, h1.2.2.2.2.1, n2, h2.2.1, n3, h3.2.1, n4, h4.2.1⟩

/-! ## The invariant of the server loop -/

theorem inv_construct (role : ETrackedControllerRole) : Inv (construct role) := by
  constructor <;> simp [construct]

theorem inv_congr (w v : World) (hdc : v.d.client_socket_ = w.d.client_socket_)
    (hdl : v.d.listen_socket_ = w.d.listen_socket_) (hs : v.server = w.server)
    (hl : v.listening = w.listening) (hc : v.connected = w.connected) (h : Inv w) : Inv v := by
  obtain ⟨h1, h2, h3, h4, h5, h6, h7⟩ := h
  refine ⟨?_, ?_, ?_, ?_, ?_, ?_, ?_⟩
  · rw [hs, hdc]; exact h1
  · rw [hs, hdc, hdl]; exact h2
  · rw [hc, hdc]; exact h3
  · rw [hl, hdl]; exact h4
  · rw [hs, hdc, hdl]; exact h5
  · rw [hdc, hdl]; exact h6
  · rw [hs, hdl]; exact h7

theorem inv_emit (c : Call) (w : World) (h : Inv w) : Inv (emit c w) := by
  obtain ⟨h1, h2, h3, h4, h5, h6, h7⟩ := h
  exact ⟨h1, h2, h3, h4, h5, h6, h7⟩

theorem inv_poseTick (vm : VrMath) (hmd : TrackedDevicePose_t) (w : World) (h : Inv w) :
    Inv (poseTick vm hmd w) := by
  unfold poseTick
  split
  · split
    · exact inv_emit _ _ (inv_emit _ _ h)
    · exact inv_emit _ _ h
  · exact h

theorem inv_MyRunFrame (w : World) (h : Inv w) : Inv (MyRunFrame w) := by
  unfold MyRunFrame
  split
  · exact h
  · split
    · exact inv_emit _ _ (inv_emit _ _ (inv_emit _ _ (inv_emit _ _ h)))
    · exact inv_emit _ _ (inv_emit _ _ (inv_emit _ _ (inv_emit _ _ h)))

theorem filter_ne_singleton (x h : SOCKET) :
    [x].filter (fun y => y != h) = if x = h then [] else [x] := by
  by_cases hx : x = h <;> simp [hx]

/-- The exit path leaves both handles invalid and nothing open. -/
theorem inv_serverExit (w : World)
    (h3 : w.connected = if w.d.client_socket_ = INVALID_SOCKET then [] else [w.d.client_socket_])
    (h4 : w.listening = if w.d.listen_socket_ = INVALID_SOCKET then [] else [w.d.listen_socket_])
    (h6 : w.d.client_socket_ ≠ INVALID_SOCKET → w.d.client_socket_ ≠ w.d.listen_socket_) :
    Inv (serverExit w) ∧ (serverExit w).server = ServerPc.returned ∧
      (serverExit w).d.client_socket_ = INVALID_SOCKET ∧
      (serverExit w).d.listen_socket_ = INVALID_SOCKET := by
  by_cases hc : w.d.client_socket_ = INVALID_SOCKET <;>
  by_cases hl : w.d.listen_socket_ = INVALID_SOCKET
  · simp only [hc, hl, if_true] at h3 h4
    refine ⟨⟨?_, ?_, ?_, ?_, ?_, ?_, ?_⟩, ?_, ?_, ?_⟩ <;>
      simp [serverExit, osClose, emit, hc, hl, h3, h4]
  · simp only [hc, hl, if_true, if_false] at h3 h4
    refine ⟨⟨?_, ?_, ?_, ?_, ?_, ?_, ?_⟩, ?_, ?_, ?_⟩ <;>
      simp [serverExit, osClose, emit, hc, hl, h3, h4]
  · simp only [hc, hl, if_true, if_false] at h3 h4
    refine ⟨⟨?_, ?_, ?_, ?_, ?_, ?_, ?_⟩, ?_, ?_, ?_⟩ <;>
      simp [serverExit, osClose, emit, hc, hl, h3, h4]
  · simp only [hc, hl, if_true, if_false] at h3 h4
    have hne := h6 hc
    refine ⟨⟨?_, ?_, ?_, ?_, ?_, ?_, ?_⟩, ?_, ?_, ?_⟩ <;>
      simp [serverExit, osClose, emit, hc, hl, h3, h4, hne, Ne.symm hne]

theorem inv_serverLine179 (w : World)
    (h3 : w.connected = if w.d.client_socket_ = INVALID_SOCKET then [] else [w.d.client_socket_])
    (h4 : w.listening = if w.d.listen_socket_ = INVALID_SOCKET then [] else [w.d.listen_socket_])
    (h6 : w.d.client_socket_ ≠ INVALID_SOCKET → w.d.client_socket_ ≠ w.d.listen_socket_)
    (hlv : w.d.listen_socket_ ≠ INVALID_SOCKET) (hc : w.d.client_socket_ ≠ INVALID_SOCKET) :
    Inv (serverLine179 w) ∧ (serverLine179 w).server = ServerPc.inRecv w.d.client_socket_ := by
  have e : serverLine179 w =
      { emit (Call.recv w.d.client_socket_) w with server := ServerPc.inRecv w.d.client_socket_ } := by
    simp [serverLine179, hc]
  rw [e]
  refine ⟨⟨?_, ?_, ?_, ?_, ?_, ?_, ?_⟩, rfl⟩
  · intro x hx
    simp only [emit, ServerPc.inRecv.injEq] at hx
    exact ⟨hx, hx ▸ hc⟩
  · intro l hl
    simp [emit] at hl
  · exact h3
  · exact h4
  · intro hh
    simp [emit] at hh
  · exact h6
  · intro _ _; exact hlv

theorem inv_serverLoopTest (w : World) (h : Inv w) (hs : w.server = ServerPc.loopTest) :
    Inv (serverLoopTest w) := by
  obtain ⟨h1, h2, h3, h4, h5, h6, h7⟩ := h
  have hlv : w.d.listen_socket_ ≠ INVALID_SOCKET := h7 (by simp [hs]) (by simp [hs])
  unfold serverLoopTest
  split
  · split
    · rename_i hc
      refine ⟨?_, ?_, ?_, ?_, ?_, ?_, ?_⟩
      · intro x hx
        simp [emit] at hx
      · intro l hl
        simp only [emit, ServerPc.inAccept.injEq] at hl
        exact ⟨hc, hl.symm⟩
      · exact h3
      · exact h4
      · intro hh
        simp [emit] at hh
      · exact h6
      · intro _ _; exact hlv
    · rename_i hc
      exact (inv_serverLine179 w h3 h4 h6 hlv hc).1
  · exact (inv_serverExit w h3 h4 h6).1

theorem inv_afterAccept (w : World) (h : Inv w) (x : SOCKET)
    (he : enabled w (Input.acceptReturns x) = true) : Inv (afterAccept x w) := by
  obtain ⟨h1, h2, h3, h4, h5, h6, h7⟩ := h
  cases hs : w.server with
  | inAccept l =>
    have hlv : w.d.listen_socket_ ≠ INVALID_SOCKET := h7 (by simp [hs]) (by simp [hs])
    obtain ⟨hc, hl⟩ := h2 l hs
    simp only [hc, if_true] at h3
    by_cases hx : x = INVALID_SOCKET
    · subst hx
      by_cases hact : w.d.tcp_server_active_ = true
      · have e : afterAccept INVALID_SOCKET w =
            { emit (Call.sleep 100) (emit Call.log
                { w with d := { w.d with client_socket_ := INVALID_SOCKET } }) with
              server := ServerPc.loopTest } := by
          simp [afterAccept, hact, emit]
        rw [e]
        refine ⟨?_, ?_, ?_, ?_, ?_, ?_, ?_⟩
        · intro y hy; simp [emit] at hy
        · intro y hy; simp [emit] at hy
        · simpa [emit] using h3
        · exact h4
        · intro hh; simp [emit] at hh
        · intro hh; simp [emit] at hh
        · intro _ _; exact hlv
      · have e : afterAccept INVALID_SOCKET w =
            serverExit { w with d := { w.d with client_socket_ := INVALID_SOCKET } } := by
          simp [afterAccept, hact, emit]
        rw [e]
        apply (inv_serverExit _ _ _ _).1
        · simpa using h3
        · exact h4
        · intro hh; simp at hh
    · have hx' : (x == INVALID_SOCKET) = false := by simpa using hx
      simp only [enabled, hs, hx', Bool.false_or, Bool.and_eq_true, decide_eq_true_eq] at he
      obtain ⟨⟨hl1, hl2⟩, _⟩ := he
      have hxl : x ≠ w.d.listen_socket_ := by
        intro hh; rw [← hl] at hh; exact hl2 (hh ▸ hl1)
      have e : afterAccept x w = serverLine179 (emit Call.log
          { w with d := { w.d with client_socket_ := x }, connected := x :: w.connected }) := by
        simp [afterAccept, hx, emit]
      rw [e]
      refine (inv_serverLine179 _ ?_ ?_ ?_ ?_ ?_).1
      · simp [emit, hx, h3]
      · exact h4
      · intro _; exact hxl
      · exact hlv
      · exact hx
  | _ => simp [enabled, hs] at he

theorem inv_afterRecv (w : World) (h : Inv w) (n : Int) (data : Bytes)
    (he : enabled w (Input.recvReturns n data) = true) : Inv (afterRecv n data w) := by
  obtain ⟨h1, h2, h3, h4, h5, h6, h7⟩ := h
  cases hs : w.server with
  | inRecv x =>
    have hlv : w.d.listen_socket_ ≠ INVALID_SOCKET := h7 (by simp [hs]) (by simp [hs])
    obtain ⟨hc, hx⟩ := h1 x hs
    have hcl : w.d.client_socket_ ≠ INVALID_SOCKET := hc ▸ hx
    have hne := h6 hcl
    simp only [hcl, if_false] at h3
    by_cases hpos : n > 0
    · by_cases h7 : sscanf_items (cstr (data ++ [0])) = 7
      · have e : afterRecv n data w =
            { w with
              d := { w.d with latest_imu_data_ := received_data_temp (cstr (data ++ [0])),
                              new_imu_data_available_ := true }
              server := ServerPc.loopTest } := by
          simp [afterRecv, hpos, h7]
        rw [e]
        refine ⟨?_, ?_, ?_, ?_, ?_, ?_, ?_⟩
        · intro y hy; simp at hy
        · intro y hy; simp at hy
        · simp [hcl, h3]
        · exact h4
        · intro hh; simp at hh
        · exact h6
        · intro _ _; exact hlv
      · have e : afterRecv n data w =
            { emit (Call.logMalformed (sscanf_items (cstr (data ++ [0])))) w with
              server := ServerPc.loopTest } := by
          simp [afterRecv, hpos, h7]
        rw [e]
        refine ⟨?_, ?_, ?_, ?_, ?_, ?_, ?_⟩
        · intro y hy; simp [emit] at hy
        · intro y hy; simp [emit] at hy
        · simp [emit, hcl, h3]
        · exact h4
        · intro hh; simp [emit] at hh
        · exact h6
        · intro _ _; exact hlv
    · have hclosed : Inv { osClose w.d.client_socket_ w with
          d := { w.d with client_socket_ := INVALID_SOCKET }, server := ServerPc.loopTest } := by
        refine ⟨?_, ?_, ?_, ?_, ?_, ?_, ?_⟩
        · intro y hy; simp [osClose] at hy
        · intro y hy; simp [osClose] at hy
        · simp [osClose, h3]
        · simp [osClose, h4, hlv, Ne.symm hne]
        · intro hh; simp [osClose] at hh
        · intro hh; simp at hh
        · intro _ _; exact hlv
      by_cases h0 : n = 0
      · refine inv_congr _ _ ?_ ?_ ?_ ?_ ?_ hclosed <;> simp [afterRecv, h0, osClose, emit]
      · have hneg : ¬ n > 0 := hpos
        by_cases hact : w.d.tcp_server_active_ = true
        · refine inv_congr _ _ ?_ ?_ ?_ ?_ ?_ hclosed <;>
            simp [afterRecv, hneg, h0, hact, osClose, emit]
        · have hact' : w.d.tcp_server_active_ = false := by simpa using hact
          have e : afterRecv n data w = serverExit { osClose w.d.client_socket_ w with
              d := { w.d with client_socket_ := INVALID_SOCKET } } := by
            simp [afterRecv, hneg, h0, hact', osClose, emit]
          rw [e]
          apply (inv_serverExit _ _ _ _).1
          · simpa using hclosed.connected_eq
          · simpa using hclosed.listening_eq
          · intro hh; simp at hh
  | _ => simp [enabled, hs] at he

theorem serverExit_closed (w : World) (hc : Closed w) :
    serverExit w = { w with trace := w.trace ++ [Call.log], server := ServerPc.returned } := by
  obtain ⟨h1, h2, h3, h4⟩ := hc
  simp [serverExit, h1, h2, emit]

theorem afterAccept_closed (w : World) (hc : Closed w) (hact : w.d.tcp_server_active_ = false) :
    afterAccept INVALID_SOCKET w =
      { w with trace := w.trace ++ [Call.log], server := ServerPc.returned } := by
  obtain ⟨h1, h2, h3, h4⟩ := hc
  obtain ⟨d, sv, pj, ls, cn, tr⟩ := w
  obtain ⟨a1, a2, a3, a4, a5, a6, a7, a8, a9⟩ := d
  simp only at h1 h2 h3 h4 hact
  subst h1 h2 h3 h4 hact
  simp [afterAccept, serverExit, emit]

theorem afterRecv_closed (w : World) (hc : Closed w) (hact : w.d.tcp_server_active_ = false)
    (n : Int) (data : Bytes) (hn : n < 0) :
    afterRecv n data w =
      { w with trace := w.trace ++ [Call.closesocket INVALID_SOCKET, Call.log],
               server := ServerPc.returned } := by
  obtain ⟨h1, h2, h3, h4⟩ := hc
  obtain ⟨d, sv, pj, ls, cn, tr⟩ := w
  obtain ⟨a1, a2, a3, a4, a5, a6, a7, a8, a9⟩ := d
  simp only at h1 h2 h3 h4 hact
  subst h1 h2 h3 h4 hact
  have h1 : ¬ n > 0 := by omega
  have h2 : ¬ n = 0 := by omega
  simp [afterRecv, serverExit, emit, osClose, h1, h2]

theorem afterRecv_zero_closed (w : World) (hc : Closed w) (data : Bytes) :
    afterRecv 0 data w =
      { w with trace := w.trace ++ [Call.log, Call.closesocket INVALID_SOCKET],
               server := ServerPc.loopTest } := by
  obtain ⟨h1, h2, h3, h4⟩ := hc
  obtain ⟨d, sv, pj, ls, cn, tr⟩ := w
  obtain ⟨a1, a2, a3, a4, a5, a6, a7, a8, a9⟩ := d
  simp only at h1 h2 h3 h4
  subst h1 h2 h3 h4
  simp [afterRecv, emit, osClose]

theorem serverLoopTest_closed (w : World) (hc : Closed w) (hact : w.d.tcp_server_active_ = false) :
    serverLoopTest w = { w with trace := w.trace ++ [Call.log], server := ServerPc.returned } := by
  simp [serverLoopTest, hact, serverExit_closed w hc]

theorem stopTcp_inactive (w : World) (hact : w.d.tcp_server_active_ = false) :
    Deactivate_stopTcp w = (false, emit Call.log w) := by
  obtain ⟨d, sv, pj, ls, cn, tr⟩ := w
  obtain ⟨a1, a2, a3, a4, a5, a6, a7, a8, a9⟩ := d
  simp only at hact
  subst hact
  simp [Deactivate_stopTcp, emit]

theorem stopTcp_active (w : World) (h : Inv w) (hact : w.d.tcp_server_active_ = true) :
    (Deactivate_stopTcp w).1 = true ∧ Closed (Deactivate_stopTcp w).2 ∧
      (Deactivate_stopTcp w).2.server = w.server ∧
      (Deactivate_stopTcp w).2.pose_joinable = w.pose_joinable ∧
      (Deactivate_stopTcp w).2.d =
        { w.d with tcp_server_active_ := false, listen_socket_ := INVALID_SOCKET,
                   client_socket_ := INVALID_SOCKET } := by
  obtain ⟨h1, h2, h3, h4, h5, h6, h7⟩ := h
  by_cases hc : w.d.client_socket_ = INVALID_SOCKET <;>
  by_cases hl : w.d.listen_socket_ = INVALID_SOCKET
  · simp only [hc, hl, if_true] at h3 h4
    refine ⟨?_, ⟨?_, ?_, ?_, ?_⟩, ?_, ?_, ?_⟩ <;>
      simp [Deactivate_stopTcp, emit, osClose, hact, hc, hl, h3, h4]
  · simp only [hc, hl, if_true, if_false] at h3 h4
    refine ⟨?_, ⟨?_, ?_, ?_, ?_⟩, ?_, ?_, ?_⟩ <;>
      simp [Deactivate_stopTcp, emit, osClose, hact, hc, hl, h3, h4]
  · simp only [hc, hl, if_true, if_false] at h3 h4
    refine ⟨?_, ⟨?_, ?_, ?_, ?_⟩, ?_, ?_, ?_⟩ <;>
      simp [Deactivate_stopTcp, emit, osClose, hact, hc, hl, h3, h4]
  · simp only [hc, hl, if_true, if_false] at h3 h4
    have hne := h6 hc
    refine ⟨?_, ⟨?_, ?_, ?_, ?_⟩, ?_, ?_, ?_⟩ <;>
      simp [Deactivate_stopTcp, emit, osClose, hact, hc, hl, h3, h4, hne, Ne.symm hne]

theorem serverRunToExit_closed (w : World) (hc : Closed w) (hact : w.d.tcp_server_active_ = false) :
    Closed (serverRunToExit w) ∧ (serverRunToExit w).d = w.d ∧
      (serverRunToExit w).pose_joinable = w.pose_joinable ∧
      (w.server ≠ ServerPc.notRunning → (serverRunToExit w).server = ServerPc.returned) := by
  have hc' := hc
  obtain ⟨h1, h2, h3, h4⟩ := hc
  cases hs : w.server with
  | notRunning =>
    have e : serverRunToExit w = w := by simp [serverRunToExit, serverFailPending, hs]
    rw [e]; exact ⟨hc', rfl, rfl, fun h => absurd rfl h⟩
  | returned =>
    have e : serverRunToExit w = w := by simp [serverRunToExit, serverFailPending, hs]
    rw [e]; exact ⟨hc', rfl, rfl, fun _ => hs⟩
  | loopTest =>
    have e : serverRunToExit w =
        { w with trace := w.trace ++ [Call.log], server := ServerPc.returned } := by
      simp [serverRunToExit, serverFailPending, hs, serverLoopTest_closed w hc' hact]
    rw [e]; exact ⟨⟨h1, h2, h3, h4⟩, rfl, rfl, fun _ => rfl⟩
  | inAccept l =>
    have e : serverRunToExit w =
        { w with trace := w.trace ++ [Call.log], server := ServerPc.returned } := by
      simp [serverRunToExit, serverFailPending, hs, afterAccept_closed w hc' hact]
    rw [e]; exact ⟨⟨h1, h2, h3, h4⟩, rfl, rfl, fun _ => rfl⟩
  | inRecv x =>
    have e : serverRunToExit w =
        { w with trace := w.trace ++ [Call.closesocket INVALID_SOCKET, Call.log],
                 server := ServerPc.returned } := by
      simp [serverRunToExit, serverFailPending, hs, afterRecv_closed w hc' hact (-1) [] (by decide)]
    rw [e]; exact ⟨⟨h1, h2, h3, h4⟩, rfl, rfl, fun _ => rfl⟩

theorem inv_of_closed (w : World) (hc : Closed w)
    (hs : w.server = ServerPc.notRunning ∨ w.server = ServerPc.returned) : Inv w := by
  obtain ⟨h1, h2, h3, h4⟩ := hc
  refine ⟨?_, ?_, ?_, ?_, ?_, ?_, ?_⟩
  · intro x hx; rcases hs with h | h <;> simp [h] at hx
  · intro x hx; rcases hs with h | h <;> simp [h] at hx
  · simp [h1, h3]
  · simp [h2, h4]
  · intro _; exact ⟨h1, h2⟩
  · intro h; exact absurd h1 h
  · intro n1 n2; rcases hs with h | h
    · exact absurd h n1
    · exact absurd h n2

theorem finish_closed (w : World) (was : Bool) (hc : Closed w)
    (hact : w.d.tcp_server_active_ = false) (hj : was = true ∨ w.server = ServerPc.notRunning) :
    Closed (Deactivate_finish was w) ∧ (Deactivate_finish was w).server = ServerPc.notRunning ∧
      (Deactivate_finish was w).pose_joinable = (w.pose_joinable && !w.d.pose_thread_active_) ∧
      (Deactivate_finish was w).d =
        { w.d with pose_thread_active_ := false,
                   my_controller_index_ := k_unTrackedDeviceIndexInvalid } := by
  obtain ⟨r1, r2, r3, r4⟩ := serverRunToExit_closed w hc hact
  obtain ⟨c1, c2, c3, c4⟩ := r1
  obtain ⟨h1, h2, h3, h4⟩ := hc
  by_cases hs : w.server = ServerPc.notRunning
  · by_cases hp : w.d.pose_thread_active_ = true <;> by_cases hpj : w.pose_joinable = true <;>
      refine ⟨⟨?_, ?_, ?_, ?_⟩, ?_, ?_, ?_⟩ <;>
      simp [Deactivate_finish, emit, hs, hp, hpj, h1, h2, h3, h4]
  · have hw : was = true := by
      rcases hj with h | h
      · exact h
      · exact absurd h hs
    subst hw
    by_cases hp : w.d.pose_thread_active_ = true <;> by_cases hpj : w.pose_joinable = true <;>
      refine ⟨⟨?_, ?_, ?_, ?_⟩, ?_, ?_, ?_⟩ <;>
      simp [Deactivate_finish, emit, hs, hp, hpj, r2, r3, c1, c2, c3, c4, h1, h2]

theorem finish_false (w : World) :
    (Deactivate_finish false w).d.client_socket_ = w.d.client_socket_ ∧
      (Deactivate_finish false w).d.listen_socket_ = w.d.listen_socket_ ∧
      (Deactivate_finish false w).server = w.server ∧
      (Deactivate_finish false w).listening = w.listening ∧
      (Deactivate_finish false w).connected = w.connected := by
  by_cases hp : w.d.pose_thread_active_ = true <;> by_cases hpj : w.pose_joinable = true <;>
    simp [Deactivate_finish, emit, hp, hpj]

theorem deactivate_active (w : World) (h : Inv w) (hact : w.d.tcp_server_active_ = true) :
    Closed (Deactivate w) ∧ (Deactivate w).server = ServerPc.notRunning ∧
      (Deactivate w).d =
        { w.d with tcp_server_active_ := false, listen_socket_ := INVALID_SOCKET,
                   client_socket_ := INVALID_SOCKET, pose_thread_active_ := false,
                   my_controller_index_ := k_unTrackedDeviceIndexInvalid } := by
  obtain ⟨s1, s2, s3, s4, s5⟩ := stopTcp_active w h hact
  have hact' : (Deactivate_stopTcp w).2.d.tcp_server_active_ = false := by rw [s5]
  obtain ⟨f1, f2, f3, f4⟩ := finish_closed (Deactivate_stopTcp w).2 (Deactivate_stopTcp w).1 s2 hact'
    (Or.inl s1)
  refine ⟨f1, f2, ?_⟩
  simp only [Deactivate, f4, s5]

theorem inv_Deactivate (w : World) (h : Inv w) : Inv (Deactivate w) := by
  by_cases hact : w.d.tcp_server_active_ = true
  · obtain ⟨c, s, _⟩ := deactivate_active w h hact
    exact inv_of_closed _ c (Or.inl s)
  · have hact' : w.d.tcp_server_active_ = false := by simpa using hact
    obtain ⟨f1, f2, f3, f4, f5⟩ := finish_false (emit Call.log w)
    simp only [Deactivate, stopTcp_inactive w hact']
    exact inv_congr w _ f1 f2 f3 f4 f5 h

theorem inv_Activate (w : World) (h : Inv w) (unObjectId : Nat) (wsaOk : Bool) (r : StartResult)
    (he : enabled w (Input.activate unObjectId wsaOk r) = true) :
    Inv (Activate unObjectId wsaOk r w) := by
  simp only [enabled, Bool.and_eq_true, beq_iff_eq] at he
  obtain ⟨⟨hs, hpj⟩, hr⟩ := he
  obtain ⟨hc, hl⟩ := h.stopped (Or.inl hs)
  have h3 : w.connected = [] := by simpa [hc] using h.connected_eq
  have h4 : w.listening = [] := by simpa [hl] using h.listening_eq
  cases wsaOk with
  | false =>
    refine inv_congr w _ ?_ ?_ ?_ ?_ ?_ h <;> simp [Activate, emit]
  | true =>
    cases r with
    | socketFailed =>
      apply inv_of_closed
      · refine ⟨?_, ?_, ?_, ?_⟩ <;> simp [Activate, serverStart, emit, hc, h3, h4]
      · right; simp [Activate, serverStart, emit]
    | bindFailed x =>
      apply inv_of_closed
      · refine ⟨?_, ?_, ?_, ?_⟩ <;> simp [Activate, serverStart, emit, osClose, hc, h3, h4]
      · right; simp [Activate, serverStart, emit, osClose]
    | listenFailed x =>
      apply inv_of_closed
      · refine ⟨?_, ?_, ?_, ?_⟩ <;> simp [Activate, serverStart, emit, osClose, hc, h3, h4]
      · right; simp [Activate, serverStart, emit, osClose]
    | listening x =>
      simp only [StartResult.handle, Bool.and_eq_true, bne_iff_ne, ne_eq, decide_eq_true_eq] at hr
      obtain ⟨⟨hx, _⟩, _⟩ := hr
      refine ⟨?_, ?_, ?_, ?_, ?_, ?_, ?_⟩
      · intro y hy; simp [Activate, serverStart, emit] at hy
      · intro y hy; simp [Activate, serverStart, emit] at hy
      · simp [Activate, serverStart, emit, hc, h3]
      · simp [Activate, serverStart, emit, hx, h4]
      · intro hh; simp [Activate, serverStart, emit] at hh
      · intro hh; simp [Activate, serverStart, emit, hc] at hh
      · intro _ _; simpa [Activate, serverStart, emit] using hx

theorem inv_step (vm : VrMath) (w : World) (i : Input) (h : Inv w) (he : enabled w i = true) :
    Inv (step vm w i) := by
  cases i with
  | serverSched => exact inv_serverLoopTest w h (by simpa [enabled] using he)
  | acceptReturns x => exact inv_afterAccept w h x he
  | recvReturns n data => exact inv_afterRecv w h n data he
  | poseTick hmd => exact inv_poseTick vm hmd w h
  | runFrame => exact inv_MyRunFrame w h
  | activate a b c => exact inv_Activate w h a b c he
  | deactivate => exact inv_Deactivate w h

theorem reachable_inv (vm : VrMath) (w : World) (h : Reachable vm w) : Inv w := by
  induction h with
  | init role => exact inv_construct role
  | next w i _ he ih => exact inv_step vm w i ih he

/-! ## What leaves the store alone -/

theorem store_emit (c : Call) (w : World) : (emit c w).d = w.d := rfl

theorem store_osClose (h : SOCKET) (w : World) : (osClose h w).d = w.d := rfl

theorem store_serverExit (w : World) : (serverExit w).d.store = w.d.store := by
  by_cases hc : w.d.client_socket_ = INVALID_SOCKET <;>
    by_cases hl : w.d.listen_socket_ = INVALID_SOCKET <;>
    simp [serverExit, hc, hl, emit, osClose, Driver.store]

theorem store_serverLine179 (w : World) : (serverLine179 w).d = w.d := by
  by_cases hc : w.d.client_socket_ = INVALID_SOCKET <;> simp [serverLine179, hc, emit]

theorem store_serverLoopTest (w : World) : (serverLoopTest w).d.store = w.d.store := by
  by_cases ha : w.d.tcp_server_active_ = true
  · by_cases hc : w.d.client_socket_ = INVALID_SOCKET
    · simp [serverLoopTest, ha, hc, emit, Driver.store]
    · simp [serverLoopTest, ha, hc, store_serverLine179]
  · simp [serverLoopTest, ha, store_serverExit]

theorem store_afterAccept (h : SOCKET) (w : World) : (afterAccept h w).d.store = w.d.store := by
  by_cases hx : h = INVALID_SOCKET
  · by_cases ha : w.d.tcp_server_active_ = true
    · simp [afterAccept, hx, ha, emit, Driver.store]
    · simp [afterAccept, hx, ha, emit, store_serverExit]
      rfl
  · simp [afterAccept, hx, store_serverLine179, emit]
    rfl

theorem store_afterRecv_nonpos (n : Int) (data : Bytes) (w : World) (hn : n ≤ 0) :
    (afterRecv n data w).d.store = w.d.store := by
  have h1 : ¬ n > 0 := by omega
  by_cases h0 : n = 0
  · simp [afterRecv, h0, emit, osClose, Driver.store]
  · by_cases ha : w.d.tcp_server_active_ = true
    · simp [afterRecv, h1, h0, ha, emit, osClose, Driver.store]
    · simp [afterRecv, h1, h0, ha, emit, osClose, store_serverExit]
      rfl

theorem store_afterRecv_rejected (n : Int) (data : Bytes) (w : World)
    (h7 : sscanf_items (cstr (data ++ [0])) ≠ 7) : (afterRecv n data w).d.store = w.d.store := by
  by_cases hn : n > 0
  · simp [afterRecv, hn, h7, emit]
  · exact store_afterRecv_nonpos n data w (by omega)

theorem store_poseTick (vm : VrMath) (hmd : TrackedDevicePose_t) (w : World) :
    (poseTick vm hmd w).d = w.d := by
  by_cases ha : w.d.pose_thread_active_ = true <;>
    by_cases hi : w.d.my_controller_index_ = k_unTrackedDeviceIndexInvalid <;>
    simp [poseTick, ha, hi, emit]

theorem store_MyRunFrame (w : World) : (MyRunFrame w).d = w.d := by
  by_cases hi : w.d.my_controller_index_ = k_unTrackedDeviceIndexInvalid <;>
    by_cases hf : w.d.new_imu_data_available_ = true <;>
    simp [MyRunFrame, hi, hf, emit]

theorem store_stopTcp (w : World) : (Deactivate_stopTcp w).2.d.store = w.d.store := by
  by_cases ha : w.d.tcp_server_active_ = true <;>
    by_cases hc : w.d.client_socket_ = INVALID_SOCKET <;>
    by_cases hl : w.d.listen_socket_ = INVALID_SOCKET <;>
    simp [Deactivate_stopTcp, ha, hc, hl, emit, osClose, Driver.store]

theorem store_serverRunToExit (w : World) : (serverRunToExit w).d.store = w.d.store := by
  have h1 : (serverFailPending w).d.store = w.d.store := by
    unfold serverFailPending
    cases w.server with
    | inAccept l => exact store_afterAccept _ w
    | inRecv x => exact store_afterRecv_nonpos _ _ w (by decide)
    | _ => rfl
  unfold serverRunToExit
  simp only
  cases (serverFailPending w).server with
  | loopTest => simp only [store_serverLoopTest, h1]
  | _ => exact h1

theorem store_finish (was : Bool) (w : World) : (Deactivate_finish was w).d.store = w.d.store := by
  have h := store_serverRunToExit w
  unfold Deactivate_finish
  simp only [emit]
  split_ifs <;> first | exact h | rfl

theorem store_Deactivate (w : World) : (Deactivate w).d.store = w.d.store := by
  unfold Deactivate
  rw [store_finish, store_stopTcp]

theorem fresh_serverStart (r : StartResult) (w : World) :
    (serverStart r w).d.store = w.d.store := by
  cases r <;> rfl

theorem fresh_Activate (unObjectId : Nat) (r : StartResult) (w : World) :
    (Activate unObjectId true r w).d.new_imu_data_available_ = false := by
  have h := congrArg Prod.snd (fresh_serverStart r (emit Call.log
    { w with
      d := { w.d with
             my_controller_index_ := unObjectId
             pose_thread_active_ := true
             tcp_server_active_ := true
             new_imu_data_available_ := false
             latest_imu_data_ :=
               { w.d.latest_imu_data_ with orientation := HmdQuaternion_Identity } }
      pose_joinable := true }))
  simpa [Activate, Driver.store, emit] using h

theorem fresh_Activate_any (unObjectId : Nat) (wsaOk : Bool) (r : StartResult) (w : World)
    (hf : w.d.new_imu_data_available_ = false) :
    (Activate unObjectId wsaOk r w).d.new_imu_data_available_ = false := by
  cases wsaOk with
  | true => exact fresh_Activate unObjectId r w
  | false => simpa [Activate, emit] using hf

theorem fresh_step (vm : VrMath) (w : World) (i : Input) (hf : w.d.new_imu_data_available_ = false)
    (hp : publishes i = false) : (step vm w i).d.new_imu_data_available_ = false := by
  have key : ∀ v : World, v.d.store = w.d.store → v.d.new_imu_data_available_ = false := by
    intro v hv
    have := congrArg Prod.snd hv
    simpa [Driver.store, hf] using this
  cases i with
  | serverSched => exact key _ (store_serverLoopTest w)
  | acceptReturns x => exact key _ (store_afterAccept x w)
  | recvReturns n data =>
    by_cases hn : n > 0
    · have h7 : sscanf_items (cstr (data ++ [0])) ≠ 7 := by
        simpa [publishes, hn] using hp
      exact key _ (store_afterRecv_rejected n data w h7)
    · exact key _ (store_afterRecv_nonpos n data w (by omega))
  | poseTick hmd => exact key _ (by simp [step, store_poseTick])
  | runFrame => exact key _ (by simp [step, store_MyRunFrame])
  | activate a b c => exact fresh_Activate_any a b c w hf
  | deactivate => exact key _ (store_Deactivate w)

theorem fresh_run (vm : VrMath) (is : List Input) :
    ∀ w : World, w.d.new_imu_data_available_ = false → (∀ i ∈ is, publishes i = false) →
      (run vm w is).d.new_imu_data_available_ = false := by
  induction is with
  | nil => intro w hf _; exact hf
  | cons i is ih =>
    intro w hf hp
    simp only [run, List.foldl_cons]
    exact ih (step vm w i) (fresh_step vm w i hf (hp i (by simp)))
      (fun j hj => hp j (by simp [hj]))

theorem getPose_rotation (vm : VrMath) (hmd : TrackedDevicePose_t) (d : Driver) :
    (GetPose vm hmd d).qRotation =
      (if d.new_imu_data_available_ then d.latest_imu_data_.orientation
       else HmdQuaternion_Identity) := by
  unfold GetPose
  simp only
  split <;> split <;> rfl

/-! ## Pose production -/

/-- C9: the rotation `GetPose` returns is the stored orientation when the fresh
flag is set and the identity otherwise, for every store, role and head pose;
hence a driver that is freshly constructed, or freshly activated, or has got
from a state without a sample through any inputs none of which publishes,
returns the identity rotation. -/
theorem C9_rotation_from_store (vm : VrMath) (hmd : TrackedDevicePose_t) (d : Driver) :
    (GetPose vm hmd d).qRotation =
        (if d.new_imu_data_available_ then d.latest_imu_data_.orientation
         else HmdQuaternion_Identity) ∧
      (∀ role, (GetPose vm hmd (construct role).d).qRotation = HmdQuaternion_Identity) ∧
      (∀ (w : World) (unObjectId : Nat) (r : StartResult),
        (GetPose vm hmd (Activate unObjectId true r w).d).qRotation = HmdQuaternion_Identity) ∧
      (∀ (w : World) (is : List Input), w.d.new_imu_data_available_ = false →
        (∀ i ∈ is, publishes i = false) →
        (GetPose vm hmd (run vm w is).d).qRotation = HmdQuaternion_Identity) := by
  refine ⟨getPose_rotation vm hmd d, ?_, ?_, ?_⟩
  · intro role
    rw [getPose_rotation]
    simp [construct]
  · intro w unObjectId r
    rw [getPose_rotation, fresh_Activate]
    simp
  · intro w is hf hp
    rw [getPose_rotation, fresh_run vm is w hf hp]
    simp

/-- C9, witness: the sample driver parked in `accept`, which no client has
ever reached, runs a pose tick, an input update and a failed `accept`; the
pose it then returns for an invalid head pose has the identity rotation. -/
theorem C9_rotation_from_store_witness :
    sampleListening.d.new_imu_data_available_ = false ∧
      (GetPose sampleVrMath hmdInvalid
        (run sampleVrMath sampleListening
          [Input.poseTick hmdAtOrigin, Input.runFrame,
           Input.acceptReturns INVALID_SOCKET]).d).qRotation = HmdQuaternion_Identity :=
  ⟨by decide,
   (C9_rotation_from_store sampleVrMath hmdInvalid sampleListening.d).2.2.2 sampleListening
     [Input.poseTick hmdAtOrigin, Input.runFrame, Input.acceptReturns INVALID_SOCKET]
     (by decide) (by decide)⟩

/-- C10: `GetPose` reports `TrackingResult_Running_OutOfRange` exactly when the
head pose is invalid and `TrackingResult_Running_OK` otherwise; with an
invalid head pose the position is the fixed fallback (x = -0.15 for the left
hand role and 0.15 for every other role, y = 1, z = -0.5) whatever the store
holds; the pose is always reported valid and connected. -/
theorem C10_tracking_result (vm : VrMath) (hmd : TrackedDevicePose_t) (d : Driver) :
    ((GetPose vm hmd d).result = ETrackingResult.TrackingResult_Running_OutOfRange ↔
        hmd.bPoseIsValid = false) ∧
      (hmd.bPoseIsValid = true →
        (GetPose vm hmd d).result = ETrackingResult.TrackingResult_Running_OK) ∧
      (hmd.bPoseIsValid = false →
        ∀ (sample : IMUData) (fresh : Bool),
          (GetPose vm hmd
            { d with latest_imu_data_ := sample, new_imu_data_available_ := fresh }).vecPosition =
            { v0 :=
                if d.my_controller_role_ = ETrackedControllerRole.TrackedControllerRole_LeftHand
                then -(15 / 100) else 15 / 100
              v1 := 1
              v2 := -(1 / 2) }) ∧
      (GetPose vm hmd d).poseIsValid = true ∧ (GetPose vm hmd d).deviceIsConnected = true := by
  cases hv : hmd.bPoseIsValid <;> cases hf : d.new_imu_data_available_ <;>
    refine ⟨?_, ?_, ?_, ?_, ?_⟩ <;> simp [GetPose, hv, hf]

/-- C10, witness: a freshly constructed left-hand driver with an invalid head
pose. -/
theorem C10_tracking_result_witness :
    hmdInvalid.bPoseIsValid = false ∧
      (GetPose sampleVrMath hmdInvalid
        (construct ETrackedControllerRole.TrackedControllerRole_LeftHand).d).result =
        ETrackingResult.TrackingResult_Running_OutOfRange ∧
      (GetPose sampleVrMath hmdInvalid
        { (construct ETrackedControllerRole.TrackedControllerRole_LeftHand).d with
          latest_imu_data_ := samplePublished.d.latest_imu_data_
          new_imu_data_available_ := true }).vecPosition =
        { v0 := -(15 / 100), v1 := 1, v2 := -(1 / 2) } :=
  ⟨rfl,
   (C10_tracking_result sampleVrMath hmdInvalid
     (construct ETrackedControllerRole.TrackedControllerRole_LeftHand).d).1.2 rfl,
   (C10_tracking_result sampleVrMath hmdInvalid
     (construct ETrackedControllerRole.TrackedControllerRole_LeftHand).d).2.2.1 rfl
     samplePublished.d.latest_imu_data_ true⟩

/-! ## Frame of the store -/

/-- C6: a zero-length read, a failed read, a return of `accept` (with a handle
or with `INVALID_SOCKET`), the loop test, a pose tick (the `GetPose` call) and
`MyRunFrame` each leave the stored sample and the fresh flag as they were; so
does a positive-length read on which other than seven items are assigned. -/
theorem C6_store_frame (vm : VrMath) (w : World) :
    (∀ (n : Int) (data : Bytes), n ≤ 0 → (afterRecv n data w).d.store = w.d.store) ∧
      (∀ h : SOCKET, (afterAccept h w).d.store = w.d.store) ∧
      (serverLoopTest w).d.store = w.d.store ∧
      (∀ hmd : TrackedDevicePose_t, (poseTick vm hmd w).d = w.d) ∧
      (MyRunFrame w).d = w.d ∧
      (∀ (n : Int) (data : Bytes), sscanf_items (cstr (data ++ [0])) ≠ 7 →
        (afterRecv n data w).d.store = w.d.store) :=
  ⟨fun n data hn => store_afterRecv_nonpos n data w hn, fun h => store_afterAccept h w,
   store_serverLoopTest w, fun hmd => store_poseTick vm hmd w, store_MyRunFrame w,
   fun n data h7 => store_afterRecv_rejected n data w h7⟩

/-- C6, witness: scenario B. After `0,0,0,1;1,0,0.75` is published and the peer
closes (a zero-length read), the store still holds `a_click = true`, trigger
0.75 and the fresh flag, and `GetPose` uses the stored orientation. -/
theorem C6_store_frame_witness :
    samplePublished.d.store =
        ({ orientation := HmdQuaternion_Identity, trigger_value := 3 / 4, a_click := true,
           trigger_click := false }, true) ∧
      (afterRecv 0 [] samplePublished).d.store = samplePublished.d.store ∧
      (afterRecv 0 [] samplePublished).d.client_socket_ = INVALID_SOCKET ∧
      (GetPose sampleVrMath hmdAtOrigin (afterRecv 0 [] samplePublished).d).qRotation =
        samplePublished.d.latest_imu_data_.orientation :=
  ⟨by decide!, (C6_store_frame sampleVrMath samplePublished).1 0 [] (by decide), by decide,
   by decide!⟩

/-! ## Stopping -/

theorem flags_serverExit (w : World) :
    (serverExit w).d.tcp_server_active_ = w.d.tcp_server_active_ ∧
      (serverExit w).pose_joinable = w.pose_joinable := by
  by_cases hc : w.d.client_socket_ = INVALID_SOCKET <;>
    by_cases hl : w.d.listen_socket_ = INVALID_SOCKET <;>
    simp [serverExit, hc, hl, emit, osClose]

theorem flags_serverLine179 (w : World) :
    (serverLine179 w).pose_joinable = w.pose_joinable := by
  by_cases hc : w.d.client_socket_ = INVALID_SOCKET <;> simp [serverLine179, hc, emit]

theorem flags_serverLoopTest (w : World) :
    (serverLoopTest w).d.tcp_server_active_ = w.d.tcp_server_active_ ∧
      (serverLoopTest w).pose_joinable = w.pose_joinable := by
  by_cases ha : w.d.tcp_server_active_ = true
  · by_cases hc : w.d.client_socket_ = INVALID_SOCKET
    · simp [serverLoopTest, ha, hc, emit]
    · simp [serverLoopTest, ha, hc, store_serverLine179, flags_serverLine179]
  · simp [serverLoopTest, ha, flags_serverExit]

theorem flags_afterAccept (h : SOCKET) (w : World) :
    (afterAccept h w).d.tcp_server_active_ = w.d.tcp_server_active_ ∧
      (afterAccept h w).pose_joinable = w.pose_joinable := by
  by_cases hx : h = INVALID_SOCKET
  · by_cases ha : w.d.tcp_server_active_ = true
    · simp [afterAccept, hx, ha, emit]
    · simp [afterAccept, hx, ha, emit, flags_serverExit]
  · simp [afterAccept, hx, store_serverLine179, flags_serverLine179, emit]

theorem flags_afterRecv_neg (w : World) :
    (afterRecv (-1) [] w).d.tcp_server_active_ = w.d.tcp_server_active_ ∧
      (afterRecv (-1) [] w).pose_joinable = w.pose_joinable := by
  by_cases ha : w.d.tcp_server_active_ = true
  · simp [afterRecv, ha, emit, osClose]
  · simp [afterRecv, ha, emit, osClose, flags_serverExit]

theorem flags_serverRunToExit (w : World) :
    (serverRunToExit w).d.tcp_server_active_ = w.d.tcp_server_active_ ∧
      (serverRunToExit w).pose_joinable = w.pose_joinable := by
  have h1 : (serverFailPending w).d.tcp_server_active_ = w.d.tcp_server_active_ ∧
      (serverFailPending w).pose_joinable = w.pose_joinable := by
    unfold serverFailPending
    cases w.server with
    | inAccept l => exact flags_afterAccept _ w
    | inRecv x => exact flags_afterRecv_neg w
    | _ => exact ⟨rfl, rfl⟩
  unfold serverRunToExit
  simp only
  cases (serverFailPending w).server with
  | loopTest => simp only [flags_serverLoopTest, h1, and_self]
  | _ => exact h1

theorem flags_stopTcp (w : World) :
    (Deactivate_stopTcp w).2.d.tcp_server_active_ = false := by
  by_cases ha : w.d.tcp_server_active_ = true <;>
    by_cases hc : w.d.client_socket_ = INVALID_SOCKET <;>
    by_cases hl : w.d.listen_socket_ = INVALID_SOCKET <;>
    simp [Deactivate_stopTcp, ha, hc, hl, emit, osClose]

theorem flags_finish (was : Bool) (w : World) :
    (Deactivate_finish was w).d.tcp_server_active_ = w.d.tcp_server_active_ ∧
      (Deactivate_finish was w).d.pose_thread_active_ = false ∧
      (Deactivate_finish was w).d.my_controller_index_ = k_unTrackedDeviceIndexInvalid := by
  have h := (flags_serverRunToExit w).1
  unfold Deactivate_finish
  simp only [emit]
  split_ifs <;> simp [h]

theorem deactivate_of_stopped (v : World) (h1 : v.d.tcp_server_active_ = false)
    (h2 : v.d.pose_thread_active_ = false)
    (h3 : v.d.my_controller_index_ = k_unTrackedDeviceIndexInvalid) :
    Deactivate v = { v with trace := v.trace ++ [Call.log, Call.WSACleanup] } := by
  obtain ⟨d, sv, pj, ls, cn, tr⟩ := v
  obtain ⟨a1, a2, a3, a4, a5, a6, a7, a8, a9⟩ := d
  simp only at h1 h2 h3
  subst h1 h2 h3
  simp [Deactivate, Deactivate_stopTcp, Deactivate_finish, emit]

/-- C7: `Deactivate` is idempotent. A second call right after a first changes
no member of the driver, no thread state and no socket: it only appends its
log line and the `WSACleanup` call to the trace, so it closes no socket,
shuts none down and joins no thread. -/
theorem C7_deactivate_idempotent (w : World) :
    Deactivate (Deactivate w) =
        { Deactivate w with trace := (Deactivate w).trace ++ [Call.log, Call.WSACleanup] } ∧
      (Deactivate (Deactivate w)).d = (Deactivate w).d ∧
      (Deactivate w).d.tcp_server_active_ = false ∧
      (Deactivate w).d.pose_thread_active_ = false := by
  have hf := flags_finish (Deactivate_stopTcp w).1 (Deactivate_stopTcp w).2
  have h1 : (Deactivate w).d.tcp_server_active_ = false := by
    simp only [Deactivate, hf.1, flags_stopTcp]
  have h2 : (Deactivate w).d.pose_thread_active_ = false := hf.2.1
  have h3 : (Deactivate w).d.my_controller_index_ = k_unTrackedDeviceIndexInvalid := hf.2.2
  have e := deactivate_of_stopped (Deactivate w) h1 h2 h3
  refine ⟨e, ?_, h1, h2⟩
  rw [e]

/-! ## One client at a time -/

theorem reachable_sampleListening (vm : VrMath) : Reachable vm sampleListening :=
  Reachable.next _ Input.serverSched
    (Reachable.next _ (Input.activate 1 true (StartResult.listening 3))
      (Reachable.init ETrackedControllerRole.TrackedControllerRole_LeftHand) (by decide))
    (by decide)

theorem reachable_sampleConnected (vm : VrMath) : Reachable vm sampleConnected :=
  Reachable.next _ (Input.acceptReturns 4) (reachable_sampleListening vm) (by decide)

theorem server_serverExit (w : World) : (serverExit w).server = ServerPc.returned := by
  by_cases hc : w.d.client_socket_ = INVALID_SOCKET <;>
    by_cases hl : w.d.listen_socket_ = INVALID_SOCKET <;>
    simp [serverExit, hc, hl, emit, osClose]

theorem server_afterRecv (n : Int) (data : Bytes) (w : World) :
    (afterRecv n data w).server = ServerPc.loopTest ∨
      (afterRecv n data w).server = ServerPc.returned := by
  by_cases hn : n > 0
  · by_cases h7 : sscanf_items (cstr (data ++ [0])) = 7 <;> simp [afterRecv, hn, h7, emit]
  · by_cases h0 : n = 0
    · simp [afterRecv, h0, emit, osClose]
    · by_cases ha : w.d.tcp_server_active_ = true
      · simp [afterRecv, hn, h0, ha, emit, osClose]
      · simp [afterRecv, hn, h0, ha, emit, osClose, server_serverExit]

theorem server_poseTick (vm : VrMath) (hmd : TrackedDevicePose_t) (w : World) :
    (poseTick vm hmd w).server = w.server := by
  by_cases ha : w.d.pose_thread_active_ = true <;>
    by_cases hi : w.d.my_controller_index_ = k_unTrackedDeviceIndexInvalid <;>
    simp [poseTick, ha, hi, emit]

theorem server_MyRunFrame (w : World) : (MyRunFrame w).server = w.server := by
  by_cases hi : w.d.my_controller_index_ = k_unTrackedDeviceIndexInvalid <;>
    by_cases hf : w.d.new_imu_data_available_ = true <;>
    simp [MyRunFrame, hi, hf, emit]

theorem server_Activate (unObjectId : Nat) (wsaOk : Bool) (r : StartResult) (w : World) :
    (Activate unObjectId wsaOk r w).server = w.server ∨
      (Activate unObjectId wsaOk r w).server = ServerPc.loopTest ∨
      (Activate unObjectId wsaOk r w).server = ServerPc.returned := by
  cases wsaOk <;> cases r <;> simp [Activate, serverStart, emit, osClose]

theorem server_Deactivate (w : World) (h : Inv w) :
    (Deactivate w).server = w.server ∨ (Deactivate w).server = ServerPc.notRunning := by
  by_cases hact : w.d.tcp_server_active_ = true
  · exact Or.inr (deactivate_active w h hact).2.1
  · have hact' : w.d.tcp_server_active_ = false := by simpa using hact
    left
    simp only [Deactivate, stopTcp_inactive w hact']
    exact (finish_false (emit Call.log w)).2.2.1

theorem serverLoopTest_client (w : World) (hc : w.d.client_socket_ ≠ INVALID_SOCKET) :
    (serverLoopTest w).server =
      if w.d.tcp_server_active_ then ServerPc.inRecv w.d.client_socket_ else ServerPc.returned := by
  by_cases ha : w.d.tcp_server_active_ = true
  · simp [serverLoopTest, ha, hc, serverLine179, emit]
  · simp [serverLoopTest, ha, server_serverExit]

/-- C4: in every reachable state at most one client socket is open; a step
that leaves the server thread in `accept` starts from a state whose
`client_socket_` is `INVALID_SOCKET`; `accept` can hand over a new peer only
when no client is open; and while `client_socket_` holds a handle the thread
is either blocked in `recv` on it or at the loop test, from where it goes to
`recv` on it (or to its exit when stopped), never to `accept`. -/
theorem C4_at_most_one_client (vm : VrMath) (w : World) (hr : Reachable vm w) :
    w.connected.length ≤ 1 ∧
      (∀ (i : Input) (l : SOCKET), enabled w i = true →
        (step vm w i).server = ServerPc.inAccept l → w.d.client_socket_ = INVALID_SOCKET) ∧
      (∀ h : SOCKET, enabled w (Input.acceptReturns h) = true → h ≠ INVALID_SOCKET →
        w.d.client_socket_ = INVALID_SOCKET ∧ w.connected = []) ∧
      (w.d.client_socket_ ≠ INVALID_SOCKET →
        w.connected = [w.d.client_socket_] ∧
        (w.server = ServerPc.inRecv w.d.client_socket_ ∨ w.server = ServerPc.loopTest) ∧
        (serverLoopTest w).server =
          if w.d.tcp_server_active_ then ServerPc.inRecv w.d.client_socket_
          else ServerPc.returned) := by
  have hinv := reachable_inv vm w hr
  obtain ⟨h1, h2, h3, h4, h5, h6, h7⟩ := hinv
  have key : ∀ l, w.server = ServerPc.inAccept l → w.d.client_socket_ = INVALID_SOCKET :=
    fun l hl => (h2 l hl).1
  refine ⟨?_, ?_, ?_, ?_⟩
  · rw [h3]; split <;> simp
  · intro i l he hs
    cases i with
    | serverSched =>
      by_contra hc
      simp only [step, serverLoopTest_client w hc] at hs
      split at hs <;> simp at hs
    | acceptReturns x =>
      cases hw : w.server with
      | inAccept l' => exact key l' hw
      | _ => simp [enabled, hw] at he
    | recvReturns n data =>
      simp only [step] at hs
      rcases server_afterRecv n data w with h | h <;> simp [h] at hs
    | poseTick hmd =>
      simp only [step, server_poseTick] at hs
      exact key l hs
    | runFrame =>
      simp only [step, server_MyRunFrame] at hs
      exact key l hs
    | activate a b c =>
      simp only [step] at hs
      rcases server_Activate a b c w with h | h | h
      · rw [h] at hs; exact key l hs
      · simp [h] at hs
      · simp [h] at hs
    | deactivate =>
      simp only [step] at hs
      rcases server_Deactivate w ⟨h1, h2, h3, h4, h5, h6, h7⟩ with h | h
      · rw [h] at hs; exact key l hs
      · simp [h] at hs
  · intro x he hx
    cases hw : w.server with
    | inAccept l' =>
      have hc := key l' hw
      exact ⟨hc, by simpa [hc] using h3⟩
    | _ => simp [enabled, hw] at he
  · intro hc
    refine ⟨by simpa [hc] using h3, ?_, serverLoopTest_client w hc⟩
    cases hw : w.server with
    | notRunning => exact absurd (h5 (Or.inl hw)).1 hc
    | returned => exact absurd (h5 (Or.inr hw)).1 hc
    | inAccept l' => exact absurd (key l' hw) hc
    | loopTest => exact Or.inr rfl
    | inRecv x => exact Or.inl (by rw [(h1 x hw).1])

/-- C4, witness: the sample driver with its one client on handle 4. A second
peer's handle 5 cannot be returned by `accept` in that state (the thread is in
`recv`), and the loop goes back to `recv`. -/
theorem C4_at_most_one_client_witness :
    Reachable sampleVrMath sampleConnected ∧ sampleConnected.connected = [4] ∧
      enabled sampleConnected (Input.acceptReturns 5) = false ∧
      sampleConnected.server = ServerPc.inRecv 4 :=
  ⟨reachable_sampleConnected sampleVrMath,
   ((C4_at_most_one_client sampleVrMath sampleConnected
      (reachable_sampleConnected sampleVrMath)).2.2.2 (by decide)).1,
   by decide, by decide⟩

/-! ## Disconnect and reconnect -/

/-- C5: in a reachable state where the server thread is blocked in `recv` on
its client `h` and the loop is active, a zero-length read closes `h`, sets
`client_socket_` to `INVALID_SOCKET` and changes nothing else but the trace:
the listening socket stays open, the flag stays true, the thread is back at
the loop test; and the next step of the thread is the call
`accept(listen_socket_)`. -/
theorem C5_zero_read_resumes_accept (vm : VrMath) (w : World) (hr : Reachable vm w) (h : SOCKET)
    (hs : w.server = ServerPc.inRecv h) (hact : w.d.tcp_server_active_ = true) (data : Bytes) :
    w.d.client_socket_ = h ∧ w.connected = [h] ∧ w.listening = [w.d.listen_socket_] ∧
      enabled w (Input.recvReturns 0 data) = true ∧
      afterRecv 0 data w =
        { w with
          d := { w.d with client_socket_ := INVALID_SOCKET }
          connected := []
          trace := w.trace ++ [Call.log, Call.closesocket h]
          server := ServerPc.loopTest } ∧
      enabled (afterRecv 0 data w) Input.serverSched = true ∧
      step vm (afterRecv 0 data w) Input.serverSched =
        { afterRecv 0 data w with
          trace := (afterRecv 0 data w).trace ++ [Call.accept w.d.listen_socket_]
          server := ServerPc.inAccept w.d.listen_socket_ } := by
  obtain ⟨h1, h2, h3, h4, h5, h6, h7⟩ := reachable_inv vm w hr
  obtain ⟨hc, hx⟩ := h1 h hs
  have hcl : w.d.client_socket_ ≠ INVALID_SOCKET := hc ▸ hx
  have hlv : w.d.listen_socket_ ≠ INVALID_SOCKET := h7 (by simp [hs]) (by simp [hs])
  have hne : w.d.client_socket_ ≠ w.d.listen_socket_ := h6 hcl
  have hcon : w.connected = [h] := by rw [h3, hc]; simp [hx]
  have hlis : w.listening = [w.d.listen_socket_] := by simpa [hlv] using h4
  have e : afterRecv 0 data w =
      { w with
        d := { w.d with client_socket_ := INVALID_SOCKET }
        connected := []
        trace := w.trace ++ [Call.log, Call.closesocket h]
        server := ServerPc.loopTest } := by
    simp [afterRecv, emit, osClose, hc, hcon, hlis]
    rw [← hc]; exact Ne.symm hne
  refine ⟨hc, hcon, hlis, ?_, e, ?_, ?_⟩
  · simp [enabled, hs]
  · rw [e]; rfl
  · rw [e]
    simp [step, serverLoopTest, hact, emit]

/-- C5, witness: the connected sample driver; its peer closes. -/
theorem C5_zero_read_resumes_accept_witness :
    sampleConnected.server = ServerPc.inRecv 4 ∧
      sampleConnected.d.tcp_server_active_ = true ∧
      (afterRecv 0 [] sampleConnected).d.client_socket_ = INVALID_SOCKET ∧
      (afterRecv 0 [] sampleConnected).listening = [3] ∧
      (step sampleVrMath (afterRecv 0 [] sampleConnected) Input.serverSched).server =
        ServerPc.inAccept 3 := by
  have h := C5_zero_read_resumes_accept sampleVrMath sampleConnected
    (reachable_sampleConnected sampleVrMath) 4 (by decide) (by decide) []
  refine ⟨by decide, by decide, ?_, ?_, ?_⟩
  · rw [h.2.2.2.2.1]
  · rw [h.2.2.2.2.1]; decide
  · rw [h.2.2.2.2.2.2]; decide

/-! ## Stopping a parked server thread -/

/-- C8: take a reachable state with the telemetry flag true and the server
thread parked in `accept` or in `recv`. After the stop signal of `Deactivate`
the flag is false, both handles are `INVALID_SOCKET` and no socket is open.
In that state the pending `accept` can only return `INVALID_SOCKET` and the
pending `recv` can only return a length of zero or less, and such a return is
available; from it the thread reaches its return with nothing but trace
entries added (at once, or through one more loop test after a zero-length
read), so no further accept or read succeeds and no sample is published.
After the whole `Deactivate` both flags are false, both handles are
`INVALID_SOCKET`, nothing is open and the thread is joined. -/
theorem C8_stop_while_parked (vm : VrMath) (w : World) (hr : Reachable vm w)
    (hact : w.d.tcp_server_active_ = true)
    (hpark : (∃ l, w.server = ServerPc.inAccept l) ∨ (∃ h, w.server = ServerPc.inRecv h)) :
    (stopSignal w).d.tcp_server_active_ = false ∧ Closed (stopSignal w) ∧
      (stopSignal w).server = w.server ∧
      (∀ h : SOCKET, enabled (stopSignal w) (Input.acceptReturns h) = true →
        h = INVALID_SOCKET ∧
        afterAccept h (stopSignal w) =
          { stopSignal w with
            trace := (stopSignal w).trace ++ [Call.log], server := ServerPc.returned }) ∧
      (∀ (n : Int) (data : Bytes), enabled (stopSignal w) (Input.recvReturns n data) = true →
        n ≤ 0 ∧
        (n < 0 →
          afterRecv n data (stopSignal w) =
            { stopSignal w with
              trace := (stopSignal w).trace ++ [Call.closesocket INVALID_SOCKET, Call.log]
              server := ServerPc.returned }) ∧
        (n = 0 →
          step vm (afterRecv n data (stopSignal w)) Input.serverSched =
            { stopSignal w with
              trace := (stopSignal w).trace ++
                [Call.log, Call.closesocket INVALID_SOCKET, Call.log]
              server := ServerPc.returned })) ∧
      (enabled (stopSignal w) (Input.acceptReturns INVALID_SOCKET) = true ∨
        enabled (stopSignal w) (Input.recvReturns (-1) []) = true) ∧
      Closed (Deactivate w) ∧ (Deactivate w).server = ServerPc.notRunning ∧
      (Deactivate w).d =
        { w.d with tcp_server_active_ := false, listen_socket_ := INVALID_SOCKET,
                   client_socket_ := INVALID_SOCKET, pose_thread_active_ := false,
                   my_controller_index_ := k_unTrackedDeviceIndexInvalid } := by
  have hinv := reachable_inv vm w hr
  obtain ⟨s1, s2, s3, s4, s5⟩ := stopTcp_active w hinv hact
  obtain ⟨d1, d2, d3⟩ := deactivate_active w hinv hact
  have hact' : (stopSignal w).d.tcp_server_active_ = false := by
    simp only [stopSignal, s5]
  have s2 : Closed (stopSignal w) := s2
  have hcon : (stopSignal w).connected = [] := s2.connected
  have hlis : (stopSignal w).listening = [] := s2.listening
  have hsv : (stopSignal w).server = w.server := s3
  refine ⟨hact', s2, s3, ?_, ?_, ?_, d1, d2, d3⟩
  · intro h he
    have hh : h = INVALID_SOCKET := by
      cases hw : w.server with
      | inAccept l =>
        by_contra hne
        have hne' : (h == INVALID_SOCKET) = false := by simpa using hne
        simp [enabled, hsv, hw, hlis, hne'] at he
      | _ => simp [enabled, hsv, hw] at he
    subst hh
    exact ⟨rfl, afterAccept_closed _ s2 hact'⟩
  · intro n data he
    have hn : n ≤ 0 := by
      cases hw : w.server with
      | inRecv x =>
        by_contra hpos
        simp [enabled, hsv, hw, hcon, hpos] at he
      | _ => simp [enabled, hsv, hw] at he
    refine ⟨hn, ?_, ?_⟩
    · intro hneg
      exact afterRecv_closed _ s2 hact' n data hneg
    · intro h0
      subst h0
      rw [afterRecv_zero_closed _ s2 data]
      simp [step, serverLoopTest, hact', serverExit, emit, s2.client, s2.listen]
  · rcases hpark with ⟨l, hl⟩ | ⟨x, hx⟩
    · left; simp [enabled, hsv, hl]
    · right; simp [enabled, hsv, hx]

/-- C8, witness: `Deactivate` on the sample driver parked in `recv` on its
client, and on the sample driver parked in `accept`. -/
theorem C8_stop_while_parked_witness :
    sampleConnected.d.tcp_server_active_ = true ∧
      sampleConnected.server = ServerPc.inRecv 4 ∧
      enabled (stopSignal sampleConnected) (Input.recvReturns 5 (bytesOf "0,0,0")) = false ∧
      (Deactivate sampleConnected).d.client_socket_ = INVALID_SOCKET ∧
      (Deactivate sampleConnected).d.listen_socket_ = INVALID_SOCKET ∧
      (Deactivate sampleConnected).listening = [] ∧
      (Deactivate sampleConnected).connected = [] ∧
      sampleListening.server = ServerPc.inAccept 3 ∧
      enabled (stopSignal sampleListening) (Input.acceptReturns 4) = false ∧
      (Deactivate sampleListening).d.listen_socket_ = INVALID_SOCKET ∧
      (Deactivate sampleListening).listening = [] := by
  have h := C8_stop_while_parked sampleVrMath sampleConnected
    (reachable_sampleConnected sampleVrMath) (by decide) (Or.inr ⟨4, by decide⟩)
  have h' := C8_stop_while_parked sampleVrMath sampleListening
    (reachable_sampleListening sampleVrMath) (by decide) (Or.inl ⟨3, by decide⟩)
  obtain ⟨_, _, _, _, _, _, hc, _, hd⟩ := h
  obtain ⟨_, _, _, _, _, _, hc', _, hd'⟩ := h'
  refine ⟨by decide, by decide, by decide, ?_, ?_, hc.listening, hc.connected, by decide,
    by decide, ?_, hc'.listening⟩
  · rw [hd]
  · rw [hd]
  · rw [hd']

/-! ## One sample per read -/

theorem scanDirectives_message_ext (m : WireMessage) (hw : m.wf) (rest : Bytes)
    (hr : cannotExtend m.trigVal rest) :
    scanDirectives imuFormat (m.bytes ++ rest) =
      [Arg.dbl (toDouble m.qx.number), Arg.dbl (toDouble m.qy.number),
       Arg.dbl (toDouble m.qz.number), Arg.dbl (toDouble m.qw.number),
       Arg.int (strtolValue m.aClick.value), Arg.int (strtolValue m.trigClick.value),
       Arg.flt (toFloat m.trigVal.number)] := by
  obtain ⟨h1, h2, h3, h4, h5, h6, h7⟩ := hw
  simp only [WireMessage.bytes, imuFormat, List.append_assoc, List.cons_append, scanDirectives,
    scanFloat_tok _ h1 _ (numberStop_sep 44 _ (Or.inl rfl)),
    scanFloat_tok _ h2 _ (numberStop_sep 44 _ (Or.inl rfl)),
    scanFloat_tok _ h3 _ (numberStop_sep 44 _ (Or.inl rfl)),
    scanFloat_tok _ h4 _ (numberStop_sep 59 _ (Or.inr rfl)),
    scanInt_tok _ h5 _ (digitStop_sep 44 _ (Or.inl rfl)),
    scanInt_tok _ h6 _ (digitStop_sep 44 _ (Or.inl rfl)),
    scanFloat_tok_ext _ h7 _ hr, if_true]

theorem cannotExtend_cstr (t : DecimalTok) (rest : Bytes) (hr : cannotExtend t rest) :
    cannotExtend t (cstr (rest ++ [0])) := by
  cases rest with
  | nil => intro c hc; simp [cstr] at hc
  | cons x r =>
    by_cases hx : x = 0
    · intro c hc; simp [cstr, List.takeWhile, hx] at hc
    · have hx' : (x != 0) = true := by simp [hx]
      intro c hc
      have : c = x := by
        simp only [cstr, List.cons_append, List.takeWhile, hx', List.head?_cons, Option.mem_def,
          Option.some.injEq] at hc
        exact hc.symm
      subst this
      exact hr c (by simp)

theorem cannotExtend_nil (t : DecimalTok) : cannotExtend t [] := by
  intro c hc; simp at hc

/-- The C string read by `sscanf_s` when the buffer is a message followed by `rest`. -/
theorem cstr_message (m : WireMessage) (rest : Bytes) :
    cstr ((m.bytes ++ rest) ++ [0]) = m.bytes ++ cstr (rest ++ [0]) := by
  rw [List.append_assoc]; exact cstr_append _ _ (wireMessage_bytes_pos m)

theorem received_data_temp_prefix (m : WireMessage) (hw : m.wf) (x y : Bytes)
    (hx : cannotExtend m.trigVal x) (hy : cannotExtend m.trigVal y) :
    received_data_temp (m.bytes ++ x) = received_data_temp (m.bytes ++ y) := by
  simp only [received_data_temp, scanDirectives_message_ext m hw x hx,
    scanDirectives_message_ext m hw y hy]

theorem sscanf_items_message_ext (m : WireMessage) (hw : m.wf) (x : Bytes)
    (hx : cannotExtend m.trigVal x) : sscanf_items (m.bytes ++ x) = 7 := by
  simp [sscanf_items, skipSpace_message m hw x, scanDirectives_message_ext m hw x hx]

/-- A read whose buffer is a well-formed seven-field message `m` followed by
any bytes that cannot continue the last number of `m` has exactly the effect
of a read of `m` alone: seven items are assigned, the store holds the four
orientation values of `m` as `double`s, its trigger value as a `float` and the
click flags decoded from its two click fields (each true when the low-order
byte of the field, as `strtol` converts it, is non-zero), the fresh flag is
set, and nothing is logged. Nothing after `m` has any effect; in particular
after a newline any further bytes, such as further messages, are ignored. -/
theorem afterRecv_first_message (m : WireMessage) (hw : m.wf) (rest : Bytes)
    (hr : cannotExtend m.trigVal rest) (recv_len : Int) (hlen : recv_len > 0) (w : World) :
    sscanf_items (cstr ((m.bytes ++ rest) ++ [0])) = 7 ∧
      afterRecv recv_len (m.bytes ++ rest) w = afterRecv recv_len m.bytes w ∧
      (afterRecv recv_len (m.bytes ++ rest) w).d.store =
        ({ m.sample with
           a_click := decide (strtolValue m.aClick.value % 256 ≠ 0)
           trigger_click := decide (strtolValue m.trigClick.value % 256 ≠ 0) }, true) ∧
      ((m.aClick.value = 0 ∨ strtolValue m.aClick.value % 256 ≠ 0) →
        (m.trigClick.value = 0 ∨ strtolValue m.trigClick.value % 256 ≠ 0) →
        (afterRecv recv_len (m.bytes ++ rest) w).d.store = (m.sample, true)) ∧
      (afterRecv recv_len (m.bytes ++ rest) w).trace = w.trace ∧
      (∀ more : Bytes,
        afterRecv recv_len (m.bytes ++ 10 :: more) w = afterRecv recv_len m.bytes w) := by
  have key : ∀ x : Bytes, cannotExtend m.trigVal x →
      sscanf_items (cstr ((m.bytes ++ x) ++ [0])) = 7 ∧
        afterRecv recv_len (m.bytes ++ x) w =
          { w with
            d := { w.d with
                   latest_imu_data_ := received_data_temp m.bytes
                   new_imu_data_available_ := true }
            server := ServerPc.loopTest } := by
    intro x hx
    have hs := cannotExtend_cstr m.trigVal x hx
    have h7 : sscanf_items (cstr ((m.bytes ++ x) ++ [0])) = 7 := by
      rw [cstr_message]; exact sscanf_items_message_ext m hw _ hs
    refine ⟨h7, ?_⟩
    rw [afterRecv_publishes _ _ _ hlen h7, cstr_message,
      received_data_temp_prefix m hw _ [] hs (cannotExtend_nil _), List.append_nil]
  have hm : afterRecv recv_len m.bytes w =
      { w with
        d := { w.d with
               latest_imu_data_ := received_data_temp m.bytes
               new_imu_data_available_ := true }
        server := ServerPc.loopTest } := by
    have := (key [] (cannotExtend_nil _)).2
    rwa [List.append_nil] at this
  have hval : received_data_temp m.bytes =
      { m.sample with
        a_click := decide (strtolValue m.aClick.value % 256 ≠ 0)
        trigger_click := decide (strtolValue m.trigClick.value % 256 ≠ 0) } := by
    have := received_data_temp_message m hw [] (by simp [numberStop])
    rwa [List.append_nil] at this
  obtain ⟨h7, he⟩ := key rest hr
  have hstore : (afterRecv recv_len (m.bytes ++ rest) w).d.store =
      ({ m.sample with
         a_click := decide (strtolValue m.aClick.value % 256 ≠ 0)
         trigger_click := decide (strtolValue m.trigClick.value % 256 ≠ 0) }, true) := by
    rw [he]; simp only [Driver.store, hval]
  have hflag : ∀ v : Int, (v = 0 ∨ strtolValue v % 256 ≠ 0) →
      decide (strtolValue v % 256 ≠ 0) = decide (v ≠ 0) := by
    intro v hv
    rcases hv with h | h
    · subst h; decide
    · have h0 : v ≠ 0 := by
        intro h0; subst h0; exact h (by decide)
      simp [h, h0]
  refine ⟨h7, by rw [he, hm], hstore, ?_, by rw [he], ?_⟩
  · intro ha ht
    rw [hstore, hflag _ ha, hflag _ ht]
    rfl
  · intro more
    have hnl : cannotExtend m.trigVal (10 :: more) := by
      intro c hc
      simp only [List.head?_cons, Option.mem_def, Option.some.injEq] at hc
      subst hc
      refine ⟨by decide, fun _ => by decide, fun _ _ => by decide, fun _ _ _ => by decide⟩
    rw [(key _ hnl).2, hm]

/-- Scenario B's message, a newline and the message `1,0,0,0;0,1,0.25` arrive
in one read of 33 bytes. The store then holds the first message, which is not
what the second alone would publish. -/
theorem afterRecv_two_messages :
    msgScenarioB.bytes = bytesOf "0,0,0,1;1,0,0.75" ∧
      msgSecond.bytes = bytesOf "1,0,0,0;0,1,0.25" ∧
      (msgScenarioB.bytes ++ 10 :: msgSecond.bytes).length = 33 ∧
      (afterRecv 33 (msgScenarioB.bytes ++ 10 :: msgSecond.bytes) sampleConnected).d.store =
        ({ orientation := HmdQuaternion_Identity, trigger_value := 3 / 4, a_click := true,
           trigger_click := false }, true) ∧
      (afterRecv 16 msgSecond.bytes sampleConnected).d.store =
        ({ orientation := { w := 0, x := 1, y := 0, z := 0 }, trigger_value := 1 / 4,
           a_click := false, trigger_click := true }, true) := by
  refine ⟨by decide, by decide, by decide, by decide!, by decide!⟩

/-- C12: the well-formed message `0,0,0,1;256,0,0.0`, a newline and the
message `1,0,0,0;0,1,0.25` arrive in one read of 34 bytes on the connected
sample driver. The values of the first message include `a_click = true`, its
aClick field being 256. The read takes its one sample from the front of the
buffer (nothing of the second message is stored, and the store is that of a
read of the first message alone), but the sample it stores has
`a_click = false`: the store does not hold the values of the first message. -/
theorem C12_first_message_click_lost :
    msgClick256.wf ∧ msgSecond.wf ∧
      msgClick256.bytes = bytesOf "0,0,0,1;256,0,0.0" ∧
      msgSecond.bytes = bytesOf "1,0,0,0;0,1,0.25" ∧
      (msgClick256.bytes ++ 10 :: msgSecond.bytes).length = 34 ∧
      cannotExtend msgClick256.trigVal (10 :: msgSecond.bytes) ∧
      enabled sampleConnected
        (Input.recvReturns 34 (msgClick256.bytes ++ 10 :: msgSecond.bytes)) = true ∧
      msgClick256.sample =
        { orientation := HmdQuaternion_Identity, trigger_value := 0, a_click := true,
          trigger_click := false } ∧
      sscanf_items (cstr ((msgClick256.bytes ++ 10 :: msgSecond.bytes) ++ [0])) = 7 ∧
      (afterRecv 34 (msgClick256.bytes ++ 10 :: msgSecond.bytes) sampleConnected).d.store =
        ({ orientation := HmdQuaternion_Identity, trigger_value := 0, a_click := false,
           trigger_click := false }, true) ∧
      (afterRecv 34 (msgClick256.bytes ++ 10 :: msgSecond.bytes) sampleConnected).d.store ≠
        (msgClick256.sample, true) ∧
      (afterRecv 34 (msgClick256.bytes ++ 10 :: msgSecond.bytes) sampleConnected).d.store =
        (afterRecv 17 msgClick256.bytes sampleConnected).d.store := by
  refine ⟨by decide, by decide, by decide, by decide, by decide, by decide, by decide,
    by decide!, by decide, by decide!, by decide!, by decide!⟩

/-! ## The fresh flag over the lifecycle -/

theorem reachable_samplePublished (vm : VrMath) : Reachable vm samplePublished :=
  Reachable.next _ (Input.recvReturns 16 (bytesOf "0,0,0,1;1,0,0.75"))
    (reachable_sampleConnected vm) (by decide)

theorem fresh_kept_afterRecv (n : Int) (data : Bytes) (w : World)
    (hf : w.d.new_imu_data_available_ = true) :
    (afterRecv n data w).d.new_imu_data_available_ = true := by
  by_cases hn : n > 0
  · by_cases h7 : sscanf_items (cstr (data ++ [0])) = 7
    · rw [afterRecv_publishes n data w hn h7]
    · have := congrArg Prod.snd (store_afterRecv_rejected n data w h7)
      simpa [Driver.store, hf] using this
  · have := congrArg Prod.snd (store_afterRecv_nonpos n data w (by omega))
    simpa [Driver.store, hf] using this

theorem fresh_kept_step (vm : VrMath) (w : World) (i : Input)
    (hf : w.d.new_imu_data_available_ = true) (hr : resets i = false) :
    (step vm w i).d.new_imu_data_available_ = true := by
  have key : ∀ v : World, v.d.store = w.d.store → v.d.new_imu_data_available_ = true := by
    intro v hv
    have := congrArg Prod.snd hv
    simpa [Driver.store, hf] using this
  cases i with
  | serverSched => exact key _ (store_serverLoopTest w)
  | acceptReturns x => exact key _ (store_afterAccept x w)
  | recvReturns n data => exact fresh_kept_afterRecv n data w hf
  | poseTick hmd => exact key _ (by simp [step, store_poseTick])
  | runFrame => exact key _ (by simp [step, store_MyRunFrame])
  | activate a b c =>
    have hb : b = false := by simpa [resets] using hr
    subst hb
    simpa [step, Activate, emit] using hf
  | deactivate => exact key _ (store_Deactivate w)

theorem fresh_kept_run (vm : VrMath) (is : List Input) :
    ∀ w : World, w.d.new_imu_data_available_ = true → (∀ i ∈ is, resets i = false) →
      (run vm w is).d.new_imu_data_available_ = true := by
  induction is with
  | nil => intro w hf _; exact hf
  | cons i is ih =>
    intro w hf hp
    simp only [run, List.foldl_cons]
    exact ih (step vm w i) (fresh_kept_step vm w i hf (hp i (by simp)))
      (fun j hj => hp j (by simp [hj]))

/-- C11, counterexample: the sample driver has published scenario B's message,
so its fresh flag is true; the host calls `Deactivate` and then `Activate`
(both enabled, so the resulting state is reachable), and the fresh flag is
false, while the click and trigger values of the old sample are still in the
store. -/
theorem C11_activate_clears_fresh :
    Reachable sampleVrMath samplePublished ∧
      samplePublished.d.new_imu_data_available_ = true ∧
      enabled samplePublished Input.deactivate = true ∧
      enabled (step sampleVrMath samplePublished Input.deactivate)
        (Input.activate 2 true (StartResult.listening 5)) = true ∧
      Reachable sampleVrMath (run sampleVrMath samplePublished
        [Input.deactivate, Input.activate 2 true (StartResult.listening 5)]) ∧
      (run sampleVrMath samplePublished
        [Input.deactivate, Input.activate 2 true (StartResult.listening 5)]).d.new_imu_data_available_
        = false ∧
      (run sampleVrMath samplePublished
        [Input.deactivate, Input.activate 2 true (StartResult.listening 5)]).d.latest_imu_data_.a_click
        = true := by
  have hr := reachable_samplePublished sampleVrMath
  have he : enabled (step sampleVrMath samplePublished Input.deactivate)
      (Input.activate 2 true (StartResult.listening 5)) = true := by decide
  refine ⟨hr, by decide, rfl, he, ?_, by decide, by decide⟩
  exact Reachable.next _ (Input.activate 2 true (StartResult.listening 5))
    (Reachable.next _ Input.deactivate hr rfl) he

/-- C11, amended: from a state whose fresh flag is true, any sequence of driver
operations in which no `Activate` gets past `WSAStartup` (reads that publish,
reads that are rejected, disconnects and failed reads, returns of `accept`,
loop tests, pose ticks with their `GetPose`, `MyRunFrame`, `Deactivate`, and
an `Activate` that fails in `WSAStartup`) leaves the flag true; an `Activate`
that gets past `WSAStartup` sets it to false and the stored orientation to
the identity. -/
theorem C11_fresh_kept_until_activate (vm : VrMath) (w : World) (is : List Input)
    (hf : w.d.new_imu_data_available_ = true) (hn : ∀ i ∈ is, resets i = false) :
    (run vm w is).d.new_imu_data_available_ = true ∧
      (∀ (unObjectId : Nat) (r : StartResult),
        (step vm (run vm w is)
          (Input.activate unObjectId true r)).d.new_imu_data_available_ = false ∧
        (step vm (run vm w is)
          (Input.activate unObjectId true r)).d.latest_imu_data_.orientation =
          HmdQuaternion_Identity) := by
  refine ⟨fresh_kept_run vm is w hf hn, ?_⟩
  intro unObjectId r
  refine ⟨fresh_Activate unObjectId r _, ?_⟩
  cases r <;> simp [step, Activate, serverStart, emit, osClose]

/-- C11, witness: after scenario B's message the sample driver gets a rejected
buffer, a zero-length read, a loop test, a pose tick, an input update, a
`Deactivate` and an `Activate` that fails in `WSAStartup`; the flag is still
true. -/
theorem C11_fresh_kept_until_activate_witness :
    samplePublished.d.new_imu_data_available_ = true ∧
      (run sampleVrMath samplePublished
        [Input.recvReturns 8 (bytesOf "bad,data"), Input.recvReturns 0 [], Input.serverSched,
         Input.poseTick hmdAtOrigin, Input.runFrame, Input.deactivate,
         Input.activate 2 false StartResult.socketFailed]).d.new_imu_data_available_ = true :=
  ⟨by decide,
   (C11_fresh_kept_until_activate sampleVrMath samplePublished
     [Input.recvReturns 8 (bytesOf "bad,data"), Input.recvReturns 0 [], Input.serverSched,
      Input.poseTick hmdAtOrigin, Input.runFrame, Input.deactivate,
      Input.activate 2 false StartResult.socketFailed] (by decide) (by decide)).1⟩

end GhalibVR
